import Mathlib

/-!
Candle storage of the interval bot (`examples/interval_bot/internal/bot/candles.go`).

A shallow embedding of `CandlesStorage`: the in-memory range query `Candles`
and the transactional write path `storeCandlesInDB`, followed by the
properties of the storage specification that were checked against them.

Conventions of the embedding

* `time.Time` is an integer count of nanoseconds from the Unix epoch, so
  `After` is `<` read backwards and `Unix()` is the floor division by `10^9`.
* Go maps are functions into `Option`; slices are lists.
* `float64` columns are values of a type parameter `F`; the conversion
  `(*pb.Quotation).ToFloat` belongs to the `proto` package and is taken as a
  parameter `toFloat`.
* What the database answers that the program cannot foresee (a statement
  failing for a reason of the engine or of the driver) is an explicit input,
  `Faults`. What sqlite does to the transaction when a statement fails follows
  from the code of the error: most failures undo the statement only, a few end
  the transaction and leave the connection in autocommit mode
  (`DBError.endsTransaction`, `Conn`).
* The market data service, the clock and the iteration order of Go maps are
  inputs as well (`MarketDataService`, `now`, `Env`); a method returns, with its
  error and the storage it leaves, the calls it made (`Step`).
-/

namespace Bot

/-! ## Data model -/

/-- Instants of `time.Time`, in nanoseconds from the Unix epoch. -/
abbrev Time := Int

/-- The method `t.After(u)`: `t` is strictly later than `u`. -/
def Time.After (t u : Time) : Bool := decide (u < t)

/-- The method `t.Unix()`: whole seconds from the epoch, rounded down. -/
def Time.Unix (t : Time) : Int := t / 1000000000

/-- The zero value of `time.Time`, January 1 of year 1, 00:00:00 UTC. -/
def Time.zero : Time := -62135596800 * 1000000000

/-- The message `pb.Quotation`: whole units and billionths. -/
structure Quotation where
  Units : Int
  Nano : Int
deriving DecidableEq, Repr

/-- The message `pb.HistoricCandle` (the fields the storage reads). -/
structure HistoricCandle where
  Open : Quotation
  High : Quotation
  Low : Quotation
  Close : Quotation
  Volume : Int
  Time : Bot.Time
  IsComplete : Bool
deriving DecidableEq, Repr

/-- The struct `StorageInstrument`; `CandleInterval` is the number of the enum value. -/
structure StorageInstrument where
  CandleInterval : Int
  PriceStep : Option Quotation
  FirstUpdate : Time
  LastUpdate : Time
  Ticker : String
deriving DecidableEq, Repr

/-- The zero value of `StorageInstrument`, what a map read gives for an absent key. -/
def StorageInstrument.zero : StorageInstrument :=
  { CandleInterval := 0, PriceStep := none, FirstUpdate := Time.zero,
    LastUpdate := Time.zero, Ticker := "" }

/-- A row of the table `candles` (struct `CandleDB`). -/
structure CandleDB (F : Type) where
  Id : Nat
  InstrumentUid : String
  Open : F
  Close : F
  High : F
  Low : F
  Volume : Int
  Time : Int
  IsComplete : Int
deriving DecidableEq, Repr

/-- A row of the table `updates`. -/
structure UpdateRow where
  InstrumentId : String
  FirstTime : Int
  LastTime : Int
deriving DecidableEq, Repr

/-- The committed content of the sqlite file: both tables of `schema`, and
the counter that `autoincrement` keeps for `candles.id`. -/
structure DB (F : Type) where
  candles : List (CandleDB F)
  seq : Nat
  updates : List UpdateRow
deriving DecidableEq, Repr

/-- The struct `CandlesStorage` (`mds` and `logger` carry no state of their own). -/
structure CandlesStorage (F : Type) where
  instruments : String → Option StorageInstrument
  candles : String → Option (List HistoricCandle)
  db : DB F

/-- The method `ticker`. -/
def CandlesStorage.ticker {F : Type} (c : CandlesStorage F) (key : String) : String :=
  match c.instruments key with
  | none => "not found"
  | some t => t.Ticker

deriving instance DecidableEq for Except

/-! ## The range query `Candles` -/

/-- The two errors `Candles` builds with `fmt.Errorf`, and the run-time panic
of a slice expression whose bounds are out of range. -/
inductive CandlesError where
  | instrumentNotFound (id : String)
  | candlesNotFound (ticker : String) (from_ : Time)
  | sliceBoundsOutOfRange
deriving DecidableEq, Repr

/-- The locals of the loop of `Candles`: `indexes[0]`, `indexes[1]`, `currIndex`. -/
structure Scan where
  indexes0 : Nat
  indexes1 : Nat
  currIndex : Nat
deriving DecidableEq, Repr

/-- The assignment `indexes[currIndex] = i` followed by `currIndex++`, for `currIndex < 2`. -/
def Scan.record (s : Scan) (i : Nat) : Scan :=
  if s.currIndex = 0 then { s with indexes0 := i, currIndex := 1 }
  else { s with indexes1 := i, currIndex := s.currIndex + 1 }

/-- The loop `for i, candle := range allCandles` of `Candles`, entered at index `i`;
`times0`, `times1` are `times[0]`, `times[1]`. -/
def scanLoop (times0 times1 : Time) : List HistoricCandle → Nat → Scan → Scan
  | [], _, s => s
  | candle :: rest, i, s =>
    if s.currIndex < 2 then
      if Time.After candle.Time (if s.currIndex = 0 then times0 else times1) then
        scanLoop times0 times1 rest (i + 1) (s.record i)
      else
        scanLoop times0 times1 rest (i + 1) s
    else
      s

/-- The slice expression `xs[lo:hi]`; `none` is the run-time panic. The bound
checked is the length (the expressions of `Candles` never reach beyond it). -/
def goSlice {α : Type} (xs : List α) (lo hi : Nat) : Option (List α) :=
  if lo ≤ hi ∧ hi ≤ xs.length then some ((xs.take hi).drop lo) else none

/-- The method `Candles`. -/
def Candles {F : Type} (c : CandlesStorage F) (id : String) (from_ to_ : Time) :
    Except CandlesError (List HistoricCandle) :=
  match c.candles id with
  | none => .error (.instrumentNotFound id)
  | some allCandles =>
    let s := scanLoop from_ to_ allCandles 0 { indexes0 := 0, indexes1 := 0, currIndex := 0 }
    if s.currIndex = 0 then
      .error (.candlesNotFound (c.ticker id) from_)
    else if s.indexes1 = 0 then
      match goSlice allCandles s.indexes0 allCandles.length with
      | some r => .ok r
      | none => .error .sliceBoundsOutOfRange
    else
      match goSlice allCandles s.indexes0 s.indexes1 with
      | some r => .ok r
      | none => .error .sliceBoundsOutOfRange

/-! ## The write path `storeCandlesInDB` -/

/-- The error values the database calls can return: a value of the type
`sqlite3.Error` (with its `Code` and `ExtendedCode`), any error whose chain
holds no `sqlite3.Error`, and the result of `errors.Join`. -/
inductive DBError where
  | sqlite (code : Nat) (extendedCode : Nat)
  | other (msg : String)
  | join (a b : DBError)
deriving DecidableEq, Repr

/-- The test `errors.As(err, &sqlite3.Error{})`: some error of the chain has the
type `sqlite3.Error`. -/
def DBError.isSqlite3Error : DBError → Bool
  | .sqlite _ _ => true
  | .other _ => false
  | .join a b => a.isSqlite3Error || b.isSqlite3Error

/-- The error of sqlite for a violated `unique (instrument_uid, time)`:
`Code = ErrConstraint` (19), `ExtendedCode = ErrConstraintUnique` (2067). -/
def uniqueViolation : DBError := .sqlite 19 2067

/-- The primary result codes after which sqlite ends the transaction on its
own: for a statement that runs without statement journal, as the single-row
`insert` of `storeCandlesInDB` does, a failure with `SQLITE_NOMEM` (7),
`SQLITE_INTERRUPT` (9), `SQLITE_IOERR` (10) or `SQLITE_FULL` (13) rolls the
whole transaction back and puts the connection in autocommit mode. Any other
failure (a violated constraint, `SQLITE_BUSY`) undoes the statement only. -/
def DBError.endsTransaction : DBError → Bool
  | .sqlite code _ =>
    decide (code = 7) || decide (code = 9) || decide (code = 10) || decide (code = 13)
  | .other _ => false
  | .join _ _ => false

/-- The error of sqlite for a `COMMIT` or a `ROLLBACK` on a connection that has
no open transaction ("cannot commit - no transaction is active"):
`Code = ErrError` (1). -/
def noTransaction : DBError := .sqlite 1 1

/-- What the database calls of one `storeCandlesInDB` answer beyond what the
tables decide: `none` lets the call proceed, `some e` makes it fail with `e`.
`execErr k` is for the `Exec` of the candle at position `k` of the batch. -/
structure Faults where
  beginErr : Option DBError
  prepareErr : Option DBError
  execErr : Nat → Option DBError
  rollbackErr : Option DBError
  commitErr : Option DBError
  updatesErr : Option DBError

/-- No database call fails for a reason of its own. -/
def Faults.healthy : Faults :=
  { beginErr := none, prepareErr := none, execErr := fun _ => none,
    rollbackErr := none, commitErr := none, updatesErr := none }

/-- The content of the table `candles`, with the counter of `autoincrement`. -/
structure Tx (F : Type) where
  candles : List (CandleDB F)
  seq : Nat
deriving DecidableEq, Repr

/-- The connection that runs the candle transaction: `stored` is what the file
holds, `seen` what the statements of the connection see, and `inTx` tells
whether the transaction begun by `Begin` is still open. Once sqlite has ended
the transaction the connection is in autocommit mode: every statement is
written at once, and `seen` and `stored` agree. -/
structure Conn (F : Type) where
  stored : Tx F
  seen : Tx F
  inTx : Bool
deriving DecidableEq, Repr

/-- The connection when `Begin` has returned on the database `db`. -/
def Conn.opened {F : Type} (db : DB F) : Conn F :=
  { stored := { candles := db.candles, seq := db.seq },
    seen := { candles := db.candles, seq := db.seq }, inTx := true }

/-- The row the `insert` statement binds for one candle; `id` is the value
given by `autoincrement`. -/
def candleRow {F : Type} (toFloat : Quotation → F) (id : Nat) (uid : String)
    (candle : HistoricCandle) : CandleDB F :=
  { Id := id, InstrumentUid := uid,
    Open := toFloat candle.Open, Close := toFloat candle.Close,
    High := toFloat candle.High, Low := toFloat candle.Low,
    Volume := candle.Volume, Time := Time.Unix candle.Time,
    IsComplete := if candle.IsComplete then 1 else 0 }

/-- The constraint `unique (instrument_uid, time)` of `schema`: a row of the
table already has this pair. -/
def hasKey {F : Type} (rows : List (CandleDB F)) (uid : String) (time : Int) : Bool :=
  rows.any (fun r => decide (r.InstrumentUid = uid) && decide (r.Time = time))

/-- One `insertCandle.Exec(uid, ...)`, with the error it returns and the
connection as it leaves it. It fails with the fault if there is one, and with
the uniqueness violation if the pair is stored; a failed statement adds no row,
and a fault that ends the transaction also drops what the transaction had
written so far. Otherwise the row is appended, to the file too when the
connection is in autocommit mode. -/
def insertExec {F : Type} (toFloat : Quotation → F) (fault : Option DBError) (conn : Conn F)
    (uid : String) (candle : HistoricCandle) : Option DBError × Conn F :=
  match fault with
  | some e =>
    if e.endsTransaction then
      (some e, { stored := conn.stored, seen := conn.stored, inTx := false })
    else (some e, conn)
  | none =>
    if hasKey conn.seen.candles uid (Time.Unix candle.Time) then (some uniqueViolation, conn)
    else
      let seen : Tx F :=
        { candles := conn.seen.candles ++ [candleRow toFloat (conn.seen.seq + 1) uid candle],
          seq := conn.seen.seq + 1 }
      (none, { stored := if conn.inTx then conn.stored else seen, seen := seen,
               inTx := conn.inTx })

/-- The loop `for _, candle := range hc` of `storeCandlesInDB`, entered at
position `k`: an error that `errors.As` finds to be a `sqlite3.Error` is
skipped, any other error leaves the loop. -/
def insertLoop {F : Type} (toFloat : Quotation → F) (execErr : Nat → Option DBError)
    (uid : String) : List HistoricCandle → Nat → Conn F → Option DBError × Conn F
  | [], _, conn => (none, conn)
  | candle :: rest, k, conn =>
    match insertExec toFloat (execErr k) conn uid candle with
    | (none, conn') => insertLoop toFloat execErr uid rest (k + 1) conn'
    | (some err, conn') =>
      if err.isSqlite3Error then insertLoop toFloat execErr uid rest (k + 1) conn'
      else (some err, conn')

/-- The error of `tx.Rollback()`: the fault if there is one, and the refusal of
sqlite when the connection has no open transaction any more. -/
def rollbackResult {F : Type} (f : Faults) (conn : Conn F) : Option DBError :=
  match f.rollbackErr with
  | some errRb => some errRb
  | none => if conn.inTx then none else some noTransaction

/-- The error returned after `tx.Rollback()`: `err`, joined with the error of
the rollback when there is one. -/
def afterRollback {F : Type} (f : Faults) (conn : Conn F) (err : DBError) : DBError :=
  match rollbackResult f conn with
  | some errRb => .join err errRb
  | none => err

/-- The error of `tx.Commit()`: the fault if there is one, and the refusal of
sqlite when the connection has no open transaction any more. -/
def commitResult {F : Type} (f : Faults) (conn : Conn F) : Option DBError :=
  match f.commitErr with
  | some err => some err
  | none => if conn.inTx then none else some noTransaction

/-- The function literal at the head of `storeCandlesInDB`: the candle
transaction. When `tx.Commit()` returns no error the tables hold what the
connection has written; otherwise they hold what the file held, which is more
than before the call only if rows were written in autocommit mode. -/
def storeCandlesTx {F : Type} (toFloat : Quotation → F) (f : Faults) (db : DB F)
    (uid : String) (hc : List HistoricCandle) : Option DBError × DB F :=
  match f.beginErr with
  | some err => (some err, db)
  | none =>
    match f.prepareErr with
    | some err => (some (afterRollback f (Conn.opened db) err), db)
    | none =>
      match insertLoop toFloat f.execErr uid hc 0 (Conn.opened db) with
      | (some err, conn) =>
        (some (afterRollback f conn err),
          { db with candles := conn.stored.candles, seq := conn.stored.seq })
      | (none, conn) =>
        match commitResult f conn with
        | some err =>
          (some err, { db with candles := conn.stored.candles, seq := conn.stored.seq })
        | none => (none, { db with candles := conn.seen.candles, seq := conn.seen.seq })

/-- The statement `insert or replace into updates`: the row of the instrument
is replaced, or added when there is none. -/
def replaceUpdate (rows : List UpdateRow) (r : UpdateRow) : List UpdateRow :=
  rows.filter (fun x => decide (x.InstrumentId ≠ r.InstrumentId)) ++ [r]

/-- The map read `c.instruments[uid]`, the zero value for an absent key. -/
def CandlesStorage.instrument {F : Type} (c : CandlesStorage F) (uid : String) :
    StorageInstrument :=
  (c.instruments uid).getD StorageInstrument.zero

/-- The method `storeCandlesInDB`; the result is the returned error (`none` is
`nil`) and the storage with the database as the call leaves it. -/
def storeCandlesInDB {F : Type} (toFloat : Quotation → F) (f : Faults) (c : CandlesStorage F)
    (uid : String) (update : Time) (hc : List HistoricCandle) :
    Option DBError × CandlesStorage F :=
  match storeCandlesTx toFloat f c.db uid hc with
  | (some err, db) => (some err, { c with db := db })
  | (none, db) =>
    match f.updatesErr with
    | some err => (some err, { c with db := db })
    | none =>
      let row : UpdateRow :=
        { InstrumentId := uid, FirstTime := Time.Unix (c.instrument uid).FirstUpdate,
          LastTime := Time.Unix update }
      (none, { c with db := { db with updates := replaceUpdate db.updates row } })

/-! ## Fetching and reconciling: `LoadCandlesHistory`, `UpdateCandlesHistory`, `NewCandlesStorage` -/

/-- The call `time.Unix(s, 0)`. -/
def Time.ofUnix (s : Int) : Time := s * 1000000000

/-- The struct `investgo.GetHistoricCandlesRequest`, as the storage fills it. -/
structure GetHistoricCandlesRequest where
  Instrument : String
  Interval : Int
  From : Time
  To : Time
  File : Bool
  FileName : String
deriving DecidableEq, Repr

/-- What `mds.GetHistoricCandles` answers to a request: the candles, or an
error (its message). The client is not part of the storage; its answer is an
input. -/
abbrev MarketDataService := GetHistoricCandlesRequest → Except String (List HistoricCandle)

/-- The errors the fetching methods return: the one `UpdateCandlesHistory`
builds with `fmt.Errorf`, the error of `GetHistoricCandles`, an error of the
database. -/
inductive StorageError where
  | notInStorage (ticker : String)
  | fetch (msg : String)
  | db (err : DBError)
deriving DecidableEq, Repr

/-- The calls a method makes to its collaborators, in the order it makes them:
`mds.GetHistoricCandles(req)` and `storeCandlesInDB(uid, update, hc)`. -/
inductive Event where
  | fetch (req : GetHistoricCandlesRequest)
  | store (uid : String) (update : Time) (hc : List HistoricCandle)
deriving DecidableEq, Repr

/-- The outcome of a method: the returned error (`none` is `nil`), the storage
as the method leaves it, and the calls it made. -/
structure Step (F : Type) where
  err : Option StorageError
  cs : CandlesStorage F
  log : List Event

/-- The map assignment `m[k] = v`. -/
def setKey {V : Type} (m : String → Option V) (k : String) (v : V) : String → Option V :=
  fun x => if x = k then some v else m x

/-- The method `UpdateCandlesHistory`; `now` is the reading of `time.Now()`,
`mds` the answer of the market data service, `f` the faults of the commit. -/
def UpdateCandlesHistory {F : Type} (toFloat : Quotation → F) (now : Time)
    (mds : MarketDataService) (f : Faults) (c : CandlesStorage F) (id : String) : Step F :=
  match c.instruments id with
  | none => { err := some (.notInStorage (c.ticker id)), cs := c, log := [] }
  | some instrument =>
    let req : GetHistoricCandlesRequest :=
      { Instrument := id, Interval := instrument.CandleInterval,
        From := instrument.LastUpdate, To := now, File := false, FileName := "" }
    match mds req with
    | .error e => { err := some (.fetch e), cs := c, log := [.fetch req] }
    | .ok newCandles =>
      let c1 : CandlesStorage F :=
        { c with
          instruments := setKey c.instruments id { instrument with LastUpdate := now },
          candles := setKey c.candles id ((c.candles id).getD [] ++ newCandles) }
      let r := storeCandlesInDB toFloat f c1 id now newCandles
      { err := r.1.map .db, cs := r.2, log := [.fetch req, .store id now newCandles] }

/-- The method `LoadCandlesHistory`. -/
def LoadCandlesHistory {F : Type} (toFloat : Quotation → F) (now : Time)
    (mds : MarketDataService) (f : Faults) (c : CandlesStorage F) (id : String)
    (interval : Int) (inc : Option Quotation) (from_ : Time) : Step F :=
  let req : GetHistoricCandlesRequest :=
    { Instrument := id, Interval := interval, From := from_, To := now,
      File := false, FileName := "" }
  match mds req with
  | .error e => { err := some (.fetch e), cs := c, log := [.fetch req] }
  | .ok newCandles =>
    let c1 : CandlesStorage F :=
      { c with
        instruments := setKey c.instruments id
          { StorageInstrument.zero with
            CandleInterval := interval, PriceStep := inc, LastUpdate := now },
        candles := setKey c.candles id newCandles }
    let r := storeCandlesInDB toFloat f c1 id now newCandles
    { err := r.1.map .db, cs := r.2, log := [.fetch req, .store id now newCandles] }

/-- The method `lastUpdates` when the query succeeds: the map built from the
rows of `updates`, a later row of an instrument replacing an earlier one. -/
def lastUpdates (rows : List UpdateRow) : String → Option StorageInstrument :=
  rows.foldl
    (fun m r => setKey m r.InstrumentId
      { StorageInstrument.zero with
        FirstUpdate := Time.ofUnix r.FirstTime, LastUpdate := Time.ofUnix r.LastTime })
    (fun _ => none)

/-- The zero value `CandleDB{}`. -/
def CandleDB.zero {F : Type} [Zero F] : CandleDB F :=
  { Id := 0, InstrumentUid := "", Open := 0, Close := 0, High := 0, Low := 0,
    Volume := 0, Time := 0, IsComplete := 0 }

/-- The method `loadCandlesFromDB`: the rows of the instrument with `time between
from_.Unix() and to_.Unix()`, ordered by time; a row equal to `CandleDB{}` is
left out. `fromFloat` is `investgo.FloatToQuotation`, `loadErr` a failure of
the query. -/
def loadCandlesFromDB {F : Type} [DecidableEq F] [Zero F]
    (fromFloat : F → Option Quotation → Quotation) (loadErr : Option DBError)
    (c : CandlesStorage F) (uid : String) (inc : Option Quotation) (from_ to_ : Time) :
    Except DBError (List HistoricCandle) :=
  match loadErr with
  | some err => .error err
  | none =>
    let rows := (c.db.candles.filter (fun r =>
        decide (r.InstrumentUid = uid) && decide (Time.Unix from_ ≤ r.Time)
          && decide (r.Time ≤ Time.Unix to_))).insertionSort (fun a b => a.Time ≤ b.Time)
    .ok ((rows.filter (fun dst => decide (dst ≠ CandleDB.zero))).map (fun dst =>
      { Open := fromFloat dst.Open inc, High := fromFloat dst.High inc,
        Low := fromFloat dst.Low inc, Close := fromFloat dst.Close inc,
        Volume := dst.Volume, Time := Time.ofUnix dst.Time,
        IsComplete := decide (dst.IsComplete = (1 : Int)) }))

/-- The struct `NewCandlesStorageRequest`; `RequiredInstruments` lists the
entries of the map (the keys are distinct). The path, the logger and the
client are part of `Env`. -/
structure NewCandlesStorageRequest where
  Update : Bool
  RequiredInstruments : List (String × StorageInstrument)
  From : Time
  To : Time

/-- What the surroundings answer during one `NewCandlesStorage`: failures of
`initDB` and `lastUpdates`, the reading `now`, the order in which the k-th
`range` over the map of required instruments yields its entries, and, per
instrument, the answers met in the per-instrument pass (`mds`, `faults`), in the
update pass (`updateNow`, `updateMds`, `updateFaults`) and when the working set
is loaded (`loadErr`). -/
structure Env where
  initErr : Option DBError
  lastUpdatesErr : Option DBError
  now : Time
  rangeOrder : Nat → List (String × StorageInstrument) → List (String × StorageInstrument)
  mds : MarketDataService
  faults : String → Faults
  updateNow : String → Time
  updateMds : MarketDataService
  updateFaults : String → Faults
  loadErr : String → Option DBError

/-- A `for ... range` loop whose body may `return nil, err`: the first error
ends the loop. -/
def rangeLoop {α F : Type} (body : α → CandlesStorage F → Step F) :
    List α → CandlesStorage F → Step F
  | [], cs => { err := none, cs := cs, log := [] }
  | x :: rest, cs =>
    match (body x cs).err with
    | some err => { err := some err, cs := (body x cs).cs, log := (body x cs).log }
    | none =>
      { err := (rangeLoop body rest (body x cs).cs).err,
        cs := (rangeLoop body rest (body x cs).cs).cs,
        log := (body x cs).log ++ (rangeLoop body rest (body x cs).cs).log }

/-- The body of the first loop of `NewCandlesStorage`, for one required
instrument: `DBUpdates` is the result of `lastUpdates`, `now` the reading taken
before the loop. -/
def reconcileOne {F : Type} (toFloat : Quotation → F) (now : Time) (mds : MarketDataService)
    (f : Faults) (DBUpdates : String → Option StorageInstrument)
    (entry : String × StorageInstrument) (cs : CandlesStorage F) : Step F :=
  match DBUpdates entry.1 with
  | none =>
    let req : GetHistoricCandlesRequest :=
      { Instrument := entry.1, Interval := entry.2.CandleInterval,
        From := entry.2.FirstUpdate, To := now, File := false, FileName := "" }
    match mds req with
    | .error e => { err := some (.fetch e), cs := cs, log := [.fetch req] }
    | .ok newCandles =>
      let instrument : StorageInstrument := { entry.2 with LastUpdate := now }
      let cs1 : CandlesStorage F :=
        { cs with instruments := setKey cs.instruments entry.1 instrument }
      let r := storeCandlesInDB toFloat f cs1 entry.1 now newCandles
      { err := r.1.map .db, cs := r.2, log := [.fetch req, .store entry.1 now newCandles] }
  | some upd =>
    if Time.After entry.2.FirstUpdate upd.FirstUpdate then
      let instrument : StorageInstrument :=
        { entry.2 with FirstUpdate := upd.FirstUpdate, LastUpdate := upd.LastUpdate }
      { err := none,
        cs := { cs with instruments := setKey cs.instruments entry.1 instrument },
        log := [] }
    else
      let req : GetHistoricCandlesRequest :=
        { Instrument := entry.1, Interval := entry.2.CandleInterval,
          From := entry.2.FirstUpdate, To := upd.FirstUpdate, File := false, FileName := "" }
      match mds req with
      | .error e => { err := some (.fetch e), cs := cs, log := [.fetch req] }
      | .ok oldCandles =>
        let instrument : StorageInstrument := { entry.2 with LastUpdate := upd.LastUpdate }
        let cs1 : CandlesStorage F :=
          { cs with instruments := setKey cs.instruments entry.1 instrument }
        let r := storeCandlesInDB toFloat f cs1 entry.1 instrument.LastUpdate oldCandles
        { err := r.1.map .db, cs := r.2,
          log := [.fetch req, .store entry.1 upd.LastUpdate oldCandles] }

/-- The first loop of `NewCandlesStorage` (the per-instrument pass) over the
entries in the order `order`. -/
def reconcilePass {F : Type} (toFloat : Quotation → F) (env : Env)
    (DBUpdates : String → Option StorageInstrument)
    (order : List (String × StorageInstrument)) (cs : CandlesStorage F) : Step F :=
  rangeLoop (fun entry cs =>
    reconcileOne toFloat env.now env.mds (env.faults entry.1) DBUpdates entry cs) order cs

/-- The second loop of `NewCandlesStorage`, run when `req.Update` is set. -/
def updatePass {F : Type} (toFloat : Quotation → F) (env : Env)
    (order : List (String × StorageInstrument)) (cs : CandlesStorage F) : Step F :=
  rangeLoop (fun entry cs =>
    UpdateCandlesHistory toFloat (env.updateNow entry.1) env.updateMds
      (env.updateFaults entry.1) cs entry.1) order cs

/-- The third loop of `NewCandlesStorage`: the working sets are read from the
database. -/
def loadPass {F : Type} [DecidableEq F] [Zero F] (fromFloat : F → Option Quotation → Quotation)
    (env : Env) (from_ to_ : Time) (order : List (String × StorageInstrument))
    (cs : CandlesStorage F) : Step F :=
  rangeLoop (fun entry cs =>
    match loadCandlesFromDB fromFloat (env.loadErr entry.1) cs entry.1 entry.2.PriceStep
        from_ to_ with
    | .error err => { err := some (.db err), cs := cs, log := [] }
    | .ok tmp => { err := none, cs := { cs with candles := setKey cs.candles entry.1 tmp },
                   log := [] }) order cs

/-- The storage `NewCandlesStorage` starts from: two empty maps and the
database just opened. -/
def emptyStorage {F : Type} (db : DB F) : CandlesStorage F :=
  { instruments := fun _ => none, candles := fun _ => none, db := db }

/-- The function `NewCandlesStorage`; `db` is the content of the file at
`req.DBPath` once `initDB` has run. On an error the Go function returns `nil`
for the storage: `cs` is then kept for its `db`, the state the file is left in. -/
def NewCandlesStorage {F : Type} [DecidableEq F] [Zero F] (toFloat : Quotation → F)
    (fromFloat : F → Option Quotation → Quotation) (env : Env) (db : DB F)
    (req : NewCandlesStorageRequest) : Step F :=
  let cs0 : CandlesStorage F := emptyStorage db
  match env.initErr with
  | some err => { err := some (.db err), cs := cs0, log := [] }
  | none =>
    match env.lastUpdatesErr with
    | some err => { err := some (.db err), cs := cs0, log := [] }
    | none =>
      let s1 := reconcilePass toFloat env (lastUpdates db.updates)
        (env.rangeOrder 0 req.RequiredInstruments) cs0
      match s1.err with
      | some err => { err := some err, cs := s1.cs, log := s1.log }
      | none =>
        let s2 : Step F :=
          if req.Update then updatePass toFloat env (env.rangeOrder 1 req.RequiredInstruments) s1.cs
          else { err := none, cs := s1.cs, log := [] }
        match s2.err with
        | some err => { err := some err, cs := s2.cs, log := s1.log ++ s2.log }
        | none =>
          let s3 := loadPass fromFloat env req.From req.To
            (env.rangeOrder 2 req.RequiredInstruments) s2.cs
          { err := s3.err, cs := s3.cs, log := s1.log ++ s2.log }

/-- What the loop and the two slice expressions of `Candles` amount to: the
first candle after `from_`, followed by the candles after it up to the next
one that is after `to_`. -/
def scanResult (from_ to_ : Time) : List HistoricCandle → Option (List HistoricCandle)
  | [] => none
  | c :: rest =>
    if Time.After c.Time from_ then
      some (c :: rest.takeWhile (fun x => !Time.After x.Time to_))
    else scanResult from_ to_ rest

/-- The part of `Candles` after the loop. -/
def finish (ticker : String) (from_ : Time) (allCandles : List HistoricCandle) (s : Scan) :
    Except CandlesError (List HistoricCandle) :=
  if s.currIndex = 0 then
    .error (.candlesNotFound ticker from_)
  else if s.indexes1 = 0 then
    match goSlice allCandles s.indexes0 allCandles.length with
    | some r => .ok r
    | none => .error .sliceBoundsOutOfRange
  else
    match goSlice allCandles s.indexes0 s.indexes1 with
    | some r => .ok r
    | none => .error .sliceBoundsOutOfRange

/-- Timestamps ascending along the working set (equal neighbours allowed). -/
def Ascending (ws : List HistoricCandle) : Prop :=
  ws.Pairwise (fun a b => a.Time ≤ b.Time)

instance (ws : List HistoricCandle) : Decidable (Ascending ws) := by
  unfold Ascending; infer_instance

/-- The candles of the window `from_ < t ≤ to_`, in working-set order. -/
def window (from_ to_ : Time) (ws : List HistoricCandle) : List HistoricCandle :=
  ws.filter (fun x => decide (from_ < x.Time) && decide (x.Time ≤ to_))

/-- No database call of a commit fails for a reason of its own: the only
failures left are the inserts that the uniqueness constraint refuses. -/
def Faults.OnlyUniqueness (f : Faults) : Prop :=
  f.beginErr = none ∧ f.prepareErr = none ∧ (∀ k, f.execErr k = none) ∧
    f.commitErr = none ∧ f.updatesErr = none

/-- The constraint `unique (instrument_uid, time)` as a property of a table. -/
def KeysUnique {F : Type} (rows : List (CandleDB F)) : Prop :=
  rows.Pairwise (fun a b => ¬ (a.InstrumentUid = b.InstrumentUid ∧ a.Time = b.Time))

/-! ## `SignalServiceClient.GetSignals` (`investgo/signal.go`) -/

/-- The method `t.IsZero()`. -/
def Time.IsZero (t : Time) : Bool := decide (t = Time.zero)

/-- The message `pb.Page`. -/
structure Page where
  Limit : Int
  PageNumber : Int
deriving DecidableEq, Repr

/-- The struct `investgo.GetSignalsRequest`, with the fields `GetSignals` reads;
a pointer field is an `Option`, an enum its number. -/
structure GetSignalsRequest where
  SignalID : Option String
  StrategyID : Option String
  StrategyType : Option Int
  InstrumentUID : Option String
  From : Time
  To : Time
  Direction : Option Int
  Active : Option Int
  Paging : Option Page
deriving DecidableEq, Repr

/-- The message `pb.GetSignalsRequest`; `From` and `To` are pointers to a
timestamp, `none` when the field is absent. -/
structure PbGetSignalsRequest where
  SignalId : Option String
  StrategyId : Option String
  StrategyType : Option Int
  InstrumentUid : Option String
  From : Option Time
  To : Option Time
  Direction : Option Int
  Active : Option Int
  Paging : Option Page
deriving DecidableEq, Repr

/-- What `pbClient.GetSignals` gives back: the response, the error, and the
metadata written through `grpc.Header` and `grpc.Trailer`. -/
structure PbReply (R : Type) where
  resp : Option R
  err : Option String
  header : List (String × String)
  trailer : List (String × String)

/-- The struct `investgo.GetSignalsResponse`; `Response` is the embedded
`*pb.GetSignalsResponse`. -/
structure GetSignalsResponse (R : Type) where
  Response : Option R
  Header : List (String × String)

/-- The message `GetSignals` sends: the locals `from` and `to` are declared
without value (`nil`), set to `nil` when the time of the request is zero, and
not assigned anywhere else. -/
def SignalServiceClient.outgoing (request : GetSignalsRequest) : PbGetSignalsRequest :=
  let from0 : Option Time := none
  let to0 : Option Time := none
  let from1 : Option Time := if request.From.IsZero then none else from0
  let to1 : Option Time := if request.To.IsZero then none else to0
  { SignalId := request.SignalID, StrategyId := request.StrategyID,
    StrategyType := request.StrategyType, InstrumentUid := request.InstrumentUID,
    From := from1, To := to1, Direction := request.Direction, Active := request.Active,
    Paging := request.Paging }

/-- The method `SignalServiceClient.GetSignals`: the response with its header
(the trailer when the call failed), and the error. -/
def SignalServiceClient.GetSignals {R : Type} (pbClient : PbGetSignalsRequest → PbReply R)
    (request : GetSignalsRequest) : GetSignalsResponse R × Option String :=
  let reply := pbClient (SignalServiceClient.outgoing request)
  let header := if reply.err.isSome then reply.trailer else reply.header
  ({ Response := reply.resp, Header := header }, reply.err)

/-- The rows of `updates` that belong to an instrument (its checkpoint). -/
def checkpointRows {F : Type} (db : DB F) (id : String) : List UpdateRow :=
  db.updates.filter (fun r => decide (r.InstrumentId = id))

/-- The rows of `candles` that belong to an instrument. -/
def candleRows {F : Type} (db : DB F) (uid : String) : List (CandleDB F) :=
  db.candles.filter (fun r => decide (r.InstrumentUid = uid))

/-- The requests sent to `GetHistoricCandles` for an instrument, in order. -/
def fetchesFor (id : String) (log : List Event) : List GetHistoricCandlesRequest :=
  log.filterMap (fun e =>
    match e with
    | .fetch req => if req.Instrument = id then some req else none
    | .store _ _ _ => none)

/-- The calls of `storeCandlesInDB` for an instrument, in order. -/
def storesFor (id : String) (log : List Event) : List (Time × List HistoricCandle) :=
  log.filterMap (fun e =>
    match e with
    | .fetch _ => none
    | .store uid update hc => if uid = id then some (update, hc) else none)

/-- The constraint `instrument_id text unique` of `schema` as a property of the
table `updates`. -/
def UpdatesUnique (rows : List UpdateRow) : Prop :=
  (rows.map (fun r => r.InstrumentId)).Nodup

/-- What holds of every run of `NewCandlesStorage`: the required instruments are
the entries of a map (distinct keys), every `range` over the map yields each
entry once, and the database found satisfies the constraints of `schema`. -/
def WellFormed {F : Type} (env : Env) (db : DB F) (req : NewCandlesStorageRequest) : Prop :=
  (req.RequiredInstruments.map Prod.fst).Nodup ∧
  (∀ k, (env.rangeOrder k req.RequiredInstruments).Perm req.RequiredInstruments) ∧
  UpdatesUnique db.updates ∧ KeysUnique db.candles

/-- The descriptors agree with the stored checkpoints: every instrument with a
descriptor has exactly one checkpoint row, holding the two times of the
descriptor in Unix seconds. -/
def CheckpointsAgree {F : Type} (c : CandlesStorage F) : Prop :=
  ∀ id inst, c.instruments id = some inst →
    checkpointRows c.db id
      = [{ InstrumentId := id, FirstTime := Time.Unix inst.FirstUpdate,
           LastTime := Time.Unix inst.LastUpdate }]

/-- The storages a program can hold: the result of a successful
`NewCandlesStorage`, followed by any number of successful `LoadCandlesHistory`
and `UpdateCandlesHistory` calls. -/
inductive Reachable {F : Type} [DecidableEq F] [Zero F] (toFloat : Quotation → F)
    (fromFloat : F → Option Quotation → Quotation) : CandlesStorage F → Prop where
  | new (env : Env) (db : DB F) (req : NewCandlesStorageRequest)
      (hwf : WellFormed env db req)
      (herr : (NewCandlesStorage toFloat fromFloat env db req).err = none) :
      Reachable toFloat fromFloat (NewCandlesStorage toFloat fromFloat env db req).cs
  | load (c : CandlesStorage F) (now : Time) (mds : MarketDataService) (f : Faults)
      (id : String) (interval : Int) (inc : Option Quotation) (from_ : Time)
      (hc : Reachable toFloat fromFloat c)
      (herr : (LoadCandlesHistory toFloat now mds f c id interval inc from_).err = none) :
      Reachable toFloat fromFloat (LoadCandlesHistory toFloat now mds f c id interval inc from_).cs
  | update (c : CandlesStorage F) (now : Time) (mds : MarketDataService) (f : Faults)
      (id : String)
      (hc : Reachable toFloat fromFloat c)
      (herr : (UpdateCandlesHistory toFloat now mds f c id).err = none) :
      Reachable toFloat fromFloat (UpdateCandlesHistory toFloat now mds f c id).cs

/-- The state of `NewCandlesStorage` after its first loop. -/
def afterReconcile {F : Type} (toFloat : Quotation → F) (env : Env) (db : DB F)
    (req : NewCandlesStorageRequest) : Step F :=
  reconcilePass toFloat env (lastUpdates db.updates)
    (env.rangeOrder 0 req.RequiredInstruments) (emptyStorage db)

/-- The state of `NewCandlesStorage` after its second loop, which runs only
when `req.Update` is set. -/
def afterUpdate {F : Type} (toFloat : Quotation → F) (env : Env) (db : DB F)
    (req : NewCandlesStorageRequest) : Step F :=
  if req.Update then
    updatePass toFloat env (env.rangeOrder 1 req.RequiredInstruments)
      (afterReconcile toFloat env db req).cs
  else { err := none, cs := (afterReconcile toFloat env db req).cs, log := [] }

/-- The instruments with a descriptor are the instruments with a working set. -/
def SameKeys {F : Type} (c : CandlesStorage F) : Prop :=
  ∀ id, (c.instruments id).isSome ↔ (c.candles id).isSome

/-- The storages a program can hold when calls may fail: the result of a
successful `NewCandlesStorage`, followed by any number of `LoadCandlesHistory`
and `UpdateCandlesHistory` calls, whatever they return. -/
inductive ReachableAny {F : Type} [DecidableEq F] [Zero F] (toFloat : Quotation → F)
    (fromFloat : F → Option Quotation → Quotation) : CandlesStorage F → Prop where
  | new (env : Env) (db : DB F) (req : NewCandlesStorageRequest)
      (hwf : WellFormed env db req)
      (herr : (NewCandlesStorage toFloat fromFloat env db req).err = none) :
      ReachableAny toFloat fromFloat (NewCandlesStorage toFloat fromFloat env db req).cs
  | load (c : CandlesStorage F) (now : Time) (mds : MarketDataService) (f : Faults)
      (id : String) (interval : Int) (inc : Option Quotation) (from_ : Time)
      (hc : ReachableAny toFloat fromFloat c) :
      ReachableAny toFloat fromFloat
        (LoadCandlesHistory toFloat now mds f c id interval inc from_).cs
  | update (c : CandlesStorage F) (now : Time) (mds : MarketDataService) (f : Faults)
      (id : String)
      (hc : ReachableAny toFloat fromFloat c) :
      ReachableAny toFloat fromFloat (UpdateCandlesHistory toFloat now mds f c id).cs

/-! ## The range query as the specification words it -/

/-- The index of the first candle of the working set whose timestamp is
strictly after `t`. -/
def firstAfter (t : Time) : List HistoricCandle → Option Nat
  | [] => none
  | c :: rest => if t < c.Time then some 0 else (firstAfter t rest).map (· + 1)

/-- The range query of the specification: the lower bound is the first candle
strictly after `from_`, the upper bound the first candle strictly after `to_`;
`none` is `RangeNotCovered`. -/
def rangeQuerySpec (from_ to_ : Time) (ws : List HistoricCandle) : Option (List HistoricCandle) :=
  match firstAfter from_ ws with
  | none => none
  | some lowerBound =>
    match firstAfter to_ ws with
    | none => some (ws.drop lowerBound)
    | some upperBound => some ((ws.take upperBound).drop lowerBound)

/-! ## Examples used below -/

/-- A candle at instant `t` (all other fields zero). -/
def candleAt (t : Time) : HistoricCandle :=
  { Open := ⟨0, 0⟩, High := ⟨0, 0⟩, Low := ⟨0, 0⟩, Close := ⟨0, 0⟩,
    Volume := 0, Time := t, IsComplete := true }

/-- A storage whose only working set, for instrument `"X"`, is `ws`. -/
def storageOf (ws : List HistoricCandle) : CandlesStorage Int :=
  { instruments := fun _ => none,
    candles := fun id => if id = "X" then some ws else none,
    db := { candles := [], seq := 0, updates := [] } }

/-- The instant `n` seconds after the epoch. -/
def sec (n : Int) : Time := n * 1000000000

/-- A stand-in for `ToFloat` in the evaluations below: the whole units. -/
def unitsOnly (q : Quotation) : Int := q.Units

/-- The first `Exec` of the batch fails with the `sqlite3.Error` of code
`ErrBusy` (5); every other call succeeds. -/
def busyOnFirstExec : Faults :=
  { Faults.healthy with execErr := fun k => if k = 0 then some (.sqlite 5 5) else none }

/-- The second `Exec` of the batch fails in the driver, with an error that is
not a `sqlite3.Error`, and the rollback succeeds. -/
def driverErrorOnSecondExec : Faults :=
  { Faults.healthy with execErr := fun k => if k = 1 then some (.other "driver: bad connection") else none }

/-- The second `Exec` of the batch fails with the `sqlite3.Error` of code
`ErrFull` (13, the disk is full); every other call succeeds. -/
def diskFullOnSecondExec : Faults :=
  { Faults.healthy with execErr := fun k => if k = 1 then some (.sqlite 13 13) else none }

/-- The transaction cannot be opened. -/
def beginFails : Faults :=
  { Faults.healthy with beginErr := some (.other "sql: database is closed") }

/-- A market data service that answers every request with the candles `cs`. -/
def answering (cs : List HistoricCandle) : MarketDataService := fun _ => .ok cs

/-- A market data service that fails every request. -/
def unavailable : MarketDataService := fun _ => .error "unavailable"

/-- A storage that knows the instrument `"X"`: synced from 0 s to 50 s, with the
candle at 10 s in its working set and in the database. -/
def knownX : CandlesStorage Int :=
  { instruments := fun id =>
      if id = "X" then
        some { CandleInterval := 1, PriceStep := none, FirstUpdate := sec 0,
               LastUpdate := sec 50, Ticker := "TCKR" }
      else none,
    candles := fun id => if id = "X" then some [candleAt (sec 10)] else none,
    db := { candles := [candleRow unitsOnly 1 "X" (candleAt (sec 10))], seq := 1,
            updates := [{ InstrumentId := "X", FirstTime := 0, LastTime := 50 }] } }

/-- Surroundings in which nothing fails: `now` is 100 s, the per-instrument pass
fetches the candle at 60 s, the update pass runs at 200 s and fetches the
candle at 150 s, and every `range` yields the entries in the order listed. -/
def quietEnv : Env :=
  { initErr := none, lastUpdatesErr := none, now := sec 100,
    rangeOrder := fun _ l => l,
    mds := answering [candleAt (sec 60)],
    faults := fun _ => Faults.healthy,
    updateNow := fun _ => sec 200,
    updateMds := answering [candleAt (sec 150)],
    updateFaults := fun _ => Faults.healthy,
    loadErr := fun _ => none }

/-- A required instrument whose desired start is `t`. -/
def instrumentFrom (t : Time) : StorageInstrument :=
  { CandleInterval := 1, PriceStep := none, FirstUpdate := t, LastUpdate := Time.zero,
    Ticker := "TCKR" }

/-- An empty database. -/
def emptyDB : DB Int := { candles := [], seq := 0, updates := [] }

/-- A database that holds, for the instrument `"X"`, the candle at 150 s and the
checkpoint (100 s, 200 s). -/
def syncedDB : DB Int :=
  { candles := [candleRow unitsOnly 1 "X" (candleAt (sec 150))], seq := 1,
    updates := [{ InstrumentId := "X", FirstTime := 100, LastTime := 200 }] }

/-- A stand-in for `FloatToQuotation` in the evaluations below. -/
def unitsBack (x : Int) (_inc : Option Quotation) : Quotation := { Units := x, Nano := 0 }

/-- The surroundings `quietEnv`, except that the market data service fails every
request for the instrument `"B"`. -/
def failingForB : Env :=
  { quietEnv with
    mds := fun req =>
      if req.Instrument = "B" then .error "unavailable" else .ok [candleAt (sec 60)] }

/-- The request for the three instruments `"A"`, `"B"`, `"C"`, each with desired
start 50 s, without update. -/
def requestABC : NewCandlesStorageRequest :=
  { Update := false,
    RequiredInstruments :=
      [("A", instrumentFrom (sec 50)), ("B", instrumentFrom (sec 50)),
       ("C", instrumentFrom (sec 50))],
    From := sec 0, To := sec 300 }

/-- The request for the one instrument `"X"` with desired start 50 s, without
update. -/
def requestX : NewCandlesStorageRequest :=
  { Update := false, RequiredInstruments := [("X", instrumentFrom (sec 50))],
    From := sec 0, To := sec 300 }

/-- A request for signals with the time filter from 100 s to 200 s. -/
def signalsBetween : GetSignalsRequest :=
  { SignalID := none, StrategyID := some "s1", StrategyType := none, InstrumentUID := none,
    From := sec 100, To := sec 200, Direction := none, Active := some 1,
    Paging := some { Limit := 10, PageNumber := 0 } }

/-- The storage that `NewCandlesStorage` builds on an empty database for the
instrument `"X"`, after `LoadCandlesHistory` has added the instrument `"Y"` at
150 s and a call of `UpdateCandlesHistory` for `"X"` has failed at 200 s, the
market data service being unavailable. -/
def afterFailedUpdate : CandlesStorage Int :=
  (UpdateCandlesHistory unitsOnly (sec 200) unavailable Faults.healthy
    (LoadCandlesHistory unitsOnly (sec 150) (answering [candleAt (sec 120)]) Faults.healthy
      (NewCandlesStorage unitsOnly unitsBack quietEnv emptyDB requestX).cs
      "Y" 1 none (sec 110)).cs "X").cs

/-! ## The loop of `Candles` -/

theorem scanLoop_done (t0 t1 : Time) (ws : List HistoricCandle) (i : Nat) (s : Scan)
    (h : 2 ≤ s.currIndex) : scanLoop t0 t1 ws i s = s := by
  cases ws with
  | nil => rfl
  | cons c rest => simp [scanLoop]; omega

theorem drop_take_append {α : Type} (pre l : List α) (k : Nat) :
    ((pre ++ l).take (pre.length + k)).drop pre.length = l.take k := by
  induction pre with
  | nil => simp
  | cons a pre ih =>
    have h : (a :: pre).length + k = (pre.length + k) + 1 := by simp; omega
    rw [h]
    simpa using ih

theorem finish_upper (tk : String) (t0 t1 : Time) (pre : List HistoricCandle) (c : HistoricCandle)
    (rest mid : List HistoricCandle) :
    finish tk t0 (pre ++ c :: (mid ++ rest))
        (scanLoop t0 t1 rest (pre.length + 1 + mid.length)
          { indexes0 := pre.length, indexes1 := 0, currIndex := 1 })
      = .ok (c :: (mid ++ rest.takeWhile (fun x => !Time.After x.Time t1))) := by
  induction rest generalizing mid with
  | nil =>
    have h := drop_take_append pre (c :: mid) (mid.length + 1)
    simp [scanLoop, finish, goSlice]
    simpa using h
  | cons d rest ih =>
    by_cases hd : Time.After d.Time t1 = true
    · simp only [scanLoop, hd]
      simp only [Scan.record]
      rw [scanLoop_done _ _ _ _ _ (by simp)]
      have h := drop_take_append pre (c :: (mid ++ d :: rest)) (mid.length + 1)
      have e : pre.length + 1 + mid.length = pre.length + (mid.length + 1) := by omega
      have hle : pre.length + (mid.length + 1) ≤ pre.length + (mid.length + (rest.length + 1) + 1) := by
        omega
      simp [finish, goSlice, hd, e, hle, h]
    · have hd' : Time.After d.Time t1 = false := by simpa using hd
      have := ih (mid ++ [d])
      simp at this
      have e : pre.length + 1 + mid.length + 1 = pre.length + 1 + (mid.length + 1) := by omega
      simp [scanLoop, hd', e]
      simpa using this

theorem finish_lower (tk : String) (t0 t1 : Time) (pre ws : List HistoricCandle) :
    finish tk t0 (pre ++ ws)
        (scanLoop t0 t1 ws pre.length { indexes0 := 0, indexes1 := 0, currIndex := 0 })
      = match scanResult t0 t1 ws with
        | none => .error (.candlesNotFound tk t0)
        | some r => .ok r := by
  induction ws generalizing pre with
  | nil => simp [scanLoop, finish, scanResult]
  | cons c rest ih =>
    by_cases hc : Time.After c.Time t0 = true
    · have h := finish_upper tk t0 t1 pre c rest []
      simp at h
      simp [scanLoop, scanResult, hc, Scan.record]
      exact h
    · have hc' : Time.After c.Time t0 = false := by simpa using hc
      have h := ih (pre ++ [c])
      simp at h
      simp [scanLoop, scanResult, hc']
      exact h

/-- The method `Candles`, with the loop replaced by its index-free reading. -/
theorem Candles_eq {F : Type} (c : CandlesStorage F) (id : String) (from_ to_ : Time) :
    Candles c id from_ to_ =
      match c.candles id with
      | none => .error (.instrumentNotFound id)
      | some ws =>
        match scanResult from_ to_ ws with
        | none => .error (.candlesNotFound (c.ticker id) from_)
        | some r => .ok r := by
  unfold Candles
  cases hws : c.candles id with
  | none => rfl
  | some ws =>
    have h := finish_lower (c.ticker id) from_ to_ [] ws
    simp only [List.nil_append, List.length_nil, finish] at h
    simpa using h

theorem takeWhile_eq_window (from_ to_ : Time) (ws : List HistoricCandle)
    (hasc : Ascending ws) (hlo : ∀ x ∈ ws, from_ < x.Time) :
    ws.takeWhile (fun x => !Time.After x.Time to_) = window from_ to_ ws := by
  induction ws with
  | nil => rfl
  | cons c rest ih =>
    have hc := hlo c (by simp)
    have hrest : ∀ x ∈ rest, from_ < x.Time := fun x hx => hlo x (by simp [hx])
    have hp := List.pairwise_cons.mp hasc
    by_cases h : c.Time ≤ to_
    · have := ih hp.2 hrest
      simp [window, Time.After, h, hc] at this ⊢
      exact this
    · have hnil : window from_ to_ rest = [] := by
        simp only [window, List.filter_eq_nil_iff]
        intro x hx
        have h1 := hp.1 x hx
        have h2 : ¬ x.Time ≤ to_ := fun h3 => h (le_trans h1 h3)
        simp [h2]
      simp [window, Time.After, h, hc] at hnil ⊢
      exact hnil

theorem scanResult_eq_window (from_ to_ : Time) (ws : List HistoricCandle)
    (hasc : Ascending ws) (hex : ∃ x ∈ ws, from_ < x.Time ∧ x.Time ≤ to_) :
    scanResult from_ to_ ws = some (window from_ to_ ws) := by
  induction ws with
  | nil => simp at hex
  | cons c rest ih =>
    have hp := List.pairwise_cons.mp hasc
    by_cases hc : from_ < c.Time
    · have hrest : ∀ x ∈ rest, from_ < x.Time := fun x hx =>
        lt_of_lt_of_le hc (hp.1 x hx)
      have hcto : c.Time ≤ to_ := by
        obtain ⟨x, hx, _, hxt⟩ := hex
        rcases List.mem_cons.mp hx with rfl | hx
        · exact hxt
        · exact le_trans (hp.1 x hx) hxt
      have h := takeWhile_eq_window from_ to_ rest hp.2 hrest
      simp only [scanResult, Time.After, hc, decide_True, if_true, Option.some.injEq]
      simp only [Time.After] at h
      rw [h]
      simp [window, hc, hcto]
    · have hex' : ∃ x ∈ rest, from_ < x.Time ∧ x.Time ≤ to_ := by
        obtain ⟨x, hx, hxf, hxt⟩ := hex
        rcases List.mem_cons.mp hx with rfl | hx
        · exact absurd hxf hc
        · exact ⟨x, hx, hxf, hxt⟩
      have h := ih hp.2 hex'
      simp [scanResult, Time.After, hc, h]
      simp [window, hc]

theorem scanResult_eq_none (from_ to_ : Time) (ws : List HistoricCandle) :
    scanResult from_ to_ ws = none ↔ ∀ x ∈ ws, x.Time ≤ from_ := by
  induction ws with
  | nil => simp [scanResult]
  | cons c rest ih =>
    by_cases hc : from_ < c.Time
    · simp [scanResult, Time.After, hc]
    · simp [scanResult, Time.After, hc, ih]
      intro _
      exact not_lt.mp hc

theorem scanResult_lower (from_ to_ : Time) (ws r : List HistoricCandle)
    (hasc : Ascending ws) (h : scanResult from_ to_ ws = some r) :
    ∀ x ∈ r, from_ < x.Time := by
  induction ws with
  | nil => simp [scanResult] at h
  | cons c rest ih =>
    have hp := List.pairwise_cons.mp hasc
    by_cases hc : from_ < c.Time
    · simp [scanResult, Time.After, hc] at h
      subst h
      intro x hx
      rcases List.mem_cons.mp hx with rfl | hx
      · exact hc
      · exact lt_of_lt_of_le hc (hp.1 x (List.takeWhile_subset _ hx))
    · simp [scanResult, Time.After, hc] at h
      exact ih hp.2 h

theorem le_getLast_of_ascending (ws : List HistoricCandle) (hne : ws ≠ [])
    (hasc : Ascending ws) : ∀ x ∈ ws, x.Time ≤ (ws.getLast hne).Time := by
  induction ws with
  | nil => exact absurd rfl hne
  | cons c rest ih =>
    have hp := List.pairwise_cons.mp hasc
    cases rest with
    | nil => intro x hx; simp at hx; subst hx; simp
    | cons d rest2 =>
      have hl := ih (List.cons_ne_nil d rest2) hp.2
      intro x hx
      rw [List.getLast_cons (List.cons_ne_nil d rest2)]
      rcases List.mem_cons.mp hx with rfl | hx
      · exact le_trans (hp.1 d (by simp)) (hl d (by simp))
      · exact hl x hx

theorem Candles_not_covered_iff {F : Type} (c : CandlesStorage F) (id : String)
    (from_ to_ : Time) :
    Candles c id from_ to_ = .error (.candlesNotFound (c.ticker id) from_) ↔
      ∃ ws, c.candles id = some ws ∧ ∀ x ∈ ws, x.Time ≤ from_ := by
  rw [Candles_eq]
  cases hws : c.candles id with
  | none => simp
  | some ws =>
    cases hr : scanResult from_ to_ ws with
    | none =>
      simp only [hr]
      simpa using (scanResult_eq_none from_ to_ ws).mp hr
    | some r =>
      simp only [hr, reduceCtorEq, false_iff]
      rintro ⟨ws', hws', hall⟩
      cases hws'
      have := (scanResult_eq_none from_ to_ ws).mpr hall
      simp [hr] at this

/-! ## The range query of the specification on ascending working sets -/

theorem firstAfter_eq_none (t : Time) (ws : List HistoricCandle) :
    firstAfter t ws = none ↔ ∀ x ∈ ws, x.Time ≤ t := by
  induction ws with
  | nil => simp [firstAfter]
  | cons c rest ih =>
    by_cases hc : t < c.Time
    · simp [firstAfter, hc]
    · simp [firstAfter, hc, ih]
      intro _
      exact not_lt.mp hc

theorem window_eq_nil_of_after (from_ to_ : Time) (ws : List HistoricCandle)
    (h : ∀ x ∈ ws, to_ < x.Time) : window from_ to_ ws = [] := by
  simp only [window, List.filter_eq_nil_iff]
  intro x hx
  have := not_le.mpr (h x hx)
  simp [this]

theorem take_firstAfter_eq_window (from_ to_ : Time) (ws : List HistoricCandle)
    (hasc : Ascending ws) (hlo : ∀ x ∈ ws, from_ < x.Time) :
    (match firstAfter to_ ws with
      | none => ws
      | some upperBound => ws.take upperBound) = window from_ to_ ws := by
  induction ws with
  | nil => rfl
  | cons c rest ih =>
    have hp := List.pairwise_cons.mp hasc
    have hc := hlo c (by simp)
    by_cases h : to_ < c.Time
    · have hall : ∀ x ∈ c :: rest, to_ < x.Time := by
        intro x hx
        rcases List.mem_cons.mp hx with rfl | hx
        · exact h
        · exact lt_of_lt_of_le h (hp.1 x hx)
      rw [window_eq_nil_of_after from_ to_ _ hall]
      simp [firstAfter, h]
    · have ih' := ih hp.2 (fun x hx => hlo x (by simp [hx]))
      have hle : c.Time ≤ to_ := not_lt.mp h
      cases hf : firstAfter to_ rest with
      | none =>
        simp only [hf] at ih'
        simp [firstAfter, h, hf, window, hc, hle]
        simpa [window] using ih'
      | some u =>
        simp only [hf] at ih'
        simp [firstAfter, h, hf, window, hc, hle]
        simpa [window] using ih'

/-- On an ascending working set and for from ≤ to, the range query of the
specification is the window from < t ≤ to whenever some candle is after `from`. -/
theorem rangeQuerySpec_eq_window (from_ to_ : Time) (ws : List HistoricCandle)
    (hasc : Ascending ws) (hft : from_ ≤ to_) (hex : ∃ x ∈ ws, from_ < x.Time) :
    rangeQuerySpec from_ to_ ws = some (window from_ to_ ws) := by
  induction ws with
  | nil => simp at hex
  | cons c rest ih =>
    have hp := List.pairwise_cons.mp hasc
    by_cases hc : from_ < c.Time
    · have hlo : ∀ x ∈ c :: rest, from_ < x.Time := by
        intro x hx
        rcases List.mem_cons.mp hx with rfl | hx
        · exact hc
        · exact lt_of_lt_of_le hc (hp.1 x hx)
      have h := take_firstAfter_eq_window from_ to_ (c :: rest) hasc hlo
      have h0 : firstAfter from_ (c :: rest) = some 0 := by simp [firstAfter, hc]
      simp only [rangeQuerySpec, h0]
      cases hf : firstAfter to_ (c :: rest) with
      | none => simp only [hf] at h; rw [← h]; simp
      | some u => simp only [hf] at h; rw [← h]; simp
    · have hex' : ∃ x ∈ rest, from_ < x.Time := by
        obtain ⟨x, hx, hxf⟩ := hex
        rcases List.mem_cons.mp hx with rfl | hx
        · exact absurd hxf hc
        · exact ⟨x, hx, hxf⟩
      have ih' := ih hp.2 hex'
      have hto : ¬ to_ < c.Time := fun h => hc (lt_of_le_of_lt hft h)
      have hw : window from_ to_ (c :: rest) = window from_ to_ rest := by
        simp [window, hc]
      rw [hw, ← ih']
      simp only [rangeQuerySpec, firstAfter, hc, hto, if_false]
      cases hl : firstAfter from_ rest with
      | none => simp
      | some l =>
        cases hu : firstAfter to_ rest with
        | none => simp
        | some u => simp

/-- Where `Candles` and the range query of the specification agree: on an
ascending working set with a candle in the window from < t ≤ to, both give the
window. -/
theorem Candles_eq_rangeQuerySpec_of_window {F : Type} (c : CandlesStorage F) (id : String)
    (ws : List HistoricCandle) (from_ to_ : Time)
    (hws : c.candles id = some ws) (hasc : Ascending ws)
    (hex : ∃ x ∈ ws, from_ < x.Time ∧ x.Time ≤ to_) :
    rangeQuerySpec from_ to_ ws = some (window from_ to_ ws) ∧
    Candles c id from_ to_ = .ok (window from_ to_ ws) := by
  obtain ⟨x, hx, h1, h2⟩ := hex
  refine ⟨rangeQuerySpec_eq_window from_ to_ ws hasc (le_of_lt (lt_of_lt_of_le h1 h2))
    ⟨x, hx, h1⟩, ?_⟩
  rw [Candles_eq, hws]
  simp only [scanResult_eq_window from_ to_ ws hasc ⟨x, hx, h1, h2⟩]

theorem scanResult_of_empty_window (from_ to_ : Time) (ws : List HistoricCandle)
    (hasc : Ascending ws) (hex : ∃ x ∈ ws, from_ < x.Time)
    (hemp : ∀ x ∈ ws, from_ < x.Time → to_ < x.Time) :
    ∃ x ∈ ws, to_ < x.Time ∧ scanResult from_ to_ ws = some [x] := by
  induction ws with
  | nil => simp at hex
  | cons c rest ih =>
    have hp := List.pairwise_cons.mp hasc
    by_cases hc : from_ < c.Time
    · have hct := hemp c (by simp) hc
      refine ⟨c, by simp, hct, ?_⟩
      have hnil : rest.takeWhile (fun x => !Time.After x.Time to_) = [] := by
        cases rest with
        | nil => rfl
        | cons d rest2 =>
          have hd : to_ < d.Time := lt_of_lt_of_le hct (hp.1 d (by simp))
          simp [Time.After, hd]
      simp only [scanResult, Time.After, hc, decide_True, if_true]
      simp only [Time.After] at hnil
      rw [hnil]
    · have hex' : ∃ x ∈ rest, from_ < x.Time := by
        obtain ⟨x, hx, hxf⟩ := hex
        rcases List.mem_cons.mp hx with rfl | hx
        · exact absurd hxf hc
        · exact ⟨x, hx, hxf⟩
      obtain ⟨x, hx, hxt, hres⟩ := ih hp.2 hex' (fun x hx => hemp x (by simp [hx]))
      exact ⟨x, by simp [hx], hxt, by simp [scanResult, Time.After, hc, hres]⟩

/-- Where they part: on an ascending working set, for from ≤ to, with a candle
after `from` and none in the window from < t ≤ to, the range query of the
specification is empty and `Candles` returns one candle, which is after `to`. -/
theorem Candles_ne_rangeQuerySpec_of_empty_window {F : Type} (c : CandlesStorage F)
    (id : String) (ws : List HistoricCandle) (from_ to_ : Time)
    (hws : c.candles id = some ws) (hasc : Ascending ws) (hft : from_ ≤ to_)
    (hex : ∃ x ∈ ws, from_ < x.Time)
    (hemp : ∀ x ∈ ws, from_ < x.Time → to_ < x.Time) :
    rangeQuerySpec from_ to_ ws = some [] ∧
    ∃ x ∈ ws, to_ < x.Time ∧ Candles c id from_ to_ = .ok [x] := by
  constructor
  · rw [rangeQuerySpec_eq_window from_ to_ ws hasc hft hex]
    simp only [window, Option.some.injEq, List.filter_eq_nil_iff]
    intro x hx
    by_cases h : from_ < x.Time
    · have := not_le.mpr (hemp x hx h)
      simp [this]
    · simp [h]
  · obtain ⟨x, hx, hxt, hres⟩ := scanResult_of_empty_window from_ to_ ws hasc hex hemp
    refine ⟨x, hx, hxt, ?_⟩
    rw [Candles_eq, hws]
    simp only [hres]

/-! ## The range query: claims -/

/-- C1 (evaluation at the input where the code leaves the contract): for the
working set {10, 20, 30} and the query from = 5, to = 7, `Candles` returns the
candle at 10, while the slice [L, U) of the contract, with U the index of the
first candle after `to` anywhere in the working set, is empty (L = U = 0). -/
theorem C1_Candles_upper_bound_skips_lower_candle :
    Candles (storageOf [candleAt 10, candleAt 20, candleAt 30]) "X" 5 7 = .ok [candleAt 10] ∧
    rangeQuerySpec 5 7 [candleAt 10, candleAt 20, candleAt 30] = some [] ∧
    firstAfter 5 [candleAt 10, candleAt 20, candleAt 30] = some 0 ∧
    firstAfter 7 [candleAt 10, candleAt 20, candleAt 30] = some 0 := by
  decide

/-- C2: for a working set with ascending timestamps and from ≤ to such that some
candle has from < t ≤ to, `Candles` succeeds and returns exactly the candles with
from < t ≤ to, in working-set order. -/
theorem C2_Candles_returns_window {F : Type} (c : CandlesStorage F) (id : String)
    (ws : List HistoricCandle) (from_ to_ : Time)
    (hws : c.candles id = some ws) (hasc : Ascending ws) (_hft : from_ ≤ to_)
    (hex : ∃ x ∈ ws, from_ < x.Time ∧ x.Time ≤ to_) :
    Candles c id from_ to_ =
      .ok (ws.filter (fun x => decide (from_ < x.Time) && decide (x.Time ≤ to_))) := by
  rw [Candles_eq, hws]
  simp only [scanResult_eq_window from_ to_ ws hasc hex]
  rfl

/-- C2 at the working set {10, 20, 30}: the query from = 5, to = 25 returns the
candles at 10 and 20. -/
theorem C2_Candles_returns_window_witness :
    Candles (storageOf [candleAt 10, candleAt 20, candleAt 30]) "X" 5 25
      = .ok [candleAt 10, candleAt 20] :=
  C2_Candles_returns_window (storageOf [candleAt 10, candleAt 20, candleAt 30]) "X"
    [candleAt 10, candleAt 20, candleAt 30] 5 25 rfl (by decide) (by decide)
    ⟨candleAt 10, by decide, by decide, by decide⟩

/-- C3: `Candles` returns an error in exactly two cases: the instrument has no
working set (the error names the instrument), or it has one and no candle of it
is strictly after `from` (the error names the ticker and `from`); in every other
case, whatever `to` is, it returns a slice and no error. -/
theorem C3_Candles_error_cases {F : Type} (c : CandlesStorage F) (id : String)
    (from_ to_ : Time) :
    (Candles c id from_ to_ = .error (.instrumentNotFound id) ↔ c.candles id = none) ∧
    (Candles c id from_ to_ = .error (.candlesNotFound (c.ticker id) from_) ↔
      ∃ ws, c.candles id = some ws ∧ ∀ x ∈ ws, x.Time ≤ from_) ∧
    ((∃ r, Candles c id from_ to_ = .ok r) ↔
      ∃ ws, c.candles id = some ws ∧ ∃ x ∈ ws, from_ < x.Time) ∧
    (∀ e, Candles c id from_ to_ = .error e →
      e = .instrumentNotFound id ∨ e = .candlesNotFound (c.ticker id) from_) := by
  rw [Candles_eq]
  cases hws : c.candles id with
  | none => simp
  | some ws =>
    cases hr : scanResult from_ to_ ws with
    | none =>
      have h := (scanResult_eq_none from_ to_ ws).mp hr
      simp only [hr]
      refine ⟨by simp, by simpa using h, ?_, by simp⟩
      simp only [false_iff, reduceCtorEq, exists_false]
      rintro ⟨ws', hws', x, hx, hlt⟩
      cases hws'
      exact absurd hlt (not_lt.mpr (h x hx))
    | some r =>
      have h : ¬ ∀ x ∈ ws, x.Time ≤ from_ := fun h' => by
        have := (scanResult_eq_none from_ to_ ws).mpr h'
        simp [hr] at this
      simp only [hr]
      refine ⟨by simp, ?_, ?_, by simp⟩
      · simp only [reduceCtorEq, false_iff]
        rintro ⟨ws', hws', hall⟩
        cases hws'
        exact h hall
      · push_neg at h
        simp only [Except.ok.injEq, exists_eq', true_iff]
        exact ⟨ws, rfl, h⟩

/-- C3 at concrete storages: an instrument without working set, a working set
with nothing after `from`, and a working set with a candle after `from`. -/
theorem C3_Candles_error_cases_witness :
    Candles (storageOf [candleAt 10]) "Y" 5 7 = .error (.instrumentNotFound "Y") ∧
    Candles (storageOf [candleAt 10]) "X" 10 7
      = .error (.candlesNotFound ((storageOf [candleAt 10]).ticker "X") 10) ∧
    ∃ r, Candles (storageOf [candleAt 10]) "X" 5 7 = .ok r :=
  ⟨(C3_Candles_error_cases (storageOf [candleAt 10]) "Y" 5 7).1.mpr rfl,
   (C3_Candles_error_cases (storageOf [candleAt 10]) "X" 10 7).2.1.mpr
      ⟨[candleAt 10], rfl, by decide⟩,
   (C3_Candles_error_cases (storageOf [candleAt 10]) "X" 5 7).2.2.1.mpr
      ⟨[candleAt 10], rfl, candleAt 10, by decide, by decide⟩⟩

/-- C4: for a working set with ascending timestamps, every candle of a
successful result of `Candles` has a timestamp strictly after `from`; a candle
whose timestamp equals `from` is not in the result. -/
theorem C4_Candles_exclusive_start {F : Type} (c : CandlesStorage F) (id : String)
    (ws r : List HistoricCandle) (from_ to_ : Time)
    (hws : c.candles id = some ws) (hasc : Ascending ws)
    (hres : Candles c id from_ to_ = .ok r) :
    (∀ x ∈ r, from_ < x.Time) ∧ (∀ x ∈ ws, x.Time = from_ → x ∉ r) := by
  rw [Candles_eq, hws] at hres
  cases hr : scanResult from_ to_ ws with
  | none => simp [hr] at hres
  | some r' =>
    simp only [hr, Except.ok.injEq] at hres
    subst hres
    have h := scanResult_lower from_ to_ ws r' hasc hr
    refine ⟨h, ?_⟩
    intro x _ hxt hxr
    have := h x hxr
    rw [hxt] at this
    exact lt_irrefl _ this

/-- C4 at the working set {10, 20, 30} with from = 10, to = 30: the result holds
the candles at 20 and 30, both after 10, and not the candle at 10. -/
theorem C4_Candles_exclusive_start_witness :
    Candles (storageOf [candleAt 10, candleAt 20, candleAt 30]) "X" 10 30
      = .ok [candleAt 20, candleAt 30] ∧
    (∀ x ∈ [candleAt 20, candleAt 30], (10 : Time) < x.Time) ∧
    (∀ x ∈ [candleAt 10, candleAt 20, candleAt 30], x.Time = (10 : Time) →
      x ∉ [candleAt 20, candleAt 30]) :=
  ⟨rfl, C4_Candles_exclusive_start (storageOf [candleAt 10, candleAt 20, candleAt 30]) "X"
    [candleAt 10, candleAt 20, candleAt 30] [candleAt 20, candleAt 30] 10 30
    rfl (by decide) rfl⟩

/-- C5 as stated fails: for the working set {10, 20, 30}, `Candles(from = 10,
to = 30)` returns the candles at 20 and 30, not only the candle at 20; the
candle at 30 is not strictly before `to`. -/
theorem C5_counterexample :
    Candles (storageOf [candleAt 10, candleAt 20, candleAt 30]) "X" 10 30
      = .ok [candleAt 20, candleAt 30] ∧
    Candles (storageOf [candleAt 10, candleAt 20, candleAt 30]) "X" 10 30
      ≠ .ok [candleAt 20] ∧
    ¬ (∀ x ∈ [candleAt 20, candleAt 30], (10 : Time) < x.Time ∧ x.Time < (30 : Time)) := by
  decide

/-- C5 amended: for a working set with ascending timestamps in which some
candle has from < t ≤ to, `Candles` returns only candles with from < t ≤ to,
and every candle of the working set whose timestamp equals `to` is returned. -/
theorem C5_Candles_inclusive_end {F : Type} (c : CandlesStorage F) (id : String)
    (ws : List HistoricCandle) (from_ to_ : Time)
    (hws : c.candles id = some ws) (hasc : Ascending ws)
    (hex : ∃ x ∈ ws, from_ < x.Time ∧ x.Time ≤ to_) :
    ∃ r, Candles c id from_ to_ = .ok r ∧
      (∀ x ∈ r, from_ < x.Time ∧ x.Time ≤ to_) ∧
      (∀ x ∈ ws, x.Time = to_ → x ∈ r) := by
  have hft : from_ < to_ := by
    obtain ⟨x, _, h1, h2⟩ := hex
    exact lt_of_lt_of_le h1 h2
  refine ⟨window from_ to_ ws, ?_, ?_, ?_⟩
  · rw [Candles_eq, hws]
    simp only [scanResult_eq_window from_ to_ ws hasc hex]
  · intro x hx
    simpa [window] using (List.mem_filter.mp hx).2
  · intro x hx hxt
    simp only [window, List.mem_filter]
    refine ⟨hx, ?_⟩
    simp [hxt, hft]

/-- C5 amended, at the working set {10, 20, 30} with from = 10, to = 30: the
result is the candles at 20 and 30. -/
theorem C5_Candles_inclusive_end_witness :
    ∃ r, Candles (storageOf [candleAt 10, candleAt 20, candleAt 30]) "X" 10 30 = .ok r ∧
      (∀ x ∈ r, (10 : Time) < x.Time ∧ x.Time ≤ (30 : Time)) ∧
      (∀ x ∈ [candleAt 10, candleAt 20, candleAt 30], x.Time = (30 : Time) → x ∈ r) :=
  C5_Candles_inclusive_end (storageOf [candleAt 10, candleAt 20, candleAt 30]) "X"
    [candleAt 10, candleAt 20, candleAt 30] 10 30 rfl (by decide)
    ⟨candleAt 20, by decide, by decide, by decide⟩

/-- C6 as stated fails: a working set starting at timestamp 100, queried with
from = 50, is answered with its candles and no error. -/
theorem C6_counterexample :
    Candles (storageOf [candleAt 100, candleAt 110, candleAt 120]) "X" 50 200
      = .ok [candleAt 100, candleAt 110, candleAt 120] ∧
    Candles (storageOf [candleAt 100, candleAt 110, candleAt 120]) "X" 50 200
      ≠ .error (.candlesNotFound
          ((storageOf [candleAt 100, candleAt 110, candleAt 120]).ticker "X") 50) := by
  decide

/-- C6 amended: for a non-empty working set with ascending timestamps,
`Candles` fails with the not-covered error exactly when `from` is at or after
the timestamp of the last candle; when `from` is before the timestamp of the
first candle it succeeds, and the result starts with the first candle. -/
theorem C6_Candles_not_covered_iff {F : Type} (c : CandlesStorage F) (id : String)
    (c0 : HistoricCandle) (rest : List HistoricCandle) (from_ to_ : Time)
    (hws : c.candles id = some (c0 :: rest)) (hasc : Ascending (c0 :: rest)) :
    (Candles c id from_ to_ = .error (.candlesNotFound (c.ticker id) from_) ↔
      ((c0 :: rest).getLast (List.cons_ne_nil c0 rest)).Time ≤ from_) ∧
    (from_ < c0.Time → ∃ r, Candles c id from_ to_ = .ok (c0 :: r)) := by
  constructor
  · rw [Candles_not_covered_iff c id from_ to_]
    constructor
    · rintro ⟨ws, hws', hall⟩
      rw [hws] at hws'
      cases hws'
      exact hall _ (List.getLast_mem _)
    · intro hlast
      refine ⟨c0 :: rest, hws, ?_⟩
      intro x hx
      exact le_trans (le_getLast_of_ascending _ (List.cons_ne_nil c0 rest) hasc x hx) hlast
  · intro h0
    rw [Candles_eq, hws]
    simp [scanResult, Time.After, h0]

/-- C6 amended, at the working set {100, 110, 120}: from = 120 is not covered,
from = 50 is answered starting with the candle at 100. -/
theorem C6_Candles_not_covered_iff_witness :
    Candles (storageOf [candleAt 100, candleAt 110, candleAt 120]) "X" 120 200
      = .error (.candlesNotFound
          ((storageOf [candleAt 100, candleAt 110, candleAt 120]).ticker "X") 120) ∧
    ∃ r, Candles (storageOf [candleAt 100, candleAt 110, candleAt 120]) "X" 50 200
      = .ok (candleAt 100 :: r) :=
  ⟨(C6_Candles_not_covered_iff (storageOf [candleAt 100, candleAt 110, candleAt 120]) "X"
      (candleAt 100) [candleAt 110, candleAt 120] 120 200 rfl (by decide)).1.mpr (by decide),
   (C6_Candles_not_covered_iff (storageOf [candleAt 100, candleAt 110, candleAt 120]) "X"
      (candleAt 100) [candleAt 110, candleAt 120] 50 200 rfl (by decide)).2 (by decide)⟩

/-- C7 as stated fails: for the working set {10, 20, 30}, `Candles(from = 30,
to = 100)` returns the not-covered error, not an empty slice. -/
theorem C7_counterexample :
    Candles (storageOf [candleAt 10, candleAt 20, candleAt 30]) "X" 30 100
      = .error (.candlesNotFound "not found" 30) ∧
    Candles (storageOf [candleAt 10, candleAt 20, candleAt 30]) "X" 30 100 ≠ .ok [] := by
  decide

/-- C7 amended: for a non-empty working set in which no candle is strictly
after `from`, `Candles` returns no slice: it fails with the not-covered error,
which names the ticker and `from`. -/
theorem C7_Candles_past_data_not_covered {F : Type} (c : CandlesStorage F) (id : String)
    (ws : List HistoricCandle) (from_ to_ : Time)
    (hws : c.candles id = some ws) (_hne : ws ≠ [])
    (hnone : ∀ x ∈ ws, ¬ from_ < x.Time) :
    Candles c id from_ to_ = .error (.candlesNotFound (c.ticker id) from_) := by
  rw [Candles_eq, hws]
  have h : scanResult from_ to_ ws = none :=
    (scanResult_eq_none from_ to_ ws).mpr (fun x hx => not_lt.mp (hnone x hx))
  simp only [h]

/-- C7 amended, at the working set {10, 20, 30} with from = 30, to = 100. -/
theorem C7_Candles_past_data_not_covered_witness :
    Candles (storageOf [candleAt 10, candleAt 20, candleAt 30]) "X" 30 100
      = .error (.candlesNotFound
          ((storageOf [candleAt 10, candleAt 20, candleAt 30]).ticker "X") 30) :=
  C7_Candles_past_data_not_covered (storageOf [candleAt 10, candleAt 20, candleAt 30]) "X"
    [candleAt 10, candleAt 20, candleAt 30] 30 100 rfl (by decide) (by decide)

/-! ## The write path: the insert loop -/

theorem hasKey_append {F : Type} (rows extra : List (CandleDB F)) (uid : String) (t : Int) :
    hasKey (rows ++ extra) uid t = (hasKey rows uid t || hasKey extra uid t) := by
  simp [hasKey, List.any_append]

theorem hasKey_candleRow {F : Type} (toFloat : Quotation → F) (n : Nat) (uid : String)
    (candle : HistoricCandle) :
    hasKey [candleRow toFloat n uid candle] uid (Time.Unix candle.Time) = true := by
  simp [hasKey, candleRow]

/-- With no fault on any `Exec`, the loop ends without error and with the
transaction open, keeps the rows it found in place, and leaves the key of every
candle of the batch stored. -/
theorem insertLoop_healthy {F : Type} (toFloat : Quotation → F) (execErr : Nat → Option DBError)
    (uid : String) (hnone : ∀ k, execErr k = none) (hc : List HistoricCandle) (k : Nat)
    (s tx : Tx F) :
    ∃ tx', insertLoop toFloat execErr uid hc k { stored := s, seen := tx, inTx := true }
        = (none, { stored := s, seen := tx', inTx := true }) ∧
      (∃ added, tx'.candles = tx.candles ++ added) ∧
      (∀ candle ∈ hc, hasKey tx'.candles uid (Time.Unix candle.Time) = true) := by
  induction hc generalizing k tx with
  | nil => exact ⟨tx, rfl, ⟨[], by simp⟩, by simp⟩
  | cons candle rest ih =>
    by_cases hk : hasKey tx.candles uid (Time.Unix candle.Time) = true
    · obtain ⟨tx', h1, ⟨added, h2⟩, h3⟩ := ih (k + 1) tx
      refine ⟨tx', ?_, ⟨added, h2⟩, ?_⟩
      · simp [insertLoop, insertExec, hnone, hk, uniqueViolation, DBError.isSqlite3Error, h1]
      · intro x hx
        rcases List.mem_cons.mp hx with rfl | hx
        · rw [h2, hasKey_append, hk]; rfl
        · exact h3 x hx
    · have hk' : hasKey tx.candles uid (Time.Unix candle.Time) = false := by simpa using hk
      obtain ⟨tx', h1, ⟨added, h2⟩, h3⟩ := ih (k + 1)
        { candles := tx.candles ++ [candleRow toFloat (tx.seq + 1) uid candle], seq := tx.seq + 1 }
      refine ⟨tx', ?_, ⟨candleRow toFloat (tx.seq + 1) uid candle :: added, ?_⟩, ?_⟩
      · simp [insertLoop, insertExec, hnone, hk', h1]
      · simp [h2]
      · intro x hx
        rcases List.mem_cons.mp hx with rfl | hx
        · rw [h2]
          simp only [hasKey_append, hasKey_candleRow]
          simp
        · exact h3 x hx

/-- With no fault on any `Exec`, a batch whose keys are all stored changes nothing. -/
theorem insertLoop_all_stored {F : Type} (toFloat : Quotation → F)
    (execErr : Nat → Option DBError) (uid : String) (hnone : ∀ k, execErr k = none)
    (hc : List HistoricCandle) (k : Nat) (s tx : Tx F)
    (hall : ∀ candle ∈ hc, hasKey tx.candles uid (Time.Unix candle.Time) = true) :
    insertLoop toFloat execErr uid hc k { stored := s, seen := tx, inTx := true }
      = (none, { stored := s, seen := tx, inTx := true }) := by
  induction hc generalizing k with
  | nil => rfl
  | cons candle rest ih =>
    have hk := hall candle (by simp)
    have hrest := ih (k + 1) (fun x hx => hall x (by simp [hx]))
    simp [insertLoop, insertExec, hnone, hk, uniqueViolation, DBError.isSqlite3Error, hrest]

/-- The error of an `Exec` is its fault, or the uniqueness violation when it has
no fault. -/
theorem insertExec_error {F : Type} (toFloat : Quotation → F) (fault : Option DBError)
    (conn : Conn F) (uid : String) (candle : HistoricCandle) (e : DBError)
    (h : (insertExec toFloat fault conn uid candle).1 = some e) :
    fault = some e ∨ (fault = none ∧ e = uniqueViolation) := by
  unfold insertExec at h
  cases hf : fault with
  | some e' =>
    simp only [hf] at h
    split at h <;> simp_all
  | none =>
    simp only [hf] at h
    split at h
    · right
      exact ⟨rfl, by simpa using h.symm⟩
    · simp at h

/-- An error that leaves the loop was the fault of some `Exec` of the batch and
is not a `sqlite3.Error`. -/
theorem insertLoop_error {F : Type} (toFloat : Quotation → F) (execErr : Nat → Option DBError)
    (uid : String) (hc : List HistoricCandle) (k : Nat) (conn : Conn F) (err : DBError)
    (h : (insertLoop toFloat execErr uid hc k conn).1 = some err) :
    err.isSqlite3Error = false ∧ ∃ j, k ≤ j ∧ j < k + hc.length ∧ execErr j = some err := by
  induction hc generalizing k conn with
  | nil => simp [insertLoop] at h
  | cons candle rest ih =>
    have step : ∀ conn', (insertLoop toFloat execErr uid rest (k + 1) conn').1 = some err →
        err.isSqlite3Error = false ∧
          ∃ j, k ≤ j ∧ j < k + (candle :: rest).length ∧ execErr j = some err := by
      intro conn' h'
      obtain ⟨h1, j, hj1, hj2, hj3⟩ := ih (k + 1) conn' h'
      exact ⟨h1, j, by omega, by simp; omega, hj3⟩
    simp only [insertLoop] at h
    cases hx : insertExec toFloat (execErr k) conn uid candle with
    | mk r conn1 =>
      rw [hx] at h
      cases r with
      | none => exact step conn1 h
      | some e =>
        by_cases hs : e.isSqlite3Error = true
        · simp only [hs, if_true] at h
          exact step conn1 h
        · simp only [hs] at h
          have he : e = err := by simpa using h
          subst he
          refine ⟨by simpa using hs, k, le_refl k, by simp, ?_⟩
          rcases insertExec_error toFloat (execErr k) conn uid candle e (by rw [hx]) with
            hf | ⟨_, hu⟩
          · exact hf
          · rw [hu] at hs
            exact absurd rfl hs

theorem hasKey_eq_false_iff {F : Type} (rows : List (CandleDB F)) (uid : String) (t : Int) :
    hasKey rows uid t = false ↔ ∀ r ∈ rows, ¬ (r.InstrumentUid = uid ∧ r.Time = t) := by
  simp [hasKey]

theorem keysUnique_append_row {F : Type} (rows : List (CandleDB F)) (row : CandleDB F)
    (hu : KeysUnique rows) (hk : hasKey rows row.InstrumentUid row.Time = false) :
    KeysUnique (rows ++ [row]) := by
  unfold KeysUnique at *
  rw [List.pairwise_append]
  refine ⟨hu, by simp, ?_⟩
  intro a ha b hb
  simp only [List.mem_singleton] at hb
  subst hb
  exact (hasKey_eq_false_iff rows _ _).mp hk a ha

/-- With no fault on any `Exec` and a table whose keys are unique, the loop
appends rows to the table, keeps the keys unique, and every appended row is
the row of a candle of the batch whose key was not stored and does not occur
earlier in the batch. -/
theorem insertLoop_appends_first_new {F : Type} (toFloat : Quotation → F)
    (execErr : Nat → Option DBError) (uid : String) (hnone : ∀ k, execErr k = none)
    (hc : List HistoricCandle) (k : Nat) (s tx : Tx F) (hu : KeysUnique tx.candles) :
    ∃ added, insertLoop toFloat execErr uid hc k { stored := s, seen := tx, inTx := true }
        = (none, { stored := s,
                   seen := { candles := tx.candles ++ added, seq := tx.seq + added.length },
                   inTx := true }) ∧
      KeysUnique (tx.candles ++ added) ∧
      ∀ row ∈ added, ∃ pre candle post, hc = pre ++ candle :: post ∧
        (∀ x ∈ pre, Time.Unix x.Time ≠ Time.Unix candle.Time) ∧
        hasKey tx.candles uid (Time.Unix candle.Time) = false ∧
        row = candleRow toFloat row.Id uid candle := by
  induction hc generalizing k tx with
  | nil => exact ⟨[], by simp [insertLoop], by simpa using hu, by simp⟩
  | cons candle rest ih =>
    by_cases hk : hasKey tx.candles uid (Time.Unix candle.Time) = true
    · obtain ⟨added, h1, h2, h3⟩ := ih (k + 1) tx hu
      refine ⟨added, ?_, h2, ?_⟩
      · simp [insertLoop, insertExec, hnone, hk, uniqueViolation, DBError.isSqlite3Error, h1]
      · intro row hrow
        obtain ⟨pre, c', post, e1, e2, e3, e4⟩ := h3 row hrow
        refine ⟨candle :: pre, c', post, by simp [e1], ?_, e3, e4⟩
        intro x hx
        rcases List.mem_cons.mp hx with rfl | hx
        · intro heq
          rw [heq, e3] at hk
          exact absurd hk (by simp)
        · exact e2 x hx
    · have hk' : hasKey tx.candles uid (Time.Unix candle.Time) = false := by simpa using hk
      have hu1 : KeysUnique (tx.candles ++ [candleRow toFloat (tx.seq + 1) uid candle]) :=
        keysUnique_append_row tx.candles _ hu (by simpa [candleRow] using hk')
      obtain ⟨added, h1, h2, h3⟩ := ih (k + 1)
        { candles := tx.candles ++ [candleRow toFloat (tx.seq + 1) uid candle],
          seq := tx.seq + 1 } hu1
      refine ⟨candleRow toFloat (tx.seq + 1) uid candle :: added, ?_, ?_, ?_⟩
      · simp [insertLoop, insertExec, hnone, hk', h1]
        omega
      · simpa using h2
      · intro row hrow
        rcases List.mem_cons.mp hrow with rfl | hrow
        · exact ⟨[], candle, rest, rfl, by simp, hk', by simp [candleRow]⟩
        · obtain ⟨pre, c', post, e1, e2, e3, e4⟩ := h3 row hrow
          have e3' := e3
          simp only [hasKey_append, Bool.or_eq_false_iff] at e3'
          refine ⟨candle :: pre, c', post, by simp [e1], ?_, e3'.1, e4⟩
          intro x hx
          rcases List.mem_cons.mp hx with rfl | hx
          · intro heq
            have := e3'.2
            rw [← heq, hasKey_candleRow] at this
            exact absurd this (by simp)
          · exact e2 x hx

/-- When no call fails for a reason of its own and the loop ends with the
transaction open, the commit returns no error and the table is the one the
connection saw. -/
theorem storeCandlesInDB_of_loop {F : Type} (toFloat : Quotation → F) (f : Faults)
    (c : CandlesStorage F) (uid : String) (update : Time) (hc : List HistoricCandle)
    (hf : f.OnlyUniqueness) (s tx : Tx F)
    (h : insertLoop toFloat f.execErr uid hc 0 (Conn.opened c.db)
      = (none, { stored := s, seen := tx, inTx := true })) :
    (storeCandlesInDB toFloat f c uid update hc).1 = none ∧
    (storeCandlesInDB toFloat f c uid update hc).2.db.candles = tx.candles ∧
    (storeCandlesInDB toFloat f c uid update hc).2.db.seq = tx.seq := by
  obtain ⟨hb, hp, _, hcm, hu⟩ := hf
  simp [storeCandlesInDB, storeCandlesTx, commitResult, hb, hp, hcm, hu, h]

/-- Duplicate absorption when no call fails for a reason of its own: the commit
returns no error, keeps `(instrument_uid, time)` unique, leaves the stored rows
in place, stores the key of every candle of the batch, and each added row is
the row of the first candle of the batch with its timestamp (in seconds), a
timestamp that was not stored for the instrument. -/
theorem storeCandlesInDB_absorbs_duplicates {F : Type} (toFloat : Quotation → F) (f : Faults)
    (c : CandlesStorage F) (uid : String) (update : Time) (hc : List HistoricCandle)
    (hf : f.OnlyUniqueness) (hu : KeysUnique c.db.candles) :
    (storeCandlesInDB toFloat f c uid update hc).1 = none ∧
    KeysUnique (storeCandlesInDB toFloat f c uid update hc).2.db.candles ∧
    ∃ added, (storeCandlesInDB toFloat f c uid update hc).2.db.candles
        = c.db.candles ++ added ∧
      (∀ candle ∈ hc, hasKey c.db.candles uid (Time.Unix candle.Time) = false →
        hasKey added uid (Time.Unix candle.Time) = true) ∧
      (∀ row ∈ added, ∃ pre candle post, hc = pre ++ candle :: post ∧
        (∀ x ∈ pre, Time.Unix x.Time ≠ Time.Unix candle.Time) ∧
        hasKey c.db.candles uid (Time.Unix candle.Time) = false ∧
        row = candleRow toFloat row.Id uid candle) := by
  obtain ⟨added, h1, h2, h3⟩ := insertLoop_appends_first_new toFloat f.execErr uid hf.2.2.1
    hc 0 { candles := c.db.candles, seq := c.db.seq }
    { candles := c.db.candles, seq := c.db.seq } hu
  obtain ⟨tx', h1', _, hkeys⟩ := insertLoop_healthy toFloat f.execErr uid hf.2.2.1 hc 0
    { candles := c.db.candles, seq := c.db.seq } { candles := c.db.candles, seq := c.db.seq }
  rw [h1] at h1'
  simp only [Prod.mk.injEq, Conn.mk.injEq, true_and, and_true] at h1'
  subst h1'
  obtain ⟨hr, hcand, _⟩ := storeCandlesInDB_of_loop toFloat f c uid update hc hf _ _ h1
  refine ⟨hr, ?_, added, hcand, ?_, h3⟩
  · rw [hcand]; exact h2
  · intro candle hcandle hnew
    have := hkeys candle hcandle
    simp only [hasKey_append, hnew, Bool.false_or] at this
    exact this

/-- What a commit does when no call fails for a reason of its own: it returns no
error, keeps the stored rows in place, and leaves the key of every candle of
the batch stored. -/
theorem storeCandlesInDB_healthy {F : Type} (toFloat : Quotation → F) (f : Faults)
    (c : CandlesStorage F) (uid : String) (update : Time) (hc : List HistoricCandle)
    (hf : f.OnlyUniqueness) :
    (storeCandlesInDB toFloat f c uid update hc).1 = none ∧
    (∃ added, (storeCandlesInDB toFloat f c uid update hc).2.db.candles
      = c.db.candles ++ added) ∧
    (∀ candle ∈ hc,
      hasKey (storeCandlesInDB toFloat f c uid update hc).2.db.candles uid
        (Time.Unix candle.Time) = true) := by
  obtain ⟨tx, h1, ⟨added, h2⟩, h3⟩ := insertLoop_healthy toFloat f.execErr uid hf.2.2.1 hc 0
    { candles := c.db.candles, seq := c.db.seq } { candles := c.db.candles, seq := c.db.seq }
  obtain ⟨hr, hcand, _⟩ := storeCandlesInDB_of_loop toFloat f c uid update hc hf _ _ h1
  refine ⟨hr, ⟨added, by rw [hcand, h2]⟩, ?_⟩
  rw [hcand]
  exact h3

/-- When no call fails for a reason of its own, committing a batch whose keys
are all stored returns no error and leaves the table and its counter as they
were. -/
theorem storeCandlesInDB_all_stored {F : Type} (toFloat : Quotation → F) (f : Faults)
    (c : CandlesStorage F) (uid : String) (update : Time) (hc : List HistoricCandle)
    (hf : f.OnlyUniqueness)
    (hall : ∀ candle ∈ hc, hasKey c.db.candles uid (Time.Unix candle.Time) = true) :
    (storeCandlesInDB toFloat f c uid update hc).1 = none ∧
    (storeCandlesInDB toFloat f c uid update hc).2.db.candles = c.db.candles ∧
    (storeCandlesInDB toFloat f c uid update hc).2.db.seq = c.db.seq := by
  have h := insertLoop_all_stored toFloat f.execErr uid hf.2.2.1 hc 0
    { candles := c.db.candles, seq := c.db.seq } { candles := c.db.candles, seq := c.db.seq }
    hall
  exact storeCandlesInDB_of_loop toFloat f c uid update hc hf _ _ h

/-! ## The write path: claims -/

/-- C8: when no database call fails except inserts refused by the uniqueness
constraint, committing a batch and then committing the same batch again returns
no error either time, and the second commit leaves the candle table exactly as
the first left it (same rows, same count, same `autoincrement` counter). -/
theorem C8_storeCandlesInDB_idempotent {F : Type} (toFloat : Quotation → F) (f1 f2 : Faults)
    (c : CandlesStorage F) (uid : String) (update1 update2 : Time) (hc : List HistoricCandle)
    (h1 : f1.OnlyUniqueness) (h2 : f2.OnlyUniqueness) :
    (storeCandlesInDB toFloat f1 c uid update1 hc).1 = none ∧
    (storeCandlesInDB toFloat f2 (storeCandlesInDB toFloat f1 c uid update1 hc).2
        uid update2 hc).1 = none ∧
    (storeCandlesInDB toFloat f2 (storeCandlesInDB toFloat f1 c uid update1 hc).2
        uid update2 hc).2.db.candles
      = (storeCandlesInDB toFloat f1 c uid update1 hc).2.db.candles ∧
    (storeCandlesInDB toFloat f2 (storeCandlesInDB toFloat f1 c uid update1 hc).2
        uid update2 hc).2.db.candles.length
      = (storeCandlesInDB toFloat f1 c uid update1 hc).2.db.candles.length ∧
    (storeCandlesInDB toFloat f2 (storeCandlesInDB toFloat f1 c uid update1 hc).2
        uid update2 hc).2.db.seq
      = (storeCandlesInDB toFloat f1 c uid update1 hc).2.db.seq := by
  obtain ⟨hr1, _, hkeys⟩ := storeCandlesInDB_healthy toFloat f1 c uid update1 hc h1
  obtain ⟨hr2, hc2, hs2⟩ := storeCandlesInDB_all_stored toFloat f2
    (storeCandlesInDB toFloat f1 c uid update1 hc).2 uid update2 hc h2 hkeys
  exact ⟨hr1, hr2, hc2, by rw [hc2], hs2⟩

/-- C8 on an empty store, for a batch that repeats a timestamp: both commits
return no error and the second leaves the two rows of the first. -/
theorem C8_storeCandlesInDB_idempotent_witness :
    Faults.healthy.OnlyUniqueness ∧
    (storeCandlesInDB unitsOnly Faults.healthy (storageOf []) "X" (sec 100)
        [candleAt (sec 10), candleAt (sec 10), candleAt (sec 20)]).1 = none ∧
    (storeCandlesInDB unitsOnly Faults.healthy
        (storeCandlesInDB unitsOnly Faults.healthy (storageOf []) "X" (sec 100)
          [candleAt (sec 10), candleAt (sec 10), candleAt (sec 20)]).2 "X" (sec 100)
        [candleAt (sec 10), candleAt (sec 10), candleAt (sec 20)]).2.db.candles
      = [candleRow unitsOnly 1 "X" (candleAt (sec 10)),
         candleRow unitsOnly 2 "X" (candleAt (sec 20))] :=
  have hf : Faults.healthy.OnlyUniqueness := ⟨rfl, rfl, fun _ => rfl, rfl, rfl⟩
  have h := C8_storeCandlesInDB_idempotent unitsOnly Faults.healthy Faults.healthy
    (storageOf []) "X" (sec 100) (sec 100)
    [candleAt (sec 10), candleAt (sec 10), candleAt (sec 20)] hf hf
  ⟨hf, h.1, h.2.2.1.trans (by decide)⟩

/-- C9 (evaluation at the input where the code leaves the claim): on an empty
store, for the batch of the candles at 10 s and 20 s, when the first `Exec`
fails with the `sqlite3.Error` of code `ErrBusy`, `storeCandlesInDB` returns no
error, writes the checkpoint row, and the candle table holds the row of 20 s
only: the timestamp 10 s of the batch, not stored before, has no row. -/
theorem C9_storeCandlesInDB_skips_any_sqlite_error :
    (storeCandlesInDB unitsOnly busyOnFirstExec (storageOf []) "X" (sec 100)
        [candleAt (sec 10), candleAt (sec 20)]).1 = none ∧
    (storeCandlesInDB unitsOnly busyOnFirstExec (storageOf []) "X" (sec 100)
        [candleAt (sec 10), candleAt (sec 20)]).2.db.candles
      = [candleRow unitsOnly 1 "X" (candleAt (sec 20))] ∧
    hasKey (storageOf []).db.candles "X" (Time.Unix (sec 10)) = false ∧
    hasKey (storeCandlesInDB unitsOnly busyOnFirstExec (storageOf []) "X" (sec 100)
        [candleAt (sec 10), candleAt (sec 20)]).2.db.candles "X" (Time.Unix (sec 10)) = false ∧
    (storeCandlesInDB unitsOnly busyOnFirstExec (storageOf []) "X" (sec 100)
        [candleAt (sec 10), candleAt (sec 20)]).2.db.updates
      = [{ InstrumentId := "X", FirstTime := -62135596800, LastTime := 100 }] := by
  decide

/-! ## Failures inside the candle transaction -/

/-- A property of a table that every appended row of a new key keeps holds,
whatever the `Exec` returns, of what the file holds and of what the connection
sees after it. -/
theorem insertExec_preserves {F : Type} (toFloat : Quotation → F) (uid : String)
    (P : Tx F → Prop)
    (hstep : ∀ (tx : Tx F) (candle : HistoricCandle), P tx →
      hasKey tx.candles uid (Time.Unix candle.Time) = false →
      P { candles := tx.candles ++ [candleRow toFloat (tx.seq + 1) uid candle],
          seq := tx.seq + 1 })
    (fault : Option DBError) (conn : Conn F) (candle : HistoricCandle)
    (h1 : P conn.stored) (h2 : P conn.seen) :
    P (insertExec toFloat fault conn uid candle).2.stored ∧
    P (insertExec toFloat fault conn uid candle).2.seen := by
  unfold insertExec
  cases fault with
  | some e =>
    simp only
    split
    · exact ⟨h1, h1⟩
    · exact ⟨h1, h2⟩
  | none =>
    simp only
    split
    · exact ⟨h1, h2⟩
    · rename_i hk
      have hk' : hasKey conn.seen.candles uid (Time.Unix candle.Time) = false := by
        simpa using hk
      have hnew := hstep conn.seen candle h2 hk'
      refine ⟨?_, hnew⟩
      cases conn.inTx
      · simpa using hnew
      · simpa using h1

/-- A property of a table that every appended row of a new key keeps holds,
whatever fails, of what the file holds and of what the connection sees when the
loop is left. -/
theorem insertLoop_preserves {F : Type} (toFloat : Quotation → F)
    (execErr : Nat → Option DBError) (uid : String) (P : Tx F → Prop)
    (hstep : ∀ (tx : Tx F) (candle : HistoricCandle), P tx →
      hasKey tx.candles uid (Time.Unix candle.Time) = false →
      P { candles := tx.candles ++ [candleRow toFloat (tx.seq + 1) uid candle],
          seq := tx.seq + 1 })
    (hc : List HistoricCandle) (k : Nat) (conn : Conn F)
    (h1 : P conn.stored) (h2 : P conn.seen) :
    P (insertLoop toFloat execErr uid hc k conn).2.stored ∧
    P (insertLoop toFloat execErr uid hc k conn).2.seen := by
  induction hc generalizing k conn with
  | nil => exact ⟨h1, h2⟩
  | cons candle rest ih =>
    have hx := insertExec_preserves toFloat uid P hstep (execErr k) conn candle h1 h2
    simp only [insertLoop]
    cases hr : insertExec toFloat (execErr k) conn uid candle with
    | mk r conn1 =>
      rw [hr] at hx
      cases r with
      | none => exact ih (k + 1) conn1 hx.1 hx.2
      | some e =>
        by_cases hs : e.isSqlite3Error = true
        · simp only [hs, if_true]
          exact ih (k + 1) conn1 hx.1 hx.2
        · simp only [hs]
          exact hx

/-- While no `Exec` fails with an error that ends the transaction, the
transaction stays open and the file holds what it held. -/
theorem insertLoop_open {F : Type} (toFloat : Quotation → F) (execErr : Nat → Option DBError)
    (uid : String) (hopen : ∀ k e, execErr k = some e → e.endsTransaction = false)
    (hc : List HistoricCandle) (k : Nat) (conn : Conn F) (hin : conn.inTx = true) :
    (insertLoop toFloat execErr uid hc k conn).2.inTx = true ∧
    (insertLoop toFloat execErr uid hc k conn).2.stored = conn.stored := by
  induction hc generalizing k conn with
  | nil => exact ⟨hin, rfl⟩
  | cons candle rest ih =>
    have hx : (insertExec toFloat (execErr k) conn uid candle).2.inTx = true ∧
        (insertExec toFloat (execErr k) conn uid candle).2.stored = conn.stored := by
      unfold insertExec
      cases hf : execErr k with
      | some e => simp [hopen k e hf, hin]
      | none =>
        simp only
        split
        · exact ⟨hin, rfl⟩
        · simp [hin]
    simp only [insertLoop]
    cases hr : insertExec toFloat (execErr k) conn uid candle with
    | mk r conn1 =>
      rw [hr] at hx
      have hrec := ih (k + 1) conn1 hx.1
      cases r with
      | none => exact ⟨hrec.1, hrec.2.trans hx.2⟩
      | some e =>
        by_cases hs : e.isSqlite3Error = true
        · simp only [hs, if_true]
          exact ⟨hrec.1, hrec.2.trans hx.2⟩
        · simp only [hs]
          exact hx

/-- A failure inside the candle transaction is returned by `storeCandlesInDB`,
and the checkpoint rows are then what they were: a checkpoint row is written
only after `Commit` has returned no error. -/
theorem storeCandlesInDB_tx_failure {F : Type} (toFloat : Quotation → F) (f : Faults)
    (c : CandlesStorage F) (uid : String) (update : Time) (hc : List HistoricCandle) :
    (∀ err, (storeCandlesTx toFloat f c.db uid hc).1 = some err →
      (storeCandlesInDB toFloat f c uid update hc).1 = some err ∧
      (storeCandlesInDB toFloat f c uid update hc).2.db.updates = c.db.updates) ∧
    ((storeCandlesInDB toFloat f c uid update hc).2.db.updates ≠ c.db.updates →
      (storeCandlesTx toFloat f c.db uid hc).1 = none) := by
  have hupd : (storeCandlesTx toFloat f c.db uid hc).2.updates = c.db.updates := by
    unfold storeCandlesTx
    cases f.beginErr with
    | some e => rfl
    | none =>
      cases f.prepareErr with
      | some e => rfl
      | none =>
        simp only
        cases insertLoop toFloat f.execErr uid hc 0 (Conn.opened c.db) with
        | mk r conn =>
          cases r with
          | some e => rfl
          | none =>
            simp only
            cases commitResult f conn <;> rfl
  cases hr : storeCandlesTx toFloat f c.db uid hc with
  | mk r db =>
    rw [hr] at hupd
    cases r with
    | some e =>
      refine ⟨fun err he => ?_, fun hne => ?_⟩
      · simp only [Option.some.injEq] at he
        subst he
        simp [storeCandlesInDB, hr]
        exact hupd
      · simp only [storeCandlesInDB, hr] at hne
        exact absurd hupd hne
    | none =>
      exact ⟨fun err he => by simp at he, fun _ => rfl⟩

/-- While no `Exec` fails with an error that ends the transaction (so when the
only skipped failures are violated constraints or `ErrBusy`), a failure inside
the candle transaction, at `Begin`, at `Prepare`, at an insert whose error is
not skipped, or at `Commit`, is returned and leaves the whole storage as it
was. -/
theorem storeCandlesInDB_atomic_while_open {F : Type} (toFloat : Quotation → F) (f : Faults)
    (c : CandlesStorage F) (uid : String) (update : Time) (hc : List HistoricCandle)
    (hopen : ∀ k e, f.execErr k = some e → e.endsTransaction = false) (err : DBError)
    (herr : (storeCandlesTx toFloat f c.db uid hc).1 = some err) :
    storeCandlesInDB toFloat f c uid update hc = (some err, c) := by
  have hdb : (storeCandlesTx toFloat f c.db uid hc).2 = c.db := by
    have hl := insertLoop_open toFloat f.execErr uid hopen hc 0 (Conn.opened c.db) rfl
    unfold storeCandlesTx at herr ⊢
    cases hb : f.beginErr with
    | some e => rfl
    | none =>
      cases hp : f.prepareErr with
      | some e => rfl
      | none =>
        simp only [hb, hp] at herr ⊢
        cases hr : insertLoop toFloat f.execErr uid hc 0 (Conn.opened c.db) with
        | mk r conn =>
          rw [hr] at hl herr
          simp only at hl
          cases r with
          | some e =>
            simp only [hl.2, Conn.opened]
          | none =>
            simp only at herr ⊢
            cases hcm : commitResult f conn with
            | some e => simp only [hl.2, Conn.opened]
            | none => simp [hcm] at herr
  cases hr : storeCandlesTx toFloat f c.db uid hc with
  | mk r db =>
    rw [hr] at herr hdb
    simp only at herr hdb
    subst herr
    subst hdb
    simp [storeCandlesInDB, hr]

/-- A batch of two candles whose second `Exec` fails in the driver, on an empty
store: the error is returned, and neither the first candle nor a checkpoint row
is stored. -/
theorem storeCandlesInDB_driver_error_rolls_back :
    storeCandlesInDB unitsOnly driverErrorOnSecondExec (storageOf []) "X" (sec 100)
        [candleAt (sec 10), candleAt (sec 20)]
      = (some (.other "driver: bad connection"), storageOf []) :=
  storeCandlesInDB_atomic_while_open unitsOnly driverErrorOnSecondExec (storageOf []) "X"
    (sec 100) [candleAt (sec 10), candleAt (sec 20)]
    (fun k e h => by
      by_cases hk : k = 1
      · subst hk
        have he : e = .other "driver: bad connection" := by
          simpa [driverErrorOnSecondExec] using h.symm
        rw [he]
        rfl
      · simp [driverErrorOnSecondExec, Faults.healthy, hk] at h)
    (.other "driver: bad connection") (by decide)

/-- C10 (evaluation at the input where the code leaves the claim): on an empty
store, for the batch of the candles at 10 s, 20 s and 30 s, when the second
`Exec` fails with the `sqlite3.Error` of code `ErrFull`, the failure is skipped
although sqlite has ended the transaction: the row of 10 s is rolled back, the
row of 30 s is written in autocommit mode, and `Commit` is refused. So
`storeCandlesInDB` returns an error and writes no checkpoint row, yet the
candle of 30 s of the batch is persisted. -/
theorem C10_storeCandlesInDB_keeps_candle_of_failed_transaction :
    (DBError.sqlite 13 13).isSqlite3Error = true ∧
    (DBError.sqlite 13 13).endsTransaction = true ∧
    (storageOf []).db.candles = [] ∧
    (storeCandlesTx unitsOnly diskFullOnSecondExec (storageOf []).db "X"
        [candleAt (sec 10), candleAt (sec 20), candleAt (sec 30)]).1 = some noTransaction ∧
    (storeCandlesInDB unitsOnly diskFullOnSecondExec (storageOf []) "X" (sec 100)
        [candleAt (sec 10), candleAt (sec 20), candleAt (sec 30)]).1 = some noTransaction ∧
    (storeCandlesInDB unitsOnly diskFullOnSecondExec (storageOf []) "X" (sec 100)
        [candleAt (sec 10), candleAt (sec 20), candleAt (sec 30)]).2.db.candles
      = [candleRow unitsOnly 1 "X" (candleAt (sec 30))] ∧
    (storeCandlesInDB unitsOnly diskFullOnSecondExec (storageOf []) "X" (sec 100)
        [candleAt (sec 10), candleAt (sec 20), candleAt (sec 30)]).2.db.updates = [] := by
  decide

/-- Which failures of an `Exec` the loop skips: the failure is skipped exactly
when `errors.As` finds a `sqlite3.Error`, whatever its code, also when the
failure has ended the transaction; any other failure leaves the loop with that
error. -/
theorem insertLoop_exec_failure {F : Type} (toFloat : Quotation → F)
    (execErr : Nat → Option DBError) (uid : String) (candle : HistoricCandle)
    (rest : List HistoricCandle) (k : Nat) (conn : Conn F) (err : DBError)
    (hk : execErr k = some err) :
    insertLoop toFloat execErr uid (candle :: rest) k conn =
      if err.isSqlite3Error then
        insertLoop toFloat execErr uid rest (k + 1)
          (if err.endsTransaction then
            { stored := conn.stored, seen := conn.stored, inTx := false }
          else conn)
      else (some err, conn) := by
  cases err with
  | sqlite code ext =>
    by_cases he : (DBError.sqlite code ext).endsTransaction = true
    · simp [insertLoop, insertExec, hk, he, DBError.isSqlite3Error]
    · simp [insertLoop, insertExec, hk, he, DBError.isSqlite3Error]
  | other msg => simp [insertLoop, insertExec, hk, DBError.endsTransaction]
  | join a b =>
    by_cases hs : (DBError.join a b).isSqlite3Error = true
    · simp [insertLoop, insertExec, hk, DBError.endsTransaction, hs]
    · simp [insertLoop, insertExec, hk, DBError.endsTransaction, hs]

/-- The same failure on the last `Exec` of a batch of two: sqlite rolls the row
of 10 s back, `Commit` is refused, and `storeCandlesInDB` returns that error
with no candle and no checkpoint row stored. -/
theorem storeCandlesInDB_disk_full_on_last_exec :
    (storeCandlesInDB unitsOnly diskFullOnSecondExec (storageOf []) "X" (sec 100)
        [candleAt (sec 10), candleAt (sec 20)]).1 = some noTransaction ∧
    (storeCandlesInDB unitsOnly diskFullOnSecondExec (storageOf []) "X" (sec 100)
        [candleAt (sec 10), candleAt (sec 20)]).2.db = (storageOf []).db := by
  decide

/-- C11 (evaluation at the input where the code leaves the claim): on an empty
store, for the batch of the candles at 10 s, 20 s and 30 s, when the first
`Exec` fails with the `sqlite3.Error` of code `ErrBusy`, which is no violation
of the uniqueness constraint, the failure is skipped and the loop goes on:
`storeCandlesInDB` returns no error, the rows of 20 s and 30 s are committed
(nothing is rolled back) and the checkpoint row is written. -/
theorem C11_storeCandlesInDB_skips_non_unique_sqlite_error :
    (DBError.sqlite 5 5) ≠ uniqueViolation ∧
    (DBError.sqlite 5 5).isSqlite3Error = true ∧
    busyOnFirstExec.execErr 0 = some (DBError.sqlite 5 5) ∧
    (storeCandlesInDB unitsOnly busyOnFirstExec (storageOf []) "X" (sec 100)
        [candleAt (sec 10), candleAt (sec 20), candleAt (sec 30)]).1 = none ∧
    (storeCandlesInDB unitsOnly busyOnFirstExec (storageOf []) "X" (sec 100)
        [candleAt (sec 10), candleAt (sec 20), candleAt (sec 30)]).2.db.candles
      = [candleRow unitsOnly 1 "X" (candleAt (sec 20)),
         candleRow unitsOnly 2 "X" (candleAt (sec 30))] ∧
    (storeCandlesInDB unitsOnly busyOnFirstExec (storageOf []) "X" (sec 100)
        [candleAt (sec 10), candleAt (sec 20), candleAt (sec 30)]).2.db.updates
      = [{ InstrumentId := "X", FirstTime := -62135596800, LastTime := 100 }] := by
  decide

/-! ## The footprint of a commit, whatever fails -/

/-- Whatever fails, a commit leaves the two maps of the storage alone, only
appends candle rows of the instrument, keeps their keys unique, and leaves the
checkpoint rows of the other instruments alone. -/
theorem storeCandlesInDB_footprint {F : Type} (toFloat : Quotation → F) (f : Faults)
    (c : CandlesStorage F) (uid : String) (update : Time) (hc : List HistoricCandle) :
    (storeCandlesInDB toFloat f c uid update hc).2.instruments = c.instruments ∧
    (storeCandlesInDB toFloat f c uid update hc).2.candles = c.candles ∧
    (∃ added, (storeCandlesInDB toFloat f c uid update hc).2.db.candles = c.db.candles ++ added ∧
      ∀ row ∈ added, row.InstrumentUid = uid) ∧
    (KeysUnique c.db.candles →
      KeysUnique (storeCandlesInDB toFloat f c uid update hc).2.db.candles) ∧
    (∀ id, id ≠ uid →
      checkpointRows (storeCandlesInDB toFloat f c uid update hc).2.db id
        = checkpointRows c.db id) := by
  have hP0 : (∃ added, c.db.candles = c.db.candles ++ added ∧
        ∀ row ∈ added, row.InstrumentUid = uid) ∧
      (KeysUnique c.db.candles → KeysUnique c.db.candles) :=
    ⟨⟨[], by simp, by simp⟩, id⟩
  have hloop := insertLoop_preserves toFloat f.execErr uid
    (fun tx => (∃ added, tx.candles = c.db.candles ++ added ∧
        ∀ row ∈ added, row.InstrumentUid = uid) ∧
      (KeysUnique c.db.candles → KeysUnique tx.candles))
    (fun tx candle hP hk => by
      obtain ⟨⟨added, h1, h2⟩, h3⟩ := hP
      refine ⟨⟨added ++ [candleRow toFloat (tx.seq + 1) uid candle], by simp [h1], ?_⟩, ?_⟩
      · intro row hrow
        rcases List.mem_append.mp hrow with hrow | hrow
        · exact h2 row hrow
        · simp only [List.mem_singleton] at hrow
          rw [hrow]
          rfl
      · intro hu
        exact keysUnique_append_row tx.candles _ (h3 hu) (by simpa [candleRow] using hk))
    hc 0 (Conn.opened c.db) hP0 hP0
  -- the tables after the candle transaction
  have htx : ((∃ added, (storeCandlesTx toFloat f c.db uid hc).2.candles = c.db.candles ++ added ∧
        ∀ row ∈ added, row.InstrumentUid = uid) ∧
      (KeysUnique c.db.candles → KeysUnique (storeCandlesTx toFloat f c.db uid hc).2.candles)) ∧
      (storeCandlesTx toFloat f c.db uid hc).2.updates = c.db.updates := by
    unfold storeCandlesTx
    cases f.beginErr with
    | some e => exact ⟨hP0, rfl⟩
    | none =>
      cases f.prepareErr with
      | some e => exact ⟨hP0, rfl⟩
      | none =>
        simp only
        cases hr : insertLoop toFloat f.execErr uid hc 0 (Conn.opened c.db) with
        | mk r conn =>
          rw [hr] at hloop
          cases r with
          | some e => exact ⟨hloop.1, rfl⟩
          | none =>
            simp only
            cases commitResult f conn with
            | some e => exact ⟨hloop.1, rfl⟩
            | none => exact ⟨hloop.2, rfl⟩
  cases hr : storeCandlesTx toFloat f c.db uid hc with
  | mk r db =>
    rw [hr] at htx
    obtain ⟨⟨hadd, hku⟩, hupd⟩ := htx
    cases r with
    | some e =>
      simp only [storeCandlesInDB, hr, checkpointRows]
      exact ⟨trivial, trivial, hadd, hku, fun _ _ => by rw [hupd]⟩
    | none =>
      cases hu : f.updatesErr with
      | some e =>
        simp only [storeCandlesInDB, hr, hu, checkpointRows]
        exact ⟨trivial, trivial, hadd, hku, fun _ _ => by rw [hupd]⟩
      | none =>
        simp only [storeCandlesInDB, hr, hu, checkpointRows]
        refine ⟨trivial, trivial, hadd, hku, ?_⟩
        intro id hne
        simp only at hupd
        rw [hupd]
        simp only [replaceUpdate, List.filter_append, List.filter_filter]
        have : (List.filter (fun r : UpdateRow => decide (r.InstrumentId = id))
            [{ InstrumentId := uid,
               FirstTime := Time.Unix (c.instrument uid).FirstUpdate,
               LastTime := Time.Unix update }]) = [] := by
          simp [Ne.symm hne]
        rw [this, List.append_nil]
        apply List.filter_congr
        intro r _
        by_cases hr : r.InstrumentId = id
        · simp [hr, hne]
        · simp [hr]

/-- A commit that returns no error leaves exactly one checkpoint row for the
instrument: the first time of its descriptor and `update`, in Unix seconds. -/
theorem storeCandlesInDB_checkpoint {F : Type} (toFloat : Quotation → F) (f : Faults)
    (c : CandlesStorage F) (uid : String) (update : Time) (hc : List HistoricCandle)
    (herr : (storeCandlesInDB toFloat f c uid update hc).1 = none) :
    checkpointRows (storeCandlesInDB toFloat f c uid update hc).2.db uid
      = [{ InstrumentId := uid, FirstTime := Time.Unix (c.instrument uid).FirstUpdate,
           LastTime := Time.Unix update }] := by
  cases hr : storeCandlesTx toFloat f c.db uid hc with
  | mk r db =>
    cases r with
    | some e => simp [storeCandlesInDB, hr] at herr
    | none =>
      cases hu : f.updatesErr with
      | some e => simp [storeCandlesInDB, hr, hu] at herr
      | none =>
        simp only [storeCandlesInDB, hr, hu, checkpointRows,
          replaceUpdate, List.filter_append, List.filter_filter]
        simp

/-! ## Loops that stop at the first error -/

theorem fetchesFor_append (id : String) (l1 l2 : List Event) :
    fetchesFor id (l1 ++ l2) = fetchesFor id l1 ++ fetchesFor id l2 := by
  simp [fetchesFor, List.filterMap_append]

theorem storesFor_append (id : String) (l1 l2 : List Event) :
    storesFor id (l1 ++ l2) = storesFor id l1 ++ storesFor id l2 := by
  simp [storesFor, List.filterMap_append]

/-- A property of the storage that every run of the body keeps is kept by the
loop, wherever it stops. -/
theorem rangeLoop_preserves {α F : Type} (body : α → CandlesStorage F → Step F)
    (P : CandlesStorage F → Prop) (l : List α) (cs : CandlesStorage F)
    (hstep : ∀ x ∈ l, ∀ cs', P cs' → P (body x cs').cs) (h0 : P cs) :
    P (rangeLoop body l cs).cs := by
  induction l generalizing cs with
  | nil => exact h0
  | cons x rest ih =>
    have hx := hstep x (by simp) cs h0
    simp only [rangeLoop]
    cases he : (body x cs).err with
    | some e => exact hx
    | none => exact ih (body x cs).cs (fun y hy => hstep y (by simp [hy])) hx

/-- An invariant that may depend on the entries still to come: if every
successful run of the body carries it over, a loop that ends without error
ends with it. -/
theorem rangeLoop_invariant {α F : Type} (body : α → CandlesStorage F → Step F)
    (J : List α → CandlesStorage F → Prop)
    (hstep : ∀ x rest cs, J (x :: rest) cs → (body x cs).err = none → J rest (body x cs).cs)
    (l : List α) (cs : CandlesStorage F) (h0 : J l cs)
    (herr : (rangeLoop body l cs).err = none) :
    J [] (rangeLoop body l cs).cs := by
  induction l generalizing cs with
  | nil => exact h0
  | cons x rest ih =>
    simp only [rangeLoop] at herr ⊢
    cases he : (body x cs).err with
    | some e => simp [he] at herr
    | none =>
      simp only [he] at herr ⊢
      exact ih (body x cs).cs (hstep x rest cs h0 he) herr

/-- The calls of a loop for an instrument that is not among its entries: none,
when the body only makes calls for the instrument of its entry. -/
theorem rangeLoop_log_other {α F : Type} (body : α → CandlesStorage F → Step F)
    (key : α → String) (sel : String → List Event → List β)
    (hsel : ∀ id l1 l2, sel id (l1 ++ l2) = sel id l1 ++ sel id l2)
    (hsel0 : ∀ id, sel id [] = [])
    (hfoot : ∀ x cs id, id ≠ key x → sel id (body x cs).log = [])
    (l : List α) (cs : CandlesStorage F) (id : String) (hid : id ∉ l.map key) :
    sel id (rangeLoop body l cs).log = [] := by
  induction l generalizing cs with
  | nil => simpa [rangeLoop] using hsel0 id
  | cons x rest ih =>
    have hx : id ≠ key x := fun h => hid (by simp [h])
    have hrest : id ∉ rest.map key := fun h => hid (by simp at h ⊢; exact Or.inr h)
    simp only [rangeLoop]
    cases he : (body x cs).err with
    | some e => exact hfoot x cs id hx
    | none =>
      simp only [hsel, hfoot x cs id hx, List.nil_append]
      exact ih (body x cs).cs hrest

/-- The calls of a loop for the instrument of one of its entries are the calls
of the body for that entry, when the loop gets as far as the entry. -/
theorem rangeLoop_log_own {α F : Type} (body : α → CandlesStorage F → Step F)
    (key : α → String) (sel : String → List Event → List β)
    (hsel : ∀ id l1 l2, sel id (l1 ++ l2) = sel id l1 ++ sel id l2)
    (hsel0 : ∀ id, sel id [] = [])
    (hfoot : ∀ x cs id, id ≠ key x → sel id (body x cs).log = [])
    (x : α) (own : List β) (hown : ∀ cs, sel (key x) (body x cs).log = own)
    (l : List α) (cs : CandlesStorage F) (hnd : (l.map key).Nodup) (hx : x ∈ l)
    (herr : (rangeLoop body l cs).err = none) :
    sel (key x) (rangeLoop body l cs).log = own := by
  induction l generalizing cs with
  | nil => simp at hx
  | cons y rest ih =>
    have hnd' : key y ∉ rest.map key ∧ (rest.map key).Nodup :=
      List.nodup_cons.mp (by rw [← List.map_cons]; exact hnd)
    simp only [rangeLoop] at herr ⊢
    cases he : (body y cs).err with
    | some e => simp [he] at herr
    | none =>
      simp only [he] at herr ⊢
      rw [hsel]
      rcases List.mem_cons.mp hx with rfl | hxr
      · rw [hown cs, rangeLoop_log_other body key sel hsel hsel0 hfoot rest _ (key x) hnd'.1]
        simp
      · have hne : key x ≠ key y := by
          intro h
          exact hnd'.1 (h ▸ List.mem_map_of_mem key hxr)
        rw [hfoot y cs (key x) hne, List.nil_append]
        exact ih (body y cs).cs hnd'.2 hxr herr

/-! ## One required instrument in the per-instrument pass -/

theorem setKey_same {V : Type} (m : String → Option V) (k : String) (v : V) :
    setKey m k v k = some v := by
  simp [setKey]

theorem setKey_other {V : Type} (m : String → Option V) (k : String) (v : V) (x : String)
    (h : x ≠ k) : setKey m k v x = m x := by
  simp [setKey, h]

/-- Whatever happens, the body of the per-instrument pass leaves the other
instruments alone (descriptor, checkpoint rows, calls), leaves all working sets
alone, and only appends candle rows of its instrument, keeping keys unique. -/
theorem reconcileOne_footprint {F : Type} (toFloat : Quotation → F) (now : Time)
    (mds : MarketDataService) (f : Faults) (DBUpdates : String → Option StorageInstrument)
    (entry : String × StorageInstrument) (cs : CandlesStorage F) :
    (∀ id, id ≠ entry.1 →
      (reconcileOne toFloat now mds f DBUpdates entry cs).cs.instruments id = cs.instruments id ∧
      checkpointRows (reconcileOne toFloat now mds f DBUpdates entry cs).cs.db id
        = checkpointRows cs.db id ∧
      fetchesFor id (reconcileOne toFloat now mds f DBUpdates entry cs).log = [] ∧
      storesFor id (reconcileOne toFloat now mds f DBUpdates entry cs).log = []) ∧
    (reconcileOne toFloat now mds f DBUpdates entry cs).cs.candles = cs.candles ∧
    (∃ added, (reconcileOne toFloat now mds f DBUpdates entry cs).cs.db.candles
        = cs.db.candles ++ added ∧ ∀ row ∈ added, row.InstrumentUid = entry.1) ∧
    (KeysUnique cs.db.candles →
      KeysUnique (reconcileOne toFloat now mds f DBUpdates entry cs).cs.db.candles) := by
  have hnil : ∃ added : List (CandleDB F), cs.db.candles = cs.db.candles ++ added ∧
      ∀ row ∈ added, row.InstrumentUid = entry.1 := ⟨[], by simp, by simp⟩
  have hstore : ∀ (inst : StorageInstrument) (update : Time) (hc : List HistoricCandle)
      (req : GetHistoricCandlesRequest), req.Instrument = entry.1 →
      (∀ id, id ≠ entry.1 →
        (storeCandlesInDB toFloat f
          { cs with instruments := setKey cs.instruments entry.1 inst } entry.1 update hc).2.instruments id
          = cs.instruments id ∧
        checkpointRows (storeCandlesInDB toFloat f
          { cs with instruments := setKey cs.instruments entry.1 inst } entry.1 update hc).2.db id
          = checkpointRows cs.db id ∧
        fetchesFor id [Event.fetch req, Event.store entry.1 update hc] = [] ∧
        storesFor id [Event.fetch req, Event.store entry.1 update hc] = []) ∧
      (storeCandlesInDB toFloat f
          { cs with instruments := setKey cs.instruments entry.1 inst } entry.1 update hc).2.candles
        = cs.candles ∧
      (∃ added, (storeCandlesInDB toFloat f
          { cs with instruments := setKey cs.instruments entry.1 inst } entry.1 update hc).2.db.candles
          = cs.db.candles ++ added ∧ ∀ row ∈ added, row.InstrumentUid = entry.1) ∧
      (KeysUnique cs.db.candles → KeysUnique (storeCandlesInDB toFloat f
          { cs with instruments := setKey cs.instruments entry.1 inst } entry.1 update hc).2.db.candles) := by
    intro inst update hc req hreq
    obtain ⟨h1, h2, h3, h4, h5⟩ := storeCandlesInDB_footprint toFloat f
      { cs with instruments := setKey cs.instruments entry.1 inst } entry.1 update hc
    refine ⟨?_, h2, h3, h4⟩
    intro id hne
    refine ⟨?_, h5 id hne, ?_, ?_⟩
    · rw [h1]; exact setKey_other _ _ _ _ hne
    · simp [fetchesFor, hreq, Ne.symm hne]
    · simp [storesFor, Ne.symm hne]
  unfold reconcileOne
  cases hu : DBUpdates entry.1 with
  | none =>
    simp only []
    cases hm : mds ⟨entry.1, entry.2.CandleInterval, entry.2.FirstUpdate, now, false, ""⟩ with
    | error e =>
      refine ⟨?_, rfl, hnil, id⟩
      intro id hne
      simp [fetchesFor, storesFor, Ne.symm hne]
    | ok newCandles => exact hstore _ now newCandles _ rfl
  | some upd =>
    simp only []
    by_cases ha : Time.After entry.2.FirstUpdate upd.FirstUpdate = true
    · simp only [ha, if_true]
      refine ⟨?_, ?_, hnil, id⟩
      · intro id hne
        simp [setKey_other _ _ _ _ hne, fetchesFor, storesFor]
      · first | rfl | trivial
    · simp only [ha]
      cases hm : mds ⟨entry.1, entry.2.CandleInterval, entry.2.FirstUpdate, upd.FirstUpdate,
          false, ""⟩ with
      | error e =>
        refine ⟨?_, rfl, hnil, id⟩
        intro id hne
        simp [fetchesFor, storesFor, Ne.symm hne]
      | ok oldCandles => exact hstore _ upd.LastUpdate oldCandles _ rfl

theorem instrument_setKey {F : Type} (cs : CandlesStorage F) (id : String)
    (inst : StorageInstrument) :
    ({ cs with instruments := setKey cs.instruments id inst } : CandlesStorage F).instrument id
      = inst := by
  simp [CandlesStorage.instrument, setKey]

/-- The body of the per-instrument pass for an instrument without checkpoint:
one request, from the desired start to `now`; when no error is returned, the
descriptor has `LastUpdate = now` and the checkpoint is the one row
(desired start, `now`) in Unix seconds. -/
theorem reconcileOne_new {F : Type} (toFloat : Quotation → F) (now : Time)
    (mds : MarketDataService) (f : Faults) (DBUpdates : String → Option StorageInstrument)
    (entry : String × StorageInstrument) (cs : CandlesStorage F)
    (hnew : DBUpdates entry.1 = none) :
    fetchesFor entry.1 (reconcileOne toFloat now mds f DBUpdates entry cs).log
      = [{ Instrument := entry.1, Interval := entry.2.CandleInterval,
           From := entry.2.FirstUpdate, To := now, File := false, FileName := "" }] ∧
    ((reconcileOne toFloat now mds f DBUpdates entry cs).err = none →
      (reconcileOne toFloat now mds f DBUpdates entry cs).cs.instruments entry.1
        = some { entry.2 with LastUpdate := now } ∧
      checkpointRows (reconcileOne toFloat now mds f DBUpdates entry cs).cs.db entry.1
        = [{ InstrumentId := entry.1, FirstTime := Time.Unix entry.2.FirstUpdate,
             LastTime := Time.Unix now }]) := by
  unfold reconcileOne
  simp only [hnew]
  cases hm : mds ⟨entry.1, entry.2.CandleInterval, entry.2.FirstUpdate, now, false, ""⟩ with
  | error e => simp [fetchesFor]
  | ok newCandles =>
    refine ⟨by simp [fetchesFor], ?_⟩
    intro herr
    simp only [Option.map_eq_none'] at herr
    have h2 := storeCandlesInDB_checkpoint toFloat f _ _ _ _ herr
    rw [instrument_setKey] at h2
    refine ⟨?_, h2⟩
    rw [(storeCandlesInDB_footprint toFloat f _ _ _ _).1]
    exact setKey_same _ _ _

/-- The body of the per-instrument pass for an instrument whose desired start is
strictly after the first time of its checkpoint: no call at all, no error, and
the descriptor takes both times of the checkpoint. -/
theorem reconcileOne_adopt {F : Type} (toFloat : Quotation → F) (now : Time)
    (mds : MarketDataService) (f : Faults) (DBUpdates : String → Option StorageInstrument)
    (entry : String × StorageInstrument) (cs : CandlesStorage F) (upd : StorageInstrument)
    (hupd : DBUpdates entry.1 = some upd)
    (hafter : upd.FirstUpdate < entry.2.FirstUpdate) :
    (reconcileOne toFloat now mds f DBUpdates entry cs).log = [] ∧
    (reconcileOne toFloat now mds f DBUpdates entry cs).err = none ∧
    (reconcileOne toFloat now mds f DBUpdates entry cs).cs.db = cs.db ∧
    (reconcileOne toFloat now mds f DBUpdates entry cs).cs.instruments entry.1
      = some { entry.2 with FirstUpdate := upd.FirstUpdate, LastUpdate := upd.LastUpdate } := by
  simp [reconcileOne, hupd, Time.After, hafter, setKey]

/-- The body of the per-instrument pass for an instrument whose desired start is
not after the first time of its checkpoint: one request, from the desired start
to the first time of the checkpoint; when no error is returned, the descriptor
keeps the desired start and takes the last time of the checkpoint, and the
checkpoint is the one row (desired start, last time of the checkpoint). -/
theorem reconcileOne_gap {F : Type} (toFloat : Quotation → F) (now : Time)
    (mds : MarketDataService) (f : Faults) (DBUpdates : String → Option StorageInstrument)
    (entry : String × StorageInstrument) (cs : CandlesStorage F) (upd : StorageInstrument)
    (hupd : DBUpdates entry.1 = some upd)
    (hle : entry.2.FirstUpdate ≤ upd.FirstUpdate) :
    fetchesFor entry.1 (reconcileOne toFloat now mds f DBUpdates entry cs).log
      = [{ Instrument := entry.1, Interval := entry.2.CandleInterval,
           From := entry.2.FirstUpdate, To := upd.FirstUpdate, File := false, FileName := "" }] ∧
    ((reconcileOne toFloat now mds f DBUpdates entry cs).err = none →
      (reconcileOne toFloat now mds f DBUpdates entry cs).cs.instruments entry.1
        = some { entry.2 with LastUpdate := upd.LastUpdate } ∧
      checkpointRows (reconcileOne toFloat now mds f DBUpdates entry cs).cs.db entry.1
        = [{ InstrumentId := entry.1, FirstTime := Time.Unix entry.2.FirstUpdate,
             LastTime := Time.Unix upd.LastUpdate }]) := by
  have hna : Time.After entry.2.FirstUpdate upd.FirstUpdate = false := by
    simp [Time.After, not_lt.mpr hle]
  unfold reconcileOne
  simp only [hupd, hna, Bool.false_eq_true, if_false]
  cases hm : mds ⟨entry.1, entry.2.CandleInterval, entry.2.FirstUpdate, upd.FirstUpdate,
      false, ""⟩ with
  | error e => simp [fetchesFor]
  | ok oldCandles =>
    refine ⟨by simp [fetchesFor], ?_⟩
    intro herr
    simp only [Option.map_eq_none'] at herr
    have h2 := storeCandlesInDB_checkpoint toFloat f _ _ _ _ herr
    rw [instrument_setKey] at h2
    refine ⟨?_, h2⟩
    rw [(storeCandlesInDB_footprint toFloat f _ _ _ _).1]
    exact setKey_same _ _ _

/-! ## The map read by `lastUpdates` -/

/-- The descriptor `lastUpdates` builds from a row. -/
theorem lastUpdates_eq (rows : List UpdateRow) (id : String) :
    lastUpdates rows id =
      ((rows.filter (fun r => decide (r.InstrumentId = id))).getLast?).map (fun r =>
        { StorageInstrument.zero with
          FirstUpdate := Time.ofUnix r.FirstTime, LastUpdate := Time.ofUnix r.LastTime }) := by
  induction rows using List.reverseRecOn with
  | nil => simp [lastUpdates]
  | append_singleton init r ih =>
    unfold lastUpdates at ih ⊢
    rw [List.foldl_append]
    simp only [List.foldl_cons, List.foldl_nil, List.filter_append]
    by_cases hr : r.InstrumentId = id
    · simp [setKey, hr]
    · have hr' : ¬ id = r.InstrumentId := fun h => hr h.symm
      simp [setKey, hr, hr', ih]

theorem unix_ofUnix (s : Int) : Time.Unix (Time.ofUnix s) = s := by
  simp [Time.Unix, Time.ofUnix]

/-! ## The per-instrument pass as a whole -/

/-- What the body establishes for its own entry and the bodies of the other
entries keep, holds when a loop over distinct keys ends without error. -/
theorem rangeLoop_post {α F : Type} (body : α → CandlesStorage F → Step F)
    (key : α → String) (x : α) (Q : CandlesStorage F → Prop)
    (hest : ∀ cs, (body x cs).err = none → Q (body x cs).cs)
    (hkeep : ∀ y cs, key y ≠ key x → Q cs → Q (body y cs).cs)
    (l : List α) (cs : CandlesStorage F) (hnd : (l.map key).Nodup) (hx : x ∈ l)
    (herr : (rangeLoop body l cs).err = none) :
    Q (rangeLoop body l cs).cs := by
  induction l generalizing cs with
  | nil => simp at hx
  | cons y rest ih =>
    have hnd' : key y ∉ rest.map key ∧ (rest.map key).Nodup :=
      List.nodup_cons.mp (by rw [← List.map_cons]; exact hnd)
    simp only [rangeLoop] at herr ⊢
    cases he : (body y cs).err with
    | some e => simp [he] at herr
    | none =>
      simp only [he] at herr ⊢
      rcases List.mem_cons.mp hx with rfl | hxr
      · apply rangeLoop_preserves body Q rest _ _ (hest cs he)
        intro z hz cs' hq
        exact hkeep z cs' (fun h => hnd'.1 (h ▸ List.mem_map_of_mem key hz)) hq
      · exact ih (body y cs).cs hnd'.2 hxr herr

theorem fetchesFor_reconcilePass {F : Type} (toFloat : Quotation → F) (env : Env)
    (DBUpdates : String → Option StorageInstrument) (order : List (String × StorageInstrument))
    (cs : CandlesStorage F) (entry : String × StorageInstrument)
    (own : List GetHistoricCandlesRequest)
    (hown : ∀ cs', fetchesFor entry.1
      (reconcileOne toFloat env.now env.mds (env.faults entry.1) DBUpdates entry cs').log = own)
    (hnd : (order.map Prod.fst).Nodup) (hmem : entry ∈ order)
    (herr : (reconcilePass toFloat env DBUpdates order cs).err = none) :
    fetchesFor entry.1 (reconcilePass toFloat env DBUpdates order cs).log = own :=
  rangeLoop_log_own _ Prod.fst fetchesFor fetchesFor_append (fun _ => rfl)
    (fun x cs' id hne => ((reconcileOne_footprint toFloat env.now env.mds (env.faults x.1)
      DBUpdates x cs').1 id hne).2.2.1)
    entry own hown order cs hnd hmem herr

/-! ## The stages of `NewCandlesStorage` -/

theorem rangeLoop_log_nil {α F : Type} (body : α → CandlesStorage F → Step F)
    (hnil : ∀ x cs, (body x cs).log = []) (l : List α) (cs : CandlesStorage F) :
    (rangeLoop body l cs).log = [] := by
  induction l generalizing cs with
  | nil => rfl
  | cons x rest ih =>
    simp only [rangeLoop]
    cases he : (body x cs).err with
    | some e => exact hnil x cs
    | none => simp [hnil x cs, ih]

/-- Loading the working sets touches neither the database nor the descriptors,
and makes no call to the market data service or to `storeCandlesInDB`. -/
theorem loadPass_footprint {F : Type} [DecidableEq F] [Zero F]
    (fromFloat : F → Option Quotation → Quotation) (env : Env) (from_ to_ : Time)
    (order : List (String × StorageInstrument)) (cs : CandlesStorage F) :
    (loadPass fromFloat env from_ to_ order cs).cs.db = cs.db ∧
    (loadPass fromFloat env from_ to_ order cs).cs.instruments = cs.instruments ∧
    (loadPass fromFloat env from_ to_ order cs).log = [] := by
  have h := rangeLoop_preserves
    (fun (entry : String × StorageInstrument) (cs : CandlesStorage F) =>
      match loadCandlesFromDB fromFloat (env.loadErr entry.1) cs entry.1 entry.2.PriceStep
          from_ to_ with
      | .error err => ({ err := some (.db err), cs := cs, log := [] } : Step F)
      | .ok tmp => { err := none, cs := { cs with candles := setKey cs.candles entry.1 tmp },
                     log := [] })
    (fun cs' => cs'.db = cs.db ∧ cs'.instruments = cs.instruments) order cs
    (by
      intro x _ cs' hq
      dsimp only
      split <;> exact hq)
    ⟨rfl, rfl⟩
  refine ⟨h.1, h.2, ?_⟩
  apply rangeLoop_log_nil
  intro x cs'
  dsimp only
  split <;> rfl

/-- A run of `NewCandlesStorage` that returns no error: the per-instrument pass
returned none, and the database, the descriptors and the calls are those of the
per-instrument pass when no update was asked for, and those of the update pass
after it otherwise. -/
theorem NewCandlesStorage_success {F : Type} [DecidableEq F] [Zero F] (toFloat : Quotation → F)
    (fromFloat : F → Option Quotation → Quotation) (env : Env) (db : DB F)
    (req : NewCandlesStorageRequest)
    (herr : (NewCandlesStorage toFloat fromFloat env db req).err = none) :
    (reconcilePass toFloat env (lastUpdates db.updates)
      (env.rangeOrder 0 req.RequiredInstruments) (emptyStorage db)).err = none ∧
    (req.Update = false →
      (NewCandlesStorage toFloat fromFloat env db req).cs.db
        = (reconcilePass toFloat env (lastUpdates db.updates)
            (env.rangeOrder 0 req.RequiredInstruments) (emptyStorage db)).cs.db ∧
      (NewCandlesStorage toFloat fromFloat env db req).cs.instruments
        = (reconcilePass toFloat env (lastUpdates db.updates)
            (env.rangeOrder 0 req.RequiredInstruments) (emptyStorage db)).cs.instruments ∧
      (NewCandlesStorage toFloat fromFloat env db req).log
        = (reconcilePass toFloat env (lastUpdates db.updates)
            (env.rangeOrder 0 req.RequiredInstruments) (emptyStorage db)).log) ∧
    (req.Update = true →
      (updatePass toFloat env (env.rangeOrder 1 req.RequiredInstruments)
        (reconcilePass toFloat env (lastUpdates db.updates)
          (env.rangeOrder 0 req.RequiredInstruments) (emptyStorage db)).cs).err = none ∧
      (NewCandlesStorage toFloat fromFloat env db req).cs.db
        = (updatePass toFloat env (env.rangeOrder 1 req.RequiredInstruments)
            (reconcilePass toFloat env (lastUpdates db.updates)
              (env.rangeOrder 0 req.RequiredInstruments) (emptyStorage db)).cs).cs.db ∧
      (NewCandlesStorage toFloat fromFloat env db req).cs.instruments
        = (updatePass toFloat env (env.rangeOrder 1 req.RequiredInstruments)
            (reconcilePass toFloat env (lastUpdates db.updates)
              (env.rangeOrder 0 req.RequiredInstruments) (emptyStorage db)).cs).cs.instruments) := by
  unfold NewCandlesStorage at herr ⊢
  cases hi : env.initErr with
  | some e => simp [hi] at herr
  | none =>
    cases hl : env.lastUpdatesErr with
    | some e => simp [hi, hl] at herr
    | none =>
      simp only [hi, hl] at herr ⊢
      cases h1 : (reconcilePass toFloat env (lastUpdates db.updates)
          (env.rangeOrder 0 req.RequiredInstruments) (emptyStorage db)).err with
      | some e => simp [h1] at herr
      | none =>
        simp only [h1] at herr ⊢
        refine ⟨trivial, ?_, ?_⟩
        · intro hu
          simp only [hu, Bool.false_eq_true, if_false] at herr ⊢
          obtain ⟨ha, hb, _⟩ := loadPass_footprint fromFloat env req.From req.To
            (env.rangeOrder 2 req.RequiredInstruments)
            (reconcilePass toFloat env (lastUpdates db.updates)
              (env.rangeOrder 0 req.RequiredInstruments) (emptyStorage db)).cs
          exact ⟨ha, hb, by simp⟩
        · intro hu
          simp only [hu, if_true] at herr ⊢
          cases h2 : (updatePass toFloat env (env.rangeOrder 1 req.RequiredInstruments)
              (reconcilePass toFloat env (lastUpdates db.updates)
                (env.rangeOrder 0 req.RequiredInstruments) (emptyStorage db)).cs).err with
          | some e => simp [h2] at herr
          | none =>
            simp only [h2] at herr ⊢
            obtain ⟨ha, hb, _⟩ := loadPass_footprint fromFloat env req.From req.To
              (env.rangeOrder 2 req.RequiredInstruments)
              (updatePass toFloat env (env.rangeOrder 1 req.RequiredInstruments)
                (reconcilePass toFloat env (lastUpdates db.updates)
                  (env.rangeOrder 0 req.RequiredInstruments) (emptyStorage db)).cs).cs
            exact ⟨trivial, ha, hb⟩

theorem lastUpdates_of_checkpointRows {F : Type} (db : DB F) (id : String) (r : UpdateRow)
    (h : checkpointRows db id = [r]) :
    lastUpdates db.updates id
      = some { StorageInstrument.zero with
               FirstUpdate := Time.ofUnix r.FirstTime, LastUpdate := Time.ofUnix r.LastTime } := by
  rw [lastUpdates_eq]
  simp only [checkpointRows] at h
  simp [h]

theorem nodup_times_of_keysUnique {F : Type} (rows : List (CandleDB F)) (uid : String)
    (hu : KeysUnique rows) :
    ((rows.filter (fun r => decide (r.InstrumentUid = uid))).map (fun r => r.Time)).Nodup := by
  unfold KeysUnique at hu
  rw [List.Nodup, List.pairwise_map, List.pairwise_filter]
  apply hu.imp
  intro a b h ha hb ht
  have ha' : a.InstrumentUid = uid := by simpa using ha
  have hb' : b.InstrumentUid = uid := by simpa using hb
  exact h ⟨by rw [ha', hb'], ht⟩

theorem keysUnique_reconcilePass {F : Type} (toFloat : Quotation → F) (env : Env)
    (DBUpdates : String → Option StorageInstrument) (order : List (String × StorageInstrument))
    (cs : CandlesStorage F) (hu : KeysUnique cs.db.candles) :
    KeysUnique (reconcilePass toFloat env DBUpdates order cs).cs.db.candles :=
  rangeLoop_preserves _ (fun cs' => KeysUnique cs'.db.candles) order cs
    (fun x _ cs' h => (reconcileOne_footprint toFloat env.now env.mds (env.faults x.1)
      DBUpdates x cs').2.2.2 h) hu

theorem wellFormed_order {F : Type} (env : Env) (db : DB F) (req : NewCandlesStorageRequest)
    (hwf : WellFormed env db req) (k : Nat) :
    ((env.rangeOrder k req.RequiredInstruments).map Prod.fst).Nodup ∧
    ∀ entry, entry ∈ env.rangeOrder k req.RequiredInstruments ↔
      entry ∈ req.RequiredInstruments :=
  ⟨((hwf.2.1 k).map Prod.fst).nodup_iff.mpr hwf.1, fun _ => (hwf.2.1 k).mem_iff⟩

theorem lastUpdates_of_no_checkpointRows {F : Type} (db : DB F) (id : String)
    (h : checkpointRows db id = []) : lastUpdates db.updates id = none := by
  rw [lastUpdates_eq]
  simp only [checkpointRows] at h
  simp [h]

/-- The body of the per-instrument pass for an instrument without checkpoint
whose fetch succeeds: the descriptor is entered with `LastUpdate = now` and the
candles are committed. -/
theorem reconcileOne_new_fetched {F : Type} (toFloat : Quotation → F) (now : Time)
    (mds : MarketDataService) (f : Faults) (DBUpdates : String → Option StorageInstrument)
    (id : String) (inst : StorageInstrument) (cs : CandlesStorage F)
    (newCandles : List HistoricCandle) (hnew : DBUpdates id = none)
    (hm : mds { Instrument := id, Interval := inst.CandleInterval, From := inst.FirstUpdate,
                To := now, File := false, FileName := "" } = .ok newCandles) :
    reconcileOne toFloat now mds f DBUpdates (id, inst) cs =
      { err := (storeCandlesInDB toFloat f
            { cs with instruments := setKey cs.instruments id { inst with LastUpdate := now } }
            id now newCandles).1.map StorageError.db,
        cs := (storeCandlesInDB toFloat f
            { cs with instruments := setKey cs.instruments id { inst with LastUpdate := now } }
            id now newCandles).2,
        log := [.fetch { Instrument := id, Interval := inst.CandleInterval,
                         From := inst.FirstUpdate, To := now, File := false, FileName := "" },
                .store id now newCandles] } := by
  simp [reconcileOne, hnew, hm]

/-- The body of the per-instrument pass for an instrument without checkpoint
whose fetch fails: the error is returned and the storage is left as it was. -/
theorem reconcileOne_new_fetch_failed {F : Type} (toFloat : Quotation → F) (now : Time)
    (mds : MarketDataService) (f : Faults) (DBUpdates : String → Option StorageInstrument)
    (id : String) (inst : StorageInstrument) (cs : CandlesStorage F) (msg : String)
    (hnew : DBUpdates id = none)
    (hm : mds { Instrument := id, Interval := inst.CandleInterval, From := inst.FirstUpdate,
                To := now, File := false, FileName := "" } = .error msg) :
    reconcileOne toFloat now mds f DBUpdates (id, inst) cs =
      { err := some (.fetch msg), cs := cs,
        log := [.fetch { Instrument := id, Interval := inst.CandleInterval,
                         From := inst.FirstUpdate, To := now, File := false, FileName := "" }] } := by
  simp [reconcileOne, hnew, hm]

theorem filter_append_other {F : Type} (rows added : List (CandleDB F)) (uid id : String)
    (hadded : ∀ row ∈ added, row.InstrumentUid = uid) (hne : id ≠ uid) :
    (rows ++ added).filter (fun r => decide (r.InstrumentUid = id))
      = rows.filter (fun r => decide (r.InstrumentUid = id)) := by
  rw [List.filter_append]
  have : added.filter (fun r => decide (r.InstrumentUid = id)) = [] := by
    rw [List.filter_eq_nil_iff]
    intro r hr
    have := hadded r hr
    simp [this, Ne.symm hne]
  rw [this, List.append_nil]

/-! ## Descriptors and checkpoints agree in every storage a program can hold -/

theorem instrument_of_some {F : Type} (c : CandlesStorage F) (id : String)
    (inst : StorageInstrument) (h : c.instruments id = some inst) : c.instrument id = inst := by
  simp [CandlesStorage.instrument, h]

theorem filter_id_of_updatesUnique (rows : List UpdateRow) (id : String)
    (hu : UpdatesUnique rows) :
    rows.filter (fun r => decide (r.InstrumentId = id)) = [] ∨
    ∃ r, rows.filter (fun r => decide (r.InstrumentId = id)) = [r] ∧ r.InstrumentId = id := by
  induction rows with
  | nil => exact Or.inl rfl
  | cons r rest ih =>
    unfold UpdatesUnique at hu ih
    have hnd : r.InstrumentId ∉ rest.map (fun r => r.InstrumentId) ∧
        (rest.map (fun r => r.InstrumentId)).Nodup :=
      List.nodup_cons.mp (by rw [← List.map_cons]; exact hu)
    by_cases hr : r.InstrumentId = id
    · right
      refine ⟨r, ?_, hr⟩
      have hnil : rest.filter (fun r => decide (r.InstrumentId = id)) = [] := by
        rw [List.filter_eq_nil_iff]
        intro x hx hxid
        have hxid' : x.InstrumentId = id := by simpa using hxid
        exact hnd.1 (by
          rw [hr, ← hxid']
          exact List.mem_map_of_mem (fun r => r.InstrumentId) hx)
      simp [hr, hnil]
    · rcases ih hnd.2 with h | ⟨r', h, hr'⟩
      · left; simp [hr, h]
      · right; exact ⟨r', by simp [hr, h], hr'⟩

theorem checkpointRows_of_lastUpdates {F : Type} (db : DB F) (id : String)
    (upd : StorageInstrument) (hu : UpdatesUnique db.updates)
    (h : lastUpdates db.updates id = some upd) :
    checkpointRows db id
      = [{ InstrumentId := id, FirstTime := Time.Unix upd.FirstUpdate,
           LastTime := Time.Unix upd.LastUpdate }] := by
  rw [lastUpdates_eq] at h
  unfold checkpointRows
  rcases filter_id_of_updatesUnique db.updates id hu with hnil | ⟨r, hr, hrid⟩
  · simp [hnil] at h
  · rw [hr] at h ⊢
    simp only [List.getLast?_singleton, Option.map_some', Option.some.injEq] at h
    subst h
    simp only [unix_ofUnix]
    cases r
    simp only at hrid
    subst hrid
    rfl

/-- Agreement only looks at the descriptors and at the table `updates`. -/
theorem checkpointsAgree_congr {F : Type} (c c' : CandlesStorage F)
    (hi : c'.instruments = c.instruments) (hd : c'.db.updates = c.db.updates)
    (h : CheckpointsAgree c) : CheckpointsAgree c' := by
  intro id inst hin
  rw [hi] at hin
  have := h id inst hin
  simpa [checkpointRows, hd] using this

/-- A commit that returns no error, made right after the descriptor of the
instrument was set so that its `LastUpdate` is the `update` of the commit,
restores agreement. -/
theorem checkpointsAgree_store {F : Type} (toFloat : Quotation → F) (f : Faults)
    (c : CandlesStorage F) (candles' : String → Option (List HistoricCandle)) (id : String)
    (inst : StorageInstrument) (hc : List HistoricCandle)
    (hagree : CheckpointsAgree c)
    (herr : (storeCandlesInDB toFloat f
      { c with instruments := setKey c.instruments id inst, candles := candles' }
      id inst.LastUpdate hc).1 = none) :
    CheckpointsAgree (storeCandlesInDB toFloat f
      { c with instruments := setKey c.instruments id inst, candles := candles' }
      id inst.LastUpdate hc).2 := by
  intro id0 inst0 hin
  obtain ⟨h1, _, _, _, h5⟩ := storeCandlesInDB_footprint toFloat f
    { c with instruments := setKey c.instruments id inst, candles := candles' }
    id inst.LastUpdate hc
  rw [h1] at hin
  by_cases hid : id0 = id
  · subst hid
    have hcp := storeCandlesInDB_checkpoint toFloat f _ _ _ _ herr
    rw [instrument_of_some _ id0 inst (setKey_same _ _ _)] at hcp
    have : inst0 = inst := by
      have := hin
      simp only [setKey_same] at this
      exact (Option.some.inj this).symm
    rw [this]
    exact hcp
  · rw [h5 id0 hid]
    have hin' : c.instruments id0 = some inst0 := by
      simpa [setKey_other _ _ _ _ hid] using hin
    exact hagree id0 inst0 hin'

theorem checkpointsAgree_UpdateCandlesHistory {F : Type} (toFloat : Quotation → F) (now : Time)
    (mds : MarketDataService) (f : Faults) (c : CandlesStorage F) (id : String)
    (hagree : CheckpointsAgree c)
    (herr : (UpdateCandlesHistory toFloat now mds f c id).err = none) :
    CheckpointsAgree (UpdateCandlesHistory toFloat now mds f c id).cs := by
  unfold UpdateCandlesHistory at herr ⊢
  cases hin : c.instruments id with
  | none => simp [hin] at herr
  | some inst =>
    simp only [hin] at herr ⊢
    cases hm : mds ⟨id, inst.CandleInterval, inst.LastUpdate, now, false, ""⟩ with
    | error e => simp [hm] at herr
    | ok newCandles =>
      simp only [hm, Option.map_eq_none'] at herr ⊢
      exact checkpointsAgree_store toFloat f c _ id { inst with LastUpdate := now } newCandles
        hagree herr

theorem checkpointsAgree_LoadCandlesHistory {F : Type} (toFloat : Quotation → F) (now : Time)
    (mds : MarketDataService) (f : Faults) (c : CandlesStorage F) (id : String)
    (interval : Int) (inc : Option Quotation) (from_ : Time)
    (hagree : CheckpointsAgree c)
    (herr : (LoadCandlesHistory toFloat now mds f c id interval inc from_).err = none) :
    CheckpointsAgree (LoadCandlesHistory toFloat now mds f c id interval inc from_).cs := by
  unfold LoadCandlesHistory at herr ⊢
  cases hm : mds ⟨id, interval, from_, now, false, ""⟩ with
  | error e => simp [hm] at herr
  | ok newCandles =>
    simp only [hm, Option.map_eq_none'] at herr ⊢
    exact checkpointsAgree_store toFloat f c _ id
      { StorageInstrument.zero with CandleInterval := interval, PriceStep := inc,
                                    LastUpdate := now } newCandles hagree herr

/-- One run of the body of the per-instrument pass keeps agreement, when the
checkpoint rows of its instrument are still those the map `DBUpdates` was read
from. -/
theorem checkpointsAgree_reconcileOne {F : Type} (toFloat : Quotation → F) (now : Time)
    (mds : MarketDataService) (f : Faults) (db : DB F)
    (entry : String × StorageInstrument) (cs : CandlesStorage F)
    (hu : UpdatesUnique db.updates)
    (hsame : checkpointRows cs.db entry.1 = checkpointRows db entry.1)
    (hagree : CheckpointsAgree cs)
    (herr : (reconcileOne toFloat now mds f (lastUpdates db.updates) entry cs).err = none) :
    CheckpointsAgree (reconcileOne toFloat now mds f (lastUpdates db.updates) entry cs).cs := by
  intro id0 inst0 hin
  by_cases hid : id0 = entry.1
  · subst hid
    cases hl : lastUpdates db.updates entry.1 with
    | none =>
      obtain ⟨h1, h2⟩ := (reconcileOne_new toFloat now mds f _ entry cs hl).2 herr
      rw [h1] at hin
      cases hin
      exact h2
    | some upd =>
      by_cases ha : upd.FirstUpdate < entry.2.FirstUpdate
      · obtain ⟨_, _, hdb, h1⟩ := reconcileOne_adopt toFloat now mds f _ entry cs upd hl ha
        rw [h1] at hin
        cases hin
        simp only [checkpointRows] at hsame ⊢
        rw [hdb, hsame]
        exact checkpointRows_of_lastUpdates db entry.1 upd hu hl
      · obtain ⟨h1, h2⟩ := (reconcileOne_gap toFloat now mds f _ entry cs upd hl
          (not_lt.mp ha)).2 herr
        rw [h1] at hin
        cases hin
        exact h2
  · obtain ⟨h1, h2, _, _⟩ := (reconcileOne_footprint toFloat now mds f
      (lastUpdates db.updates) entry cs).1 id0 hid
    rw [h1] at hin
    rw [h2]
    exact hagree id0 inst0 hin

theorem checkpointsAgree_reconcilePass {F : Type} (toFloat : Quotation → F) (env : Env)
    (db : DB F) (order : List (String × StorageInstrument)) (cs : CandlesStorage F)
    (hu : UpdatesUnique db.updates) (hnd : (order.map Prod.fst).Nodup)
    (hsame : ∀ x ∈ order, checkpointRows cs.db x.1 = checkpointRows db x.1)
    (hagree : CheckpointsAgree cs)
    (herr : (reconcilePass toFloat env (lastUpdates db.updates) order cs).err = none) :
    CheckpointsAgree (reconcilePass toFloat env (lastUpdates db.updates) order cs).cs := by
  have h := rangeLoop_invariant
    (fun (entry : String × StorageInstrument) cs' =>
      reconcileOne toFloat env.now env.mds (env.faults entry.1)
        (lastUpdates db.updates) entry cs')
    (fun rest cs' => (rest.map Prod.fst).Nodup ∧ CheckpointsAgree cs' ∧
      ∀ x ∈ rest, checkpointRows cs'.db x.1 = checkpointRows db x.1)
    (by
      intro x rest cs' hj he
      obtain ⟨hn, ha, hs⟩ := hj
      have hnd' : x.1 ∉ rest.map Prod.fst ∧ (rest.map Prod.fst).Nodup :=
        List.nodup_cons.mp (by rw [← List.map_cons]; exact hn)
      refine ⟨hnd'.2, ?_, ?_⟩
      · exact checkpointsAgree_reconcileOne toFloat env.now env.mds (env.faults x.1) db x cs'
          hu (hs x (by simp)) ha he
      · intro y hy
        have hne : y.1 ≠ x.1 := fun h => hnd'.1 (h ▸ List.mem_map_of_mem Prod.fst hy)
        rw [((reconcileOne_footprint toFloat env.now env.mds (env.faults x.1)
          (lastUpdates db.updates) x cs').1 y.1 hne).2.1]
        exact hs y (by simp [hy]))
    order cs ⟨hnd, hagree, hsame⟩ herr
  exact h.2.1

theorem checkpointsAgree_updatePass {F : Type} (toFloat : Quotation → F) (env : Env)
    (order : List (String × StorageInstrument)) (cs : CandlesStorage F)
    (hagree : CheckpointsAgree cs)
    (herr : (updatePass toFloat env order cs).err = none) :
    CheckpointsAgree (updatePass toFloat env order cs).cs :=
  rangeLoop_invariant
    (fun (entry : String × StorageInstrument) cs' =>
      UpdateCandlesHistory toFloat (env.updateNow entry.1) env.updateMds
        (env.updateFaults entry.1) cs' entry.1)
    (fun _ cs' => CheckpointsAgree cs')
    (fun x _ cs' hj he =>
      checkpointsAgree_UpdateCandlesHistory toFloat _ _ _ cs' x.1 hj he)
    order cs hagree herr

theorem checkpointsAgree_NewCandlesStorage {F : Type} [DecidableEq F] [Zero F]
    (toFloat : Quotation → F) (fromFloat : F → Option Quotation → Quotation) (env : Env)
    (db : DB F) (req : NewCandlesStorageRequest) (hwf : WellFormed env db req)
    (herr : (NewCandlesStorage toFloat fromFloat env db req).err = none) :
    CheckpointsAgree (NewCandlesStorage toFloat fromFloat env db req).cs := by
  obtain ⟨h1, h2, h3⟩ := NewCandlesStorage_success toFloat fromFloat env db req herr
  have hpass := checkpointsAgree_reconcilePass toFloat env db
    (env.rangeOrder 0 req.RequiredInstruments) (emptyStorage db) hwf.2.2.1
    (wellFormed_order env db req hwf 0).1 (fun _ _ => rfl)
    (by intro id inst hin; simp [emptyStorage] at hin) h1
  cases hu : req.Update with
  | false =>
    obtain ⟨hdb, hins, _⟩ := h2 hu
    exact checkpointsAgree_congr _ _ hins (by rw [hdb]) hpass
  | true =>
    obtain ⟨he2, hdb, hins⟩ := h3 hu
    exact checkpointsAgree_congr _ _ hins (by rw [hdb])
      (checkpointsAgree_updatePass toFloat env _ _ hpass he2)

/-- In every storage a program can hold, descriptors and checkpoints agree. -/
theorem checkpointsAgree_of_reachable {F : Type} [DecidableEq F] [Zero F]
    (toFloat : Quotation → F) (fromFloat : F → Option Quotation → Quotation)
    (c : CandlesStorage F) (h : Reachable toFloat fromFloat c) : CheckpointsAgree c := by
  induction h with
  | new env db req hwf herr =>
    exact checkpointsAgree_NewCandlesStorage toFloat fromFloat env db req hwf herr
  | load c now mds f id interval inc from_ _ herr ih =>
    exact checkpointsAgree_LoadCandlesHistory toFloat now mds f c id interval inc from_ ih herr
  | update c now mds f id _ herr ih =>
    exact checkpointsAgree_UpdateCandlesHistory toFloat now mds f c id ih herr

theorem unix_mono (t u : Time) (h : t ≤ u) : Time.Unix t ≤ Time.Unix u := by
  unfold Time.Unix
  exact Int.ediv_le_ediv (by decide) h

/-- What `UpdateCandlesHistory` has done to the two maps once the fetch has
succeeded, whatever the commit returns. -/
theorem UpdateCandlesHistory_fetched {F : Type} (toFloat : Quotation → F) (now : Time)
    (mds : MarketDataService) (f : Faults) (c : CandlesStorage F) (id : String)
    (inst : StorageInstrument) (newCandles : List HistoricCandle)
    (hin : c.instruments id = some inst)
    (hm : mds { Instrument := id, Interval := inst.CandleInterval, From := inst.LastUpdate,
                To := now, File := false, FileName := "" } = .ok newCandles) :
    (UpdateCandlesHistory toFloat now mds f c id).cs.instruments id
      = some { inst with LastUpdate := now } ∧
    (UpdateCandlesHistory toFloat now mds f c id).cs.candles id
      = some ((c.candles id).getD [] ++ newCandles) := by
  constructor
  · simp only [UpdateCandlesHistory, hin, hm]
    rw [(storeCandlesInDB_footprint toFloat f _ _ _ _).1]
    exact setKey_same _ _ _
  · simp only [UpdateCandlesHistory, hin, hm]
    rw [(storeCandlesInDB_footprint toFloat f _ _ _ _).2.1]
    exact setKey_same _ _ _

/-- The per-instrument pass for an instrument whose desired start is strictly
after the first time of its checkpoint: when the pass returns no error, no
request was sent and no commit was made for it, and its descriptor has both times
of the checkpoint. -/
theorem reconcilePass_covered {F : Type} (toFloat : Quotation → F) (env : Env)
    (DBUpdates : String → Option StorageInstrument) (order : List (String × StorageInstrument))
    (cs : CandlesStorage F) (id : String) (inst upd : StorageInstrument)
    (hnd : (order.map Prod.fst).Nodup) (hmem : (id, inst) ∈ order)
    (hupd : DBUpdates id = some upd) (hafter : upd.FirstUpdate < inst.FirstUpdate)
    (herr : (reconcilePass toFloat env DBUpdates order cs).err = none) :
    fetchesFor id (reconcilePass toFloat env DBUpdates order cs).log = [] ∧
    storesFor id (reconcilePass toFloat env DBUpdates order cs).log = [] ∧
    (reconcilePass toFloat env DBUpdates order cs).cs.instruments id
      = some { inst with FirstUpdate := upd.FirstUpdate, LastUpdate := upd.LastUpdate } := by
  have hadopt := fun cs' => reconcileOne_adopt toFloat env.now env.mds (env.faults id)
    DBUpdates (id, inst) cs' upd hupd hafter
  refine ⟨?_, ?_, ?_⟩
  · exact fetchesFor_reconcilePass toFloat env DBUpdates order cs (id, inst) []
      (fun cs' => by rw [(hadopt cs').1]; rfl) hnd hmem herr
  · exact rangeLoop_log_own _ Prod.fst storesFor storesFor_append (fun _ => rfl)
      (fun x cs' id' hne => ((reconcileOne_footprint toFloat env.now env.mds (env.faults x.1)
        DBUpdates x cs').1 id' hne).2.2.2)
      (id, inst) [] (fun cs' => by rw [(hadopt cs').1]; rfl) order cs hnd hmem herr
  · exact rangeLoop_post
      (fun (entry : String × StorageInstrument) cs' =>
        reconcileOne toFloat env.now env.mds (env.faults entry.1) DBUpdates entry cs')
      Prod.fst (id, inst)
      (fun cs' => cs'.instruments id
        = some { inst with FirstUpdate := upd.FirstUpdate, LastUpdate := upd.LastUpdate })
      (fun cs' _ => (hadopt cs').2.2.2)
      (fun y cs' hne hq =>
        (((reconcileOne_footprint toFloat env.now env.mds (env.faults y.1)
          DBUpdates y cs').1 id (Ne.symm hne)).1).trans hq)
      order cs hnd hmem herr

/-! ## `NewCandlesStorage`: claims -/

/-- C12: in the per-instrument pass of `NewCandlesStorage`, for a required
instrument without checkpoint row, desired start `inst.FirstUpdate` and clock
reading `env.now`: exactly one request is sent for it, from the desired start to
`now`; when the pass returns no error, the checkpoint of the instrument is the
one row (desired start, `now`) in Unix seconds, and the descriptor holds the
desired start as `FirstUpdate` and `now` as `LastUpdate`. -/
theorem C12_reconcilePass_new_instrument {F : Type} (toFloat : Quotation → F) (env : Env)
    (order : List (String × StorageInstrument)) (cs : CandlesStorage F)
    (id : String) (inst : StorageInstrument)
    (hnd : (order.map Prod.fst).Nodup) (hmem : (id, inst) ∈ order)
    (hnew : checkpointRows cs.db id = [])
    (herr : (reconcilePass toFloat env (lastUpdates cs.db.updates) order cs).err = none) :
    fetchesFor id (reconcilePass toFloat env (lastUpdates cs.db.updates) order cs).log
      = [{ Instrument := id, Interval := inst.CandleInterval, From := inst.FirstUpdate,
           To := env.now, File := false, FileName := "" }] ∧
    checkpointRows (reconcilePass toFloat env (lastUpdates cs.db.updates) order cs).cs.db id
      = [{ InstrumentId := id, FirstTime := Time.Unix inst.FirstUpdate,
           LastTime := Time.Unix env.now }] ∧
    (reconcilePass toFloat env (lastUpdates cs.db.updates) order cs).cs.instruments id
      = some { inst with LastUpdate := env.now } := by
  have hnone : lastUpdates cs.db.updates id = none := by
    rw [lastUpdates_eq]
    simp only [checkpointRows] at hnew
    simp [hnew]
  constructor
  · exact fetchesFor_reconcilePass toFloat env _ order cs (id, inst) _
      (fun cs' => (reconcileOne_new toFloat env.now env.mds (env.faults id) _ (id, inst) cs'
        hnone).1) hnd hmem herr
  · have h := rangeLoop_post
      (fun (entry : String × StorageInstrument) cs' =>
        reconcileOne toFloat env.now env.mds (env.faults entry.1)
          (lastUpdates cs.db.updates) entry cs') Prod.fst (id, inst)
      (fun cs' => checkpointRows cs'.db id
          = [{ InstrumentId := id, FirstTime := Time.Unix inst.FirstUpdate,
               LastTime := Time.Unix env.now }] ∧
        cs'.instruments id = some { inst with LastUpdate := env.now })
      (fun cs' he =>
        ((reconcileOne_new toFloat env.now env.mds (env.faults id) _ (id, inst) cs' hnone).2
          he).symm)
      (fun y cs' hne hq => by
        have hf := (reconcileOne_footprint toFloat env.now env.mds (env.faults y.1)
          (lastUpdates cs.db.updates) y cs').1 id (Ne.symm hne)
        exact ⟨hf.2.1.trans hq.1, hf.1.trans hq.2⟩)
      order cs hnd hmem herr
    exact h

/-- C12 on an empty database, for the one required instrument `"X"` with
desired start 50 s, at `now` = 100 s. -/
theorem C12_reconcilePass_new_instrument_witness :
    fetchesFor "X" (reconcilePass unitsOnly quietEnv (lastUpdates (storageOf []).db.updates)
        [("X", instrumentFrom (sec 50))] (storageOf [])).log
      = [{ Instrument := "X", Interval := 1, From := sec 50, To := sec 100,
           File := false, FileName := "" }] ∧
    checkpointRows (reconcilePass unitsOnly quietEnv (lastUpdates (storageOf []).db.updates)
        [("X", instrumentFrom (sec 50))] (storageOf [])).cs.db "X"
      = [{ InstrumentId := "X", FirstTime := 50, LastTime := 100 }] ∧
    (reconcilePass unitsOnly quietEnv (lastUpdates (storageOf []).db.updates)
        [("X", instrumentFrom (sec 50))] (storageOf [])).cs.instruments "X"
      = some { instrumentFrom (sec 50) with LastUpdate := sec 100 } :=
  C12_reconcilePass_new_instrument unitsOnly quietEnv [("X", instrumentFrom (sec 50))]
    (storageOf []) "X" (instrumentFrom (sec 50)) (by decide) (by decide) (by decide) (by decide)

/-- C14: in a run of `NewCandlesStorage` without update that returns no error,
for a required instrument whose checkpoint row is (`t1`, `l`) and whose desired
start is before `t1`: exactly one request is sent for it, from the desired start
to `t1`; the checkpoint row becomes (desired start, `l`), so the last time does
not move; the descriptor holds the same two times; and the candle table keeps
`(instrument_uid, time)` unique, so the rows of the instrument have pairwise
different timestamps. -/
theorem C14_NewCandlesStorage_gap_fill {F : Type} [DecidableEq F] [Zero F]
    (toFloat : Quotation → F) (fromFloat : F → Option Quotation → Quotation) (env : Env)
    (db : DB F) (req : NewCandlesStorageRequest) (id : String) (inst : StorageInstrument)
    (t1 l : Int)
    (hwf : WellFormed env db req) (hmem : (id, inst) ∈ req.RequiredInstruments)
    (hupd : req.Update = false)
    (hcp : checkpointRows db id = [{ InstrumentId := id, FirstTime := t1, LastTime := l }])
    (hlt : inst.FirstUpdate < Time.ofUnix t1)
    (herr : (NewCandlesStorage toFloat fromFloat env db req).err = none) :
    fetchesFor id (NewCandlesStorage toFloat fromFloat env db req).log
      = [{ Instrument := id, Interval := inst.CandleInterval, From := inst.FirstUpdate,
           To := Time.ofUnix t1, File := false, FileName := "" }] ∧
    checkpointRows (NewCandlesStorage toFloat fromFloat env db req).cs.db id
      = [{ InstrumentId := id, FirstTime := Time.Unix inst.FirstUpdate, LastTime := l }] ∧
    (NewCandlesStorage toFloat fromFloat env db req).cs.instruments id
      = some { inst with LastUpdate := Time.ofUnix l } ∧
    KeysUnique (NewCandlesStorage toFloat fromFloat env db req).cs.db.candles ∧
    ((candleRows (NewCandlesStorage toFloat fromFloat env db req).cs.db id).map
      (fun r => r.Time)).Nodup := by
  obtain ⟨h1, h2, _⟩ := NewCandlesStorage_success toFloat fromFloat env db req herr
  obtain ⟨hdb, hins, hlog⟩ := h2 hupd
  obtain ⟨hnd, hmem'⟩ := wellFormed_order env db req hwf 0
  have hlu := lastUpdates_of_checkpointRows db id _ hcp
  have hku : KeysUnique (NewCandlesStorage toFloat fromFloat env db req).cs.db.candles := by
    rw [hdb]
    exact keysUnique_reconcilePass toFloat env _ _ (emptyStorage db) hwf.2.2.2
  have hgap := fun cs' => reconcileOne_gap toFloat env.now env.mds (env.faults id)
    (lastUpdates db.updates) (id, inst) cs' _ hlu (le_of_lt hlt)
  have hpost := rangeLoop_post
    (fun (entry : String × StorageInstrument) cs' =>
      reconcileOne toFloat env.now env.mds (env.faults entry.1)
        (lastUpdates db.updates) entry cs') Prod.fst (id, inst)
    (fun cs' => checkpointRows cs'.db id
        = [{ InstrumentId := id, FirstTime := Time.Unix inst.FirstUpdate,
             LastTime := Time.Unix (Time.ofUnix l) }] ∧
      cs'.instruments id = some { inst with LastUpdate := Time.ofUnix l })
    (fun cs' he => ((hgap cs').2 he).symm)
    (fun y cs' hne hq => by
      have hf := (reconcileOne_footprint toFloat env.now env.mds (env.faults y.1)
        (lastUpdates db.updates) y cs').1 id (Ne.symm hne)
      exact ⟨hf.2.1.trans hq.1, hf.1.trans hq.2⟩)
    (env.rangeOrder 0 req.RequiredInstruments) (emptyStorage db) hnd ((hmem' _).mpr hmem) h1
  refine ⟨?_, ?_, ?_, hku, nodup_times_of_keysUnique _ id hku⟩
  · rw [hlog]
    exact fetchesFor_reconcilePass toFloat env _ _ (emptyStorage db) (id, inst) _
      (fun cs' => (hgap cs').1) hnd ((hmem' _).mpr hmem) h1
  · rw [hdb]
    have := hpost.1
    rw [unix_ofUnix] at this
    exact this
  · rw [hins]
    exact hpost.2

/-- C14 on the database `syncedDB`, whose checkpoint for `"X"` is (100 s, 200 s),
with the desired start 50 s. -/
theorem C14_NewCandlesStorage_gap_fill_witness :
    fetchesFor "X" (NewCandlesStorage unitsOnly unitsBack quietEnv syncedDB
        { Update := false, RequiredInstruments := [("X", instrumentFrom (sec 50))],
          From := sec 0, To := sec 300 }).log
      = [{ Instrument := "X", Interval := 1, From := sec 50, To := Time.ofUnix 100,
           File := false, FileName := "" }] ∧
    checkpointRows (NewCandlesStorage unitsOnly unitsBack quietEnv syncedDB
        { Update := false, RequiredInstruments := [("X", instrumentFrom (sec 50))],
          From := sec 0, To := sec 300 }).cs.db "X"
      = [{ InstrumentId := "X", FirstTime := 50, LastTime := 200 }] :=
  have h := C14_NewCandlesStorage_gap_fill unitsOnly unitsBack quietEnv syncedDB
    { Update := false, RequiredInstruments := [("X", instrumentFrom (sec 50))],
      From := sec 0, To := sec 300 } "X" (instrumentFrom (sec 50)) 100 200
    ⟨by decide, fun _ => List.Perm.refl _, by unfold UpdatesUnique; decide,
      by unfold KeysUnique; decide⟩
    (by decide) rfl (by decide) (by decide) (by decide)
  ⟨h.1, h.2.1⟩

/-- C13 (evaluation at the input where the code leaves the claim): on the
database `syncedDB`, whose checkpoint for `"X"` is (100 s, 200 s), a run of
`NewCandlesStorage` for the required instrument `"X"` with desired start exactly
100 s sends a request for `"X"`, from 100 s to 100 s, and commits its answer:
the desired start is not strictly after the first time of the checkpoint, so
the instrument is treated as one that lacks older candles. -/
theorem C13_NewCandlesStorage_equal_start_fetches :
    checkpointRows syncedDB "X" = [{ InstrumentId := "X", FirstTime := 100, LastTime := 200 }] ∧
    (instrumentFrom (Time.ofUnix 100)).FirstUpdate = Time.ofUnix 100 ∧
    (NewCandlesStorage unitsOnly unitsBack quietEnv syncedDB
        { Update := false, RequiredInstruments := [("X", instrumentFrom (Time.ofUnix 100))],
          From := sec 0, To := sec 300 }).err = none ∧
    (NewCandlesStorage unitsOnly unitsBack quietEnv syncedDB
        { Update := false, RequiredInstruments := [("X", instrumentFrom (Time.ofUnix 100))],
          From := sec 0, To := sec 300 }).log
      = [.fetch { Instrument := "X", Interval := 1, From := Time.ofUnix 100,
                  To := Time.ofUnix 100, File := false, FileName := "" },
         .store "X" (Time.ofUnix 200) [candleAt (sec 60)]] := by
  decide

/-- C15: when the per-instrument pass of `NewCandlesStorage` takes the required
instruments in the order A, B, C, none of them has a checkpoint, the fetch for A
succeeds, A's commit meets no failure of its own, and the fetch for B fails:
`NewCandlesStorage` returns the error of B's fetch; the calls made are A's
fetch, A's commit and B's fetch, so no request is sent for C; the key of every
candle fetched for A is stored and A's checkpoint row is written; B and C, which
had no candle row and no checkpoint row, still have none. -/
theorem C15_NewCandlesStorage_fail_fast {F : Type} [DecidableEq F] [Zero F]
    (toFloat : Quotation → F) (fromFloat : F → Option Quotation → Quotation) (env : Env)
    (db : DB F) (req : NewCandlesStorageRequest) (a b c : String)
    (ia ib ic : StorageInstrument) (candlesA : List HistoricCandle) (msg : String)
    (hord : env.rangeOrder 0 req.RequiredInstruments = [(a, ia), (b, ib), (c, ic)])
    (hab : a ≠ b) (hac : a ≠ c)
    (hinit : env.initErr = none) (hlast : env.lastUpdatesErr = none)
    (hna : checkpointRows db a = []) (hnb : checkpointRows db b = [])
    (hnc : checkpointRows db c = [])
    (hcb : candleRows db b = []) (hcc : candleRows db c = [])
    (hfa : env.mds { Instrument := a, Interval := ia.CandleInterval, From := ia.FirstUpdate,
                     To := env.now, File := false, FileName := "" } = .ok candlesA)
    (hca : (env.faults a).OnlyUniqueness)
    (hfb : env.mds { Instrument := b, Interval := ib.CandleInterval, From := ib.FirstUpdate,
                     To := env.now, File := false, FileName := "" } = .error msg) :
    (NewCandlesStorage toFloat fromFloat env db req).err = some (.fetch msg) ∧
    (NewCandlesStorage toFloat fromFloat env db req).log
      = [.fetch { Instrument := a, Interval := ia.CandleInterval, From := ia.FirstUpdate,
                  To := env.now, File := false, FileName := "" },
         .store a env.now candlesA,
         .fetch { Instrument := b, Interval := ib.CandleInterval, From := ib.FirstUpdate,
                  To := env.now, File := false, FileName := "" }] ∧
    (∀ candle ∈ candlesA,
      hasKey (NewCandlesStorage toFloat fromFloat env db req).cs.db.candles a
        (Time.Unix candle.Time) = true) ∧
    checkpointRows (NewCandlesStorage toFloat fromFloat env db req).cs.db a
      = [{ InstrumentId := a, FirstTime := Time.Unix ia.FirstUpdate,
           LastTime := Time.Unix env.now }] ∧
    candleRows (NewCandlesStorage toFloat fromFloat env db req).cs.db b = [] ∧
    candleRows (NewCandlesStorage toFloat fromFloat env db req).cs.db c = [] ∧
    checkpointRows (NewCandlesStorage toFloat fromFloat env db req).cs.db b = [] ∧
    checkpointRows (NewCandlesStorage toFloat fromFloat env db req).cs.db c = [] := by
  have hla := lastUpdates_of_no_checkpointRows db a hna
  have hlb := lastUpdates_of_no_checkpointRows db b hnb
  have hA := reconcileOne_new_fetched toFloat env.now env.mds (env.faults a)
    (lastUpdates db.updates) a ia (emptyStorage db) candlesA hla hfa
  obtain ⟨hserr, _, hkeys⟩ := storeCandlesInDB_healthy toFloat (env.faults a)
    { emptyStorage db with
      instruments := setKey (emptyStorage db).instruments a { ia with LastUpdate := env.now } }
    a env.now candlesA hca
  obtain ⟨_, _, ⟨added, hadd1, hadd2⟩, _, hcp⟩ := storeCandlesInDB_footprint toFloat (env.faults a)
    { emptyStorage db with
      instruments := setKey (emptyStorage db).instruments a { ia with LastUpdate := env.now } }
    a env.now candlesA
  have hcpa := storeCandlesInDB_checkpoint toFloat (env.faults a)
    { emptyStorage db with
      instruments := setKey (emptyStorage db).instruments a { ia with LastUpdate := env.now } }
    a env.now candlesA hserr
  rw [instrument_setKey] at hcpa
  have hB := reconcileOne_new_fetch_failed toFloat env.now env.mds (env.faults b)
    (lastUpdates db.updates) b ib
    (storeCandlesInDB toFloat (env.faults a)
      { emptyStorage db with
        instruments := setKey (emptyStorage db).instruments a { ia with LastUpdate := env.now } }
      a env.now candlesA).2 msg hlb hfb
  have hres : NewCandlesStorage toFloat fromFloat env db req =
      { err := some (.fetch msg),
        cs := (storeCandlesInDB toFloat (env.faults a)
          { emptyStorage db with
            instruments := setKey (emptyStorage db).instruments a { ia with LastUpdate := env.now } }
          a env.now candlesA).2,
        log := [.fetch { Instrument := a, Interval := ia.CandleInterval, From := ia.FirstUpdate,
                         To := env.now, File := false, FileName := "" },
                .store a env.now candlesA,
                .fetch { Instrument := b, Interval := ib.CandleInterval, From := ib.FirstUpdate,
                         To := env.now, File := false, FileName := "" }] } := by
    simp [NewCandlesStorage, hinit, hlast, reconcilePass, hord, rangeLoop, hA, hB, hserr]
  rw [hres]
  refine ⟨rfl, rfl, ?_, hcpa, ?_, ?_, ?_, ?_⟩
  · intro candle hcand
    exact hkeys candle hcand
  · simp only [candleRows]
    rw [hadd1]
    exact (filter_append_other _ added a b hadd2 (Ne.symm hab)).trans hcb
  · simp only [candleRows]
    rw [hadd1]
    exact (filter_append_other _ added a c hadd2 (Ne.symm hac)).trans hcc
  · exact (hcp b (Ne.symm hab)).trans hnb
  · exact (hcp c (Ne.symm hac)).trans hnc

/-- C15 on an empty database, for the instruments `"A"`, `"B"`, `"C"` when the
market data service fails for `"B"`. -/
theorem C15_NewCandlesStorage_fail_fast_witness :
    (NewCandlesStorage unitsOnly unitsBack failingForB emptyDB requestABC).err
      = some (.fetch "unavailable") ∧
    (NewCandlesStorage unitsOnly unitsBack failingForB emptyDB requestABC).log
      = [.fetch { Instrument := "A", Interval := 1, From := sec 50, To := sec 100,
                  File := false, FileName := "" },
         .store "A" (sec 100) [candleAt (sec 60)],
         .fetch { Instrument := "B", Interval := 1, From := sec 50, To := sec 100,
                  File := false, FileName := "" }] ∧
    checkpointRows (NewCandlesStorage unitsOnly unitsBack failingForB emptyDB requestABC).cs.db "A"
      = [{ InstrumentId := "A", FirstTime := 50, LastTime := 100 }] ∧
    candleRows (NewCandlesStorage unitsOnly unitsBack failingForB emptyDB requestABC).cs.db "B"
      = [] :=
  have h := C15_NewCandlesStorage_fail_fast unitsOnly unitsBack failingForB emptyDB requestABC
    "A" "B" "C" (instrumentFrom (sec 50)) (instrumentFrom (sec 50)) (instrumentFrom (sec 50))
    [candleAt (sec 60)] "unavailable" rfl (by decide) (by decide) rfl rfl rfl rfl rfl rfl rfl
    rfl ⟨rfl, rfl, fun _ => rfl, rfl, rfl⟩ rfl
  ⟨h.1, h.2.1, h.2.2.2.1, h.2.2.2.2.1⟩

/-! ## `UpdateCandlesHistory` and `LoadCandlesHistory`: claims -/

/-- C17: for a known instrument whose descriptor has `LastUpdate = L`,
`UpdateCandlesHistory` at the clock reading `now` sends exactly one request, for
this instrument, with its interval, from `L` to `now`; when it returns no error
the working set of the instrument is its previous working set followed by the
fetched candles, in the order fetched, and the working sets and descriptors of
all other instruments are what they were. -/
theorem C17_UpdateCandlesHistory_appends {F : Type} (toFloat : Quotation → F) (now : Time)
    (mds : MarketDataService) (f : Faults) (c : CandlesStorage F) (id : String)
    (inst : StorageInstrument) (hin : c.instruments id = some inst) :
    fetchesFor id (UpdateCandlesHistory toFloat now mds f c id).log
      = [{ Instrument := id, Interval := inst.CandleInterval, From := inst.LastUpdate,
           To := now, File := false, FileName := "" }] ∧
    (∀ id', id' ≠ id → fetchesFor id' (UpdateCandlesHistory toFloat now mds f c id).log = []) ∧
    ((UpdateCandlesHistory toFloat now mds f c id).err = none →
      ∃ newCandles,
        mds { Instrument := id, Interval := inst.CandleInterval, From := inst.LastUpdate,
              To := now, File := false, FileName := "" } = .ok newCandles ∧
        (UpdateCandlesHistory toFloat now mds f c id).cs.candles id
          = some ((c.candles id).getD [] ++ newCandles) ∧
        ∀ id', id' ≠ id →
          (UpdateCandlesHistory toFloat now mds f c id).cs.candles id' = c.candles id' ∧
          (UpdateCandlesHistory toFloat now mds f c id).cs.instruments id'
            = c.instruments id') := by
  cases hm : mds ⟨id, inst.CandleInterval, inst.LastUpdate, now, false, ""⟩ with
  | error e =>
    refine ⟨by simp [UpdateCandlesHistory, hin, hm, fetchesFor], ?_, ?_⟩
    · intro id' hne
      simp [UpdateCandlesHistory, hin, hm, fetchesFor, Ne.symm hne]
    · simp [UpdateCandlesHistory, hin, hm]
  | ok newCandles =>
    refine ⟨by simp [UpdateCandlesHistory, hin, hm, fetchesFor], ?_, ?_⟩
    · intro id' hne
      simp [UpdateCandlesHistory, hin, hm, fetchesFor, Ne.symm hne]
    · intro _
      refine ⟨newCandles, rfl, ?_, ?_⟩
      · simp only [UpdateCandlesHistory, hin, hm, storeCandlesInDB]
        split <;> (try split) <;> simp [setKey]
      · intro id' hne
        simp only [UpdateCandlesHistory, hin, hm, storeCandlesInDB]
        split <;> (try split) <;> simp [setKey, hne]

/-- C17 on the storage `knownX`, refreshed at 100 s with one fetched candle. -/
theorem C17_UpdateCandlesHistory_appends_witness :
    fetchesFor "X" (UpdateCandlesHistory unitsOnly (sec 100) (answering [candleAt (sec 60)])
        Faults.healthy knownX "X").log
      = [{ Instrument := "X", Interval := 1, From := sec 50, To := sec 100,
           File := false, FileName := "" }] :=
  (C17_UpdateCandlesHistory_appends unitsOnly (sec 100) (answering [candleAt (sec 60)])
    Faults.healthy knownX "X"
    { CandleInterval := 1, PriceStep := none, FirstUpdate := sec 0, LastUpdate := sec 50,
      Ticker := "TCKR" } rfl).1

/-- C18: `UpdateCandlesHistory` for an instrument without descriptor returns the
not-found error, sends no request, makes no commit, and leaves descriptors,
working sets and database as they were. -/
theorem C18_UpdateCandlesHistory_unknown {F : Type} (toFloat : Quotation → F) (now : Time)
    (mds : MarketDataService) (f : Faults) (c : CandlesStorage F) (id : String)
    (hin : c.instruments id = none) :
    (UpdateCandlesHistory toFloat now mds f c id).err = some (.notInStorage (c.ticker id)) ∧
    (UpdateCandlesHistory toFloat now mds f c id).log = [] ∧
    (UpdateCandlesHistory toFloat now mds f c id).cs = c := by
  simp [UpdateCandlesHistory, hin]

/-- C18 on the storage `knownX`, for the instrument `"Y"`. -/
theorem C18_UpdateCandlesHistory_unknown_witness :
    (UpdateCandlesHistory unitsOnly (sec 100) (answering []) Faults.healthy knownX "Y").err
      = some (.notInStorage "not found") ∧
    (UpdateCandlesHistory unitsOnly (sec 100) (answering []) Faults.healthy knownX "Y").log = [] ∧
    (UpdateCandlesHistory unitsOnly (sec 100) (answering []) Faults.healthy knownX "Y").cs
      = knownX :=
  C18_UpdateCandlesHistory_unknown unitsOnly (sec 100) (answering []) Faults.healthy knownX "Y" rfl

/-- C19 as stated fails: on the storage `knownX`, when the fetch succeeds and
the commit fails (the transaction cannot be opened), `UpdateCandlesHistory`
returns the error, yet the descriptor already has `LastUpdate = now` and the
working set already holds the fetched candle; the database is as it was. -/
theorem C19_counterexample :
    (UpdateCandlesHistory unitsOnly (sec 100) (answering [candleAt (sec 60)]) beginFails
        knownX "X").err = some (.db (.other "sql: database is closed")) ∧
    (UpdateCandlesHistory unitsOnly (sec 100) (answering [candleAt (sec 60)]) beginFails
        knownX "X").cs.instruments "X"
      = some { CandleInterval := 1, PriceStep := none, FirstUpdate := sec 0,
               LastUpdate := sec 100, Ticker := "TCKR" } ∧
    (UpdateCandlesHistory unitsOnly (sec 100) (answering [candleAt (sec 60)]) beginFails
        knownX "X").cs.instruments "X" ≠ knownX.instruments "X" ∧
    (UpdateCandlesHistory unitsOnly (sec 100) (answering [candleAt (sec 60)]) beginFails
        knownX "X").cs.candles "X" = some [candleAt (sec 10), candleAt (sec 60)] ∧
    (UpdateCandlesHistory unitsOnly (sec 100) (answering [candleAt (sec 60)]) beginFails
        knownX "X").cs.candles "X" ≠ knownX.candles "X" ∧
    (UpdateCandlesHistory unitsOnly (sec 100) (answering [candleAt (sec 60)]) beginFails
        knownX "X").cs.db = knownX.db := by
  decide

/-- C19 amended: the descriptor and the working set are changed as soon as the
fetch has succeeded, before the commit. When `UpdateCandlesHistory` fails
because the fetch failed, the storage is what it was before the call; when the
fetch succeeds, whatever the commit returns, the descriptor has
`LastUpdate = now` and the working set is the previous one followed by the
fetched candles; an error returned then is an error of the database. -/
theorem C19_UpdateCandlesHistory_mutates_before_commit {F : Type} (toFloat : Quotation → F)
    (now : Time) (mds : MarketDataService) (f : Faults) (c : CandlesStorage F) (id : String)
    (inst : StorageInstrument) (hin : c.instruments id = some inst) :
    (∀ msg,
      mds { Instrument := id, Interval := inst.CandleInterval, From := inst.LastUpdate,
            To := now, File := false, FileName := "" } = .error msg →
      (UpdateCandlesHistory toFloat now mds f c id).err = some (.fetch msg) ∧
      (UpdateCandlesHistory toFloat now mds f c id).cs = c) ∧
    (∀ newCandles,
      mds { Instrument := id, Interval := inst.CandleInterval, From := inst.LastUpdate,
            To := now, File := false, FileName := "" } = .ok newCandles →
      (UpdateCandlesHistory toFloat now mds f c id).cs.instruments id
        = some { inst with LastUpdate := now } ∧
      (UpdateCandlesHistory toFloat now mds f c id).cs.candles id
        = some ((c.candles id).getD [] ++ newCandles) ∧
      (UpdateCandlesHistory toFloat now mds f c id).err
        = (storeCandlesInDB toFloat f
            { c with
              instruments := setKey c.instruments id { inst with LastUpdate := now },
              candles := setKey c.candles id ((c.candles id).getD [] ++ newCandles) }
            id now newCandles).1.map StorageError.db) := by
  constructor
  · intro msg hm
    simp [UpdateCandlesHistory, hin, hm]
  · intro newCandles hm
    refine ⟨?_, ?_, ?_⟩
    · simp only [UpdateCandlesHistory, hin, hm, storeCandlesInDB]
      split <;> (try split) <;> simp [setKey]
    · simp only [UpdateCandlesHistory, hin, hm, storeCandlesInDB]
      split <;> (try split) <;> simp [setKey]
    · simp [UpdateCandlesHistory, hin, hm]

/-- C19 amended, on the storage `knownX`: a failed fetch leaves the storage as
it was. -/
theorem C19_UpdateCandlesHistory_mutates_before_commit_witness :
    (UpdateCandlesHistory unitsOnly (sec 100) unavailable Faults.healthy knownX "X").err
      = some (.fetch "unavailable") ∧
    (UpdateCandlesHistory unitsOnly (sec 100) unavailable Faults.healthy knownX "X").cs
      = knownX :=
  (C19_UpdateCandlesHistory_mutates_before_commit unitsOnly (sec 100) unavailable
    Faults.healthy knownX "X"
    { CandleInterval := 1, PriceStep := none, FirstUpdate := sec 0, LastUpdate := sec 50,
      Ticker := "TCKR" } rfl).1 "unavailable" rfl

/-- C20 (evaluation at the input where the code leaves the claim): on an empty
storage, `LoadCandlesHistory("X", 1, nil, from = 50 s)` at `now = 100 s`
requests the candles from 50 s to 100 s and returns no error; the descriptor it
records has `LastUpdate = now` and the zero time as `FirstUpdate`, and the
checkpoint row has `first_time = -62135596800` (the zero time in Unix seconds),
not 50. -/
theorem C20_LoadCandlesHistory_records_zero_first_update :
    (LoadCandlesHistory unitsOnly (sec 100) (answering [candleAt (sec 60)]) Faults.healthy
        (storageOf []) "X" 1 none (sec 50)).err = none ∧
    (LoadCandlesHistory unitsOnly (sec 100) (answering [candleAt (sec 60)]) Faults.healthy
        (storageOf []) "X" 1 none (sec 50)).log
      = [.fetch { Instrument := "X", Interval := 1, From := sec 50, To := sec 100,
                  File := false, FileName := "" },
         .store "X" (sec 100) [candleAt (sec 60)]] ∧
    (LoadCandlesHistory unitsOnly (sec 100) (answering [candleAt (sec 60)]) Faults.healthy
        (storageOf []) "X" 1 none (sec 50)).cs.instruments "X"
      = some { CandleInterval := 1, PriceStep := none, FirstUpdate := Time.zero,
               LastUpdate := sec 100, Ticker := "" } ∧
    (LoadCandlesHistory unitsOnly (sec 100) (answering [candleAt (sec 60)]) Faults.healthy
        (storageOf []) "X" 1 none (sec 50)).cs.db.updates
      = [{ InstrumentId := "X", FirstTime := -62135596800, LastTime := 100 }] ∧
    Time.Unix (sec 50) = 50 ∧ Time.zero ≠ sec 50 := by
  decide

/-- C16: in a storage a program can hold (the result of a successful
`NewCandlesStorage` followed by successful `LoadCandlesHistory` and
`UpdateCandlesHistory` calls), for an instrument with a descriptor, a successful
`UpdateCandlesHistory` at a clock reading `now` not before the descriptor's
`LastUpdate` leaves `FirstUpdate` as it was and sets `LastUpdate = now`; the
checkpoint row, which held the two times of the descriptor in Unix seconds,
keeps its first time and gets `now` as last time, which is not less than the
last time it held. -/
theorem C16_UpdateCandlesHistory_monotone {F : Type} [DecidableEq F] [Zero F]
    (toFloat : Quotation → F) (fromFloat : F → Option Quotation → Quotation)
    (c : CandlesStorage F) (id : String) (inst : StorageInstrument) (now : Time)
    (mds : MarketDataService) (f : Faults)
    (hreach : Reachable toFloat fromFloat c) (hin : c.instruments id = some inst)
    (hnow : inst.LastUpdate ≤ now)
    (herr : (UpdateCandlesHistory toFloat now mds f c id).err = none) :
    (UpdateCandlesHistory toFloat now mds f c id).cs.instruments id
      = some { inst with LastUpdate := now } ∧
    checkpointRows c.db id
      = [{ InstrumentId := id, FirstTime := Time.Unix inst.FirstUpdate,
           LastTime := Time.Unix inst.LastUpdate }] ∧
    checkpointRows (UpdateCandlesHistory toFloat now mds f c id).cs.db id
      = [{ InstrumentId := id, FirstTime := Time.Unix inst.FirstUpdate,
           LastTime := Time.Unix now }] ∧
    Time.Unix inst.LastUpdate ≤ Time.Unix now := by
  have hagree := checkpointsAgree_of_reachable toFloat fromFloat c hreach
  have hagree' := checkpointsAgree_UpdateCandlesHistory toFloat now mds f c id hagree herr
  have hdesc : (UpdateCandlesHistory toFloat now mds f c id).cs.instruments id
      = some { inst with LastUpdate := now } := by
    cases hm : mds ⟨id, inst.CandleInterval, inst.LastUpdate, now, false, ""⟩ with
    | error e => simp [UpdateCandlesHistory, hin, hm] at herr
    | ok newCandles =>
      exact (UpdateCandlesHistory_fetched toFloat now mds f c id inst newCandles hin hm).1
  exact ⟨hdesc, hagree id inst hin, hagree' id _ hdesc, unix_mono _ _ hnow⟩

/-- C16 on the storage that `NewCandlesStorage` builds on an empty database for
the instrument `"X"` (synced from 50 s to 100 s), refreshed at 200 s. -/
theorem C16_UpdateCandlesHistory_monotone_witness :
    checkpointRows (NewCandlesStorage unitsOnly unitsBack quietEnv emptyDB requestX).cs.db "X"
      = [{ InstrumentId := "X", FirstTime := 50, LastTime := 100 }] ∧
    checkpointRows (UpdateCandlesHistory unitsOnly (sec 200) (answering [candleAt (sec 150)])
        Faults.healthy (NewCandlesStorage unitsOnly unitsBack quietEnv emptyDB requestX).cs
        "X").cs.db "X"
      = [{ InstrumentId := "X", FirstTime := 50, LastTime := 200 }] :=
  have h := C16_UpdateCandlesHistory_monotone unitsOnly unitsBack
    (NewCandlesStorage unitsOnly unitsBack quietEnv emptyDB requestX).cs "X"
    { instrumentFrom (sec 50) with LastUpdate := sec 100 } (sec 200)
    (answering [candleAt (sec 150)]) Faults.healthy
    (Reachable.new quietEnv emptyDB requestX
      ⟨by decide, fun _ => List.Perm.refl _, by unfold UpdatesUnique; decide,
        by unfold KeysUnique; decide⟩
      (by decide))
    (by decide) (by decide) (by decide)
  ⟨h.2.1, h.2.2.1⟩

/-! ## The indexes of `Candles` -/

/-- The loop once the lower index `L` is found: the lower index stays, and
either no upper index is found (`indexes[1]` stays 0) or the upper index is the
position of a candle not yet visited. -/
theorem scanLoop_upper_index (t0 t1 : Time) (ws : List HistoricCandle) (i L : Nat) :
    (scanLoop t0 t1 ws i { indexes0 := L, indexes1 := 0, currIndex := 1 }).indexes0 = L ∧
    (((scanLoop t0 t1 ws i { indexes0 := L, indexes1 := 0, currIndex := 1 }).currIndex = 1 ∧
      (scanLoop t0 t1 ws i { indexes0 := L, indexes1 := 0, currIndex := 1 }).indexes1 = 0) ∨
     ((scanLoop t0 t1 ws i { indexes0 := L, indexes1 := 0, currIndex := 1 }).currIndex = 2 ∧
      i ≤ (scanLoop t0 t1 ws i { indexes0 := L, indexes1 := 0, currIndex := 1 }).indexes1 ∧
      (scanLoop t0 t1 ws i { indexes0 := L, indexes1 := 0, currIndex := 1 }).indexes1
        < i + ws.length)) := by
  induction ws generalizing i with
  | nil => simp [scanLoop]
  | cons c rest ih =>
    have step : scanLoop t0 t1 (c :: rest) i { indexes0 := L, indexes1 := 0, currIndex := 1 }
        = if Time.After c.Time t1 = true then { indexes0 := L, indexes1 := i, currIndex := 2 }
          else scanLoop t0 t1 rest (i + 1) { indexes0 := L, indexes1 := 0, currIndex := 1 } := by
      by_cases hc : Time.After c.Time t1 = true
      · simp only [scanLoop, Scan.record]
        simp only [Nat.one_lt_ofNat, if_true, one_ne_zero, if_false, hc]
        rw [scanLoop_done _ _ _ _ _ (by simp)]
      · simp [scanLoop, hc]
    rw [step]
    by_cases hc : Time.After c.Time t1 = true
    · simp [hc]
    · obtain ⟨h1, h2⟩ := ih (i + 1)
      rw [if_neg hc]
      refine ⟨h1, ?_⟩
      rcases h2 with h2 | ⟨h2, h3, h4⟩
      · exact Or.inl h2
      · refine Or.inr ⟨h2, by omega, ?_⟩
        simp only [List.length_cons]
        omega

/-- The loop from its start: either no index is found and the locals keep their
zero values, or the lower index is the position of a candle, and the upper index,
when found, is the position of a later candle. -/
theorem scanLoop_indexes (t0 t1 : Time) (ws : List HistoricCandle) (i : Nat) :
    scanLoop t0 t1 ws i { indexes0 := 0, indexes1 := 0, currIndex := 0 }
      = { indexes0 := 0, indexes1 := 0, currIndex := 0 } ∨
    (i ≤ (scanLoop t0 t1 ws i { indexes0 := 0, indexes1 := 0, currIndex := 0 }).indexes0 ∧
     (scanLoop t0 t1 ws i { indexes0 := 0, indexes1 := 0, currIndex := 0 }).indexes0
        < i + ws.length ∧
     (((scanLoop t0 t1 ws i { indexes0 := 0, indexes1 := 0, currIndex := 0 }).currIndex = 1 ∧
       (scanLoop t0 t1 ws i { indexes0 := 0, indexes1 := 0, currIndex := 0 }).indexes1 = 0) ∨
      ((scanLoop t0 t1 ws i { indexes0 := 0, indexes1 := 0, currIndex := 0 }).currIndex = 2 ∧
       (scanLoop t0 t1 ws i { indexes0 := 0, indexes1 := 0, currIndex := 0 }).indexes0
         < (scanLoop t0 t1 ws i { indexes0 := 0, indexes1 := 0, currIndex := 0 }).indexes1 ∧
       (scanLoop t0 t1 ws i { indexes0 := 0, indexes1 := 0, currIndex := 0 }).indexes1
         < i + ws.length))) := by
  induction ws generalizing i with
  | nil => left; rfl
  | cons c rest ih =>
    have step : scanLoop t0 t1 (c :: rest) i { indexes0 := 0, indexes1 := 0, currIndex := 0 }
        = if Time.After c.Time t0 = true then
            scanLoop t0 t1 rest (i + 1) { indexes0 := i, indexes1 := 0, currIndex := 1 }
          else scanLoop t0 t1 rest (i + 1) { indexes0 := 0, indexes1 := 0, currIndex := 0 } := by
      by_cases hc : Time.After c.Time t0 = true
      · simp [scanLoop, Scan.record, hc]
      · simp [scanLoop, hc]
    rw [step]
    by_cases hc : Time.After c.Time t0 = true
    · right
      obtain ⟨h1, h2⟩ := scanLoop_upper_index t0 t1 rest (i + 1) i
      rw [if_pos hc]
      simp only [List.length_cons]
      rw [h1]
      refine ⟨le_refl i, by omega, ?_⟩
      rcases h2 with h2 | ⟨h2, h3, h4⟩
      · exact Or.inl h2
      · exact Or.inr ⟨h2, by omega, by omega⟩
    · rw [if_neg hc]
      simp only [List.length_cons]
      rcases ih (i + 1) with h | ⟨h1, h2, h3⟩
      · exact Or.inl h
      · refine Or.inr ⟨by omega, by omega, ?_⟩
        rcases h3 with h3 | ⟨h3, h4, h5⟩
        · exact Or.inl h3
        · exact Or.inr ⟨h3, h4, by omega⟩

/-- A result of the scan is a non-empty run of consecutive candles of the
working set. -/
theorem scanResult_infix (from_ to_ : Time) (ws r : List HistoricCandle)
    (h : scanResult from_ to_ ws = some r) :
    r ≠ [] ∧ ∃ pre post, ws = pre ++ r ++ post := by
  induction ws with
  | nil => simp [scanResult] at h
  | cons c rest ih =>
    by_cases hc : Time.After c.Time from_ = true
    · simp only [scanResult, hc, if_true, Option.some.injEq] at h
      subst h
      refine ⟨by simp, [], rest.dropWhile (fun x => !Time.After x.Time to_), ?_⟩
      simp [List.takeWhile_append_dropWhile]
    · have hc' : Time.After c.Time from_ = false := by simpa using hc
      simp only [scanResult, hc', Bool.false_eq_true, if_false] at h
      obtain ⟨hne, pre, post, hws⟩ := ih h
      exact ⟨hne, c :: pre, post, by simp [hws]⟩

/-- C22 as stated fails for the empty working set: the lower index is 0, the
length is 0, so `lower < length` does not hold; `Candles` then returns the
not-covered error without slicing. -/
theorem C22_counterexample :
    (scanLoop 5 7 [] 0 { indexes0 := 0, indexes1 := 0, currIndex := 0 }).indexes0 = 0 ∧
    ([] : List HistoricCandle).length = 0 ∧
    ¬ ((scanLoop 5 7 [] 0 { indexes0 := 0, indexes1 := 0, currIndex := 0 }).indexes0
        < ([] : List HistoricCandle).length) ∧
    Candles (storageOf []) "X" 5 7 = .error (.candlesNotFound "not found" 5) := by
  decide

/-- C22 amended: for every working set, sorted or not, and every `from`, `to`,
the locals `s` the loop of `Candles` ends with satisfy: the lower index is at
most the length, and below it when the working set is not empty or a lower
index was found; an upper index, when found, lies strictly between the lower
index and the length; `indexes[1] == 0` holds exactly when no upper index was
found. So no slice expression is out of range, and a successful call returns
the slice between the two indexes (to the end when there is no upper index),
which is a non-empty run of consecutive candles of the working set. -/
theorem C22_Candles_indexes_in_range {F : Type} (c : CandlesStorage F) (id : String)
    (ws : List HistoricCandle) (from_ to_ : Time) (s : Scan)
    (hws : c.candles id = some ws)
    (hs : s = scanLoop from_ to_ ws 0 { indexes0 := 0, indexes1 := 0, currIndex := 0 }) :
    s.indexes0 ≤ ws.length ∧
    (ws ≠ [] → s.indexes0 < ws.length) ∧
    (s.currIndex ≠ 0 → s.indexes0 < ws.length) ∧
    s.currIndex ≤ 2 ∧
    (s.currIndex = 2 → s.indexes0 < s.indexes1 ∧ s.indexes1 < ws.length) ∧
    (s.indexes1 = 0 ↔ s.currIndex < 2) ∧
    Candles c id from_ to_ ≠ .error .sliceBoundsOutOfRange ∧
    (∀ r, Candles c id from_ to_ = .ok r →
      r = (if s.indexes1 = 0 then ws.drop s.indexes0
           else (ws.take s.indexes1).drop s.indexes0) ∧
      r ≠ [] ∧ ∃ pre post, ws = pre ++ r ++ post) := by
  have hidx := scanLoop_indexes from_ to_ ws 0
  rw [← hs] at hidx
  simp only [Nat.zero_add, Nat.zero_le, true_and] at hidx
  have hlen : ws ≠ [] → 0 < ws.length := fun h => List.length_pos.mpr h
  have hfacts : s.indexes0 ≤ ws.length ∧ (ws ≠ [] → s.indexes0 < ws.length) ∧
      (s.currIndex ≠ 0 → s.indexes0 < ws.length) ∧ s.currIndex ≤ 2 ∧
      (s.currIndex = 2 → s.indexes0 < s.indexes1 ∧ s.indexes1 < ws.length) ∧
      (s.indexes1 = 0 ↔ s.currIndex < 2) := by
    rcases hidx with h0 | ⟨h1, h2⟩
    · rw [h0]
      exact ⟨Nat.zero_le _, hlen, fun h => absurd rfl h, by decide, fun h => absurd h (by decide),
        by decide⟩
    · rcases h2 with ⟨h2, h3⟩ | ⟨h2, h3, h4⟩
      · refine ⟨le_of_lt h1, fun _ => h1, fun _ => h1, by omega, fun h => by omega, ?_⟩
        constructor
        · intro _; omega
        · intro _; exact h3
      · refine ⟨le_of_lt h1, fun _ => h1, fun _ => h1, by omega, fun _ => ⟨h3, h4⟩, ?_⟩
        constructor
        · intro h; omega
        · intro h; omega
  obtain ⟨f1, f2, f3, f4, f5, f6⟩ := hfacts
  refine ⟨f1, f2, f3, f4, f5, f6, ?_, ?_⟩
  · rw [Candles_eq, hws]
    cases hsr : scanResult from_ to_ ws <;> simp [hsr]
  · intro r hr
    have hinfix : r ≠ [] ∧ ∃ pre post, ws = pre ++ r ++ post := by
      rw [Candles_eq, hws] at hr
      cases hsr : scanResult from_ to_ ws with
      | none => simp [hsr] at hr
      | some r' =>
        simp only [hsr, Except.ok.injEq] at hr
        subst hr
        exact scanResult_infix from_ to_ ws r' hsr
    refine ⟨?_, hinfix⟩
    unfold Candles at hr
    simp only [hws, ← hs] at hr
    by_cases hc0 : s.currIndex = 0
    · simp [hc0] at hr
    · have hlt := f3 hc0
      by_cases h1 : s.indexes1 = 0
      · simp only [hc0, h1, if_true, if_false, goSlice] at hr ⊢
        have : s.indexes0 ≤ ws.length ∧ ws.length ≤ ws.length := ⟨f1, le_refl _⟩
        simp only [this, and_self, if_true, Except.ok.injEq, List.take_length] at hr
        exact hr.symm
      · have hc2 : s.currIndex = 2 := by
          have := f6.not.mp h1
          omega
        obtain ⟨g1, g2⟩ := f5 hc2
        simp only [hc0, h1, if_false, goSlice] at hr ⊢
        have : s.indexes0 ≤ s.indexes1 ∧ s.indexes1 ≤ ws.length := ⟨le_of_lt g1, le_of_lt g2⟩
        simp only [this, and_self, if_true, Except.ok.injEq] at hr
        exact hr.symm

/-- C22 amended, at the working set {10, 20, 30} with from = 5 and to = 15: the
lower index is 0, the upper index 1, and the result is the candle at 10. -/
theorem C22_Candles_indexes_in_range_witness :
    (scanLoop 5 15 [candleAt 10, candleAt 20, candleAt 30] 0
      { indexes0 := 0, indexes1 := 0, currIndex := 0 })
      = { indexes0 := 0, indexes1 := 1, currIndex := 2 } ∧
    Candles (storageOf [candleAt 10, candleAt 20, candleAt 30]) "X" 5 15
      ≠ .error .sliceBoundsOutOfRange ∧
    [candleAt 10] = (if (1 : Nat) = 0 then [candleAt 10, candleAt 20, candleAt 30].drop 0
      else ([candleAt 10, candleAt 20, candleAt 30].take 1).drop 0) :=
  have h := C22_Candles_indexes_in_range (storageOf [candleAt 10, candleAt 20, candleAt 30]) "X"
    [candleAt 10, candleAt 20, candleAt 30] 5 15
    { indexes0 := 0, indexes1 := 1, currIndex := 2 } rfl (by decide)
  ⟨by decide, h.2.2.2.2.2.2.1, (h.2.2.2.2.2.2.2 [candleAt 10] (by decide)).1⟩

/-! ## From `storeCandlesInDB` to `loadCandlesFromDB` and back -/

theorem hasKey_of_no_candleRows {F : Type} (db : DB F) (uid : String) (t : Int)
    (h : candleRows db uid = []) : hasKey db.candles uid t = false := by
  rw [hasKey_eq_false_iff]
  intro r hr hk
  simp only [candleRows, List.filter_eq_nil_iff] at h
  exact h r hr (by simp [hk.1])

theorem hasKey_single_other {F : Type} (toFloat : Quotation → F) (n : Nat) (uid : String)
    (candle : HistoricCandle) (t : Int) (h : Time.Unix candle.Time ≠ t) :
    hasKey [candleRow toFloat n uid candle] uid t = false := by
  simp [hasKey, candleRow, h]

/-- With no fault on any `Exec`, a batch whose timestamps (in seconds) are
pairwise different and not stored for the instrument is appended whole, in the
order of the batch: one row per candle, with its time in seconds, its volume and
its flag as 1 or 0, and an `id` above the counter. -/
theorem insertLoop_fresh {F : Type} (toFloat : Quotation → F) (execErr : Nat → Option DBError)
    (uid : String) (hnone : ∀ k, execErr k = none) (hc : List HistoricCandle) (k : Nat)
    (s tx : Tx F)
    (hnew : ∀ candle ∈ hc, hasKey tx.candles uid (Time.Unix candle.Time) = false)
    (hnd : (hc.map (fun x => Time.Unix x.Time)).Nodup) :
    ∃ added, insertLoop toFloat execErr uid hc k { stored := s, seen := tx, inTx := true }
        = (none, { stored := s,
                   seen := { candles := tx.candles ++ added, seq := tx.seq + added.length },
                   inTx := true }) ∧
      added.map (fun r => (r.Time, r.Volume, r.IsComplete))
        = hc.map (fun x => (Time.Unix x.Time, x.Volume, if x.IsComplete then (1 : Int) else 0)) ∧
      ∀ r ∈ added, r.InstrumentUid = uid ∧ tx.seq < r.Id := by
  induction hc generalizing k tx with
  | nil => exact ⟨[], by simp [insertLoop], rfl, by simp⟩
  | cons candle rest ih =>
    have hk := hnew candle (by simp)
    have hnd' : Time.Unix candle.Time ∉ rest.map (fun x => Time.Unix x.Time) ∧
        (rest.map (fun x => Time.Unix x.Time)).Nodup :=
      List.nodup_cons.mp (by simpa using hnd)
    have hnew' : ∀ x ∈ rest,
        hasKey (tx.candles ++ [candleRow toFloat (tx.seq + 1) uid candle]) uid
          (Time.Unix x.Time) = false := by
      intro x hx
      rw [hasKey_append, hnew x (by simp [hx]), Bool.false_or]
      apply hasKey_single_other
      intro heq
      exact hnd'.1 (heq ▸ List.mem_map_of_mem (fun x => Time.Unix x.Time) hx)
    obtain ⟨added, h1, h2, h3⟩ := ih (k + 1)
      { candles := tx.candles ++ [candleRow toFloat (tx.seq + 1) uid candle], seq := tx.seq + 1 }
      hnew' hnd'.2
    refine ⟨candleRow toFloat (tx.seq + 1) uid candle :: added, ?_, ?_, ?_⟩
    · simp [insertLoop, insertExec, hnone, hk, h1]
      omega
    · simp [h2, candleRow]
    · intro r hr
      rcases List.mem_cons.mp hr with rfl | hr
      · exact ⟨rfl, by simp [candleRow]⟩
      · obtain ⟨g1, g2⟩ := h3 r hr
        exact ⟨g1, by simp only at g2; omega⟩

/-- When no call fails for a reason of its own, a commit of a batch whose
timestamps (in seconds) are pairwise different and not stored for the
instrument returns no error and appends one row per candle, in the order of
the batch. -/
theorem storeCandlesInDB_fresh {F : Type} (toFloat : Quotation → F) (f : Faults)
    (c : CandlesStorage F) (uid : String) (update : Time) (hc : List HistoricCandle)
    (hf : f.OnlyUniqueness)
    (hnew : ∀ candle ∈ hc, hasKey c.db.candles uid (Time.Unix candle.Time) = false)
    (hnd : (hc.map (fun x => Time.Unix x.Time)).Nodup) :
    ∃ added, (storeCandlesInDB toFloat f c uid update hc).1 = none ∧
      (storeCandlesInDB toFloat f c uid update hc).2.db.candles = c.db.candles ++ added ∧
      added.map (fun r => (r.Time, r.Volume, r.IsComplete))
        = hc.map (fun x => (Time.Unix x.Time, x.Volume, if x.IsComplete then (1 : Int) else 0)) ∧
      ∀ r ∈ added, r.InstrumentUid = uid ∧ c.db.seq < r.Id := by
  obtain ⟨added, hloop, hsum, hrows⟩ := insertLoop_fresh toFloat f.execErr uid hf.2.2.1 hc 0
    { candles := c.db.candles, seq := c.db.seq } { candles := c.db.candles, seq := c.db.seq }
    hnew hnd
  obtain ⟨hr, hcand, _⟩ := storeCandlesInDB_of_loop toFloat f c uid update hc hf _ _ hloop
  exact ⟨added, hr, hcand, hsum, hrows⟩

theorem ofUnix_mono (a b : Int) (h : a ≤ b) : Time.ofUnix a ≤ Time.ofUnix b := by
  unfold Time.ofUnix
  exact Int.mul_le_mul_of_nonneg_right h (by decide)

/-- C21: for a batch of candles of one instrument with pairwise different
whole-second timestamps, committed by `storeCandlesInDB` (no call failing for a
reason of its own) into a store that holds no candle of the instrument,
`loadCandlesFromDB` with `from` not after and `to` not before any timestamp of
the batch (so with the smallest and the largest) returns one candle per candle
of the batch, in ascending order of timestamp, with the timestamp, the volume
and the completeness flag of the batch. -/
theorem C21_store_then_load_round_trip {F : Type} [DecidableEq F] [Zero F]
    (toFloat : Quotation → F) (fromFloat : F → Option Quotation → Quotation) (f : Faults)
    (c : CandlesStorage F) (uid : String) (update : Time) (hc : List HistoricCandle)
    (inc : Option Quotation) (from_ to_ : Time)
    (hf : f.OnlyUniqueness) (hempty : candleRows c.db uid = [])
    (hdistinct : (hc.map (fun x => x.Time)).Nodup)
    (hwhole : ∀ x ∈ hc, Time.ofUnix (Time.Unix x.Time) = x.Time)
    (hfrom : ∀ x ∈ hc, from_ ≤ x.Time) (hto : ∀ x ∈ hc, x.Time ≤ to_) :
    (storeCandlesInDB toFloat f c uid update hc).1 = none ∧
    ∃ r, loadCandlesFromDB fromFloat none (storeCandlesInDB toFloat f c uid update hc).2
        uid inc from_ to_ = .ok r ∧
      (r.map (fun x => (x.Time, x.Volume, x.IsComplete))).Perm
        (hc.map (fun x => (x.Time, x.Volume, x.IsComplete))) ∧
      r.length = hc.length ∧
      (r.map (fun x => x.Time)).Sorted (fun a b => a < b) := by
  haveI : IsTotal (CandleDB F) (fun a b => a.Time ≤ b.Time) := ⟨fun a b => le_total _ _⟩
  haveI : IsTrans (CandleDB F) (fun a b => a.Time ≤ b.Time) := ⟨fun _ _ _ h1 h2 => le_trans h1 h2⟩
  -- the timestamps stay different in seconds
  have hndU : (hc.map (fun x => Time.Unix x.Time)).Nodup := by
    have h := List.Nodup.map_on (f := Time.Unix) (l := hc.map (fun x => x.Time)) (by
      intro a ha b hb hab
      obtain ⟨x, hx, rfl⟩ := List.mem_map.mp ha
      obtain ⟨y, hy, rfl⟩ := List.mem_map.mp hb
      rw [← hwhole x hx, ← hwhole y hy, hab]) hdistinct
    simpa [List.map_map, Function.comp] using h
  -- the commit appends one row per candle
  obtain ⟨added, hserr, hscand, hsum, hrows⟩ := storeCandlesInDB_fresh toFloat f c uid update
    hc hf (fun x _ => hasKey_of_no_candleRows c.db uid _ hempty) hndU
  refine ⟨hserr, ?_⟩
  -- every added row comes from a candle of the batch
  have hfromBatch : ∀ r ∈ added, ∃ x ∈ hc, r.Time = Time.Unix x.Time := by
    intro r hr
    have hm : (r.Time, r.Volume, r.IsComplete)
        ∈ hc.map (fun x => (Time.Unix x.Time, x.Volume, if x.IsComplete then (1 : Int) else 0)) := by
      rw [← hsum]
      exact List.mem_map_of_mem (fun r => (r.Time, r.Volume, r.IsComplete)) hr
    obtain ⟨x, hx, heq⟩ := List.mem_map.mp hm
    exact ⟨x, hx, (congrArg Prod.fst heq).symm⟩
  -- the query selects exactly the added rows
  have hsel : (storeCandlesInDB toFloat f c uid update hc).2.db.candles.filter (fun r =>
      decide (r.InstrumentUid = uid) && decide (Time.Unix from_ ≤ r.Time)
        && decide (r.Time ≤ Time.Unix to_)) = added := by
    rw [hscand, List.filter_append]
    have h1 : c.db.candles.filter (fun r =>
        decide (r.InstrumentUid = uid) && decide (Time.Unix from_ ≤ r.Time)
          && decide (r.Time ≤ Time.Unix to_)) = [] := by
      rw [List.filter_eq_nil_iff]
      intro r hr
      simp only [candleRows, List.filter_eq_nil_iff] at hempty
      have := hempty r hr
      simp only [decide_eq_true_eq] at this
      simp [this]
    have h2 : added.filter (fun r =>
        decide (r.InstrumentUid = uid) && decide (Time.Unix from_ ≤ r.Time)
          && decide (r.Time ≤ Time.Unix to_)) = added := by
      rw [List.filter_eq_self]
      intro r hr
      obtain ⟨x, hx, ht⟩ := hfromBatch r hr
      have g1 := unix_mono _ _ (hfrom x hx)
      have g2 := unix_mono _ _ (hto x hx)
      simp [(hrows r hr).1, ht, g1, g2]
    rw [h1, h2, List.nil_append]
  -- no row is the zero row
  have hnz : (added.insertionSort (fun a b => a.Time ≤ b.Time)).filter
      (fun dst => decide (dst ≠ CandleDB.zero))
      = added.insertionSort (fun a b => a.Time ≤ b.Time) := by
    rw [List.filter_eq_self]
    intro r hr
    have hr' : r ∈ added := (List.mem_insertionSort _).mp hr
    have hid := (hrows r hr').2
    have : r ≠ CandleDB.zero := by
      intro h
      rw [h] at hid
      simp [CandleDB.zero] at hid
    simp [this]
  refine ⟨(added.insertionSort (fun a b => a.Time ≤ b.Time)).map (fun dst =>
      { Open := fromFloat dst.Open inc, High := fromFloat dst.High inc,
        Low := fromFloat dst.Low inc, Close := fromFloat dst.Close inc,
        Volume := dst.Volume, Time := Time.ofUnix dst.Time,
        IsComplete := decide (dst.IsComplete = (1 : Int)) }),
    by simp only [loadCandlesFromDB, hsel, hnz], ?_, ?_, ?_⟩
  · -- one candle per candle of the batch, with its three fields
    rw [List.map_map]
    have hperm := (List.perm_insertionSort (fun a b : CandleDB F => a.Time ≤ b.Time) added).map
      (fun r => (Time.ofUnix r.Time, r.Volume, decide (r.IsComplete = (1 : Int))))
    refine hperm.trans ?_
    have : added.map (fun r => (Time.ofUnix r.Time, r.Volume, decide (r.IsComplete = (1 : Int))))
        = (added.map (fun r => (r.Time, r.Volume, r.IsComplete))).map
            (fun p => (Time.ofUnix p.1, p.2.1, decide (p.2.2 = (1 : Int)))) := by
      rw [List.map_map]; rfl
    rw [this, hsum, List.map_map]
    apply List.Perm.of_eq
    apply List.map_congr_left
    intro x hx
    simp only [Function.comp, hwhole x hx]
    by_cases hb : x.IsComplete = true
    · simp [hb]
    · have hb' : x.IsComplete = false := by simpa using hb
      simp [hb']
  · simp
    have := congrArg List.length hsum
    simpa using this
  · -- ascending, strictly
    rw [List.map_map]
    have hsorted := List.sorted_insertionSort (fun a b : CandleDB F => a.Time ≤ b.Time) added
    have hle : ((added.insertionSort (fun a b => a.Time ≤ b.Time)).map
        (fun r => Time.ofUnix r.Time)).Sorted (fun a b => a ≤ b) := by
      rw [List.Sorted, List.pairwise_map]
      exact hsorted.imp (fun h => ofUnix_mono _ _ h)
    have hnd : ((added.insertionSort (fun a b => a.Time ≤ b.Time)).map
        (fun r => Time.ofUnix r.Time)).Nodup := by
      have hp := (List.perm_insertionSort (fun a b : CandleDB F => a.Time ≤ b.Time) added).map
        (fun r => Time.ofUnix r.Time)
      rw [hp.nodup_iff]
      have : added.map (fun r => Time.ofUnix r.Time)
          = (added.map (fun r => (r.Time, r.Volume, r.IsComplete))).map
              (fun p => Time.ofUnix p.1) := by
        rw [List.map_map]; rfl
      rw [this, hsum, List.map_map]
      have h2 : hc.map ((fun p : Int × Int × Int => Time.ofUnix p.1) ∘
          (fun x => (Time.Unix x.Time, x.Volume, if x.IsComplete then (1 : Int) else 0)))
          = hc.map (fun x => x.Time) := by
        apply List.map_congr_left
        intro x hx
        simp only [Function.comp, hwhole x hx]
      rw [h2]
      exact hdistinct
    exact hle.lt_of_le hnd

/-- C21 on an empty store, for the batch of the candles at 20 s and 10 s: read
back between 10 s and 20 s, they come in the order 10 s, 20 s. -/
theorem C21_store_then_load_round_trip_witness :
    loadCandlesFromDB unitsBack none
        (storeCandlesInDB unitsOnly Faults.healthy (storageOf []) "X" (sec 100)
          [candleAt (sec 20), candleAt (sec 10)]).2 "X" none (sec 10) (sec 20)
      = .ok [candleAt (sec 10), candleAt (sec 20)] ∧
    ∃ r, loadCandlesFromDB unitsBack none
        (storeCandlesInDB unitsOnly Faults.healthy (storageOf []) "X" (sec 100)
          [candleAt (sec 20), candleAt (sec 10)]).2 "X" none (sec 10) (sec 20) = .ok r ∧
      (r.map (fun x => (x.Time, x.Volume, x.IsComplete))).Perm
        ([candleAt (sec 20), candleAt (sec 10)].map (fun x => (x.Time, x.Volume, x.IsComplete))) ∧
      r.length = [candleAt (sec 20), candleAt (sec 10)].length ∧
      (r.map (fun x => x.Time)).Sorted (fun a b => a < b) :=
  ⟨by decide,
   (C21_store_then_load_round_trip unitsOnly unitsBack Faults.healthy (storageOf []) "X"
    (sec 100) [candleAt (sec 20), candleAt (sec 10)] none (sec 10) (sec 20)
    ⟨rfl, rfl, fun _ => rfl, rfl, rfl⟩ (by decide) (by decide) (by decide) (by decide)
    (by decide)).2⟩

/-! ## Descriptors and working sets have the same keys -/

/-- A run of `NewCandlesStorage` that returns no error went through its three
loops without error, and its storage is the one the third loop leaves. -/
theorem NewCandlesStorage_success_load {F : Type} [DecidableEq F] [Zero F]
    (toFloat : Quotation → F) (fromFloat : F → Option Quotation → Quotation) (env : Env)
    (db : DB F) (req : NewCandlesStorageRequest)
    (herr : (NewCandlesStorage toFloat fromFloat env db req).err = none) :
    (afterReconcile toFloat env db req).err = none ∧
    (afterUpdate toFloat env db req).err = none ∧
    (loadPass fromFloat env req.From req.To (env.rangeOrder 2 req.RequiredInstruments)
      (afterUpdate toFloat env db req).cs).err = none ∧
    (NewCandlesStorage toFloat fromFloat env db req).cs
      = (loadPass fromFloat env req.From req.To (env.rangeOrder 2 req.RequiredInstruments)
          (afterUpdate toFloat env db req).cs).cs := by
  unfold NewCandlesStorage at herr ⊢
  unfold afterUpdate afterReconcile
  cases hi : env.initErr with
  | some e => simp [hi] at herr
  | none =>
    cases hl : env.lastUpdatesErr with
    | some e => simp [hi, hl] at herr
    | none =>
      simp only [hi, hl] at herr ⊢
      cases h1 : (reconcilePass toFloat env (lastUpdates db.updates)
          (env.rangeOrder 0 req.RequiredInstruments) (emptyStorage db)).err with
      | some e => simp [h1] at herr
      | none =>
        simp only [h1] at herr ⊢
        cases hu : req.Update with
        | false =>
          simp only [hu, Bool.false_eq_true, if_false] at herr ⊢
          exact ⟨trivial, trivial, herr, trivial⟩
        | true =>
          simp only [hu, if_true] at herr ⊢
          cases h2 : (updatePass toFloat env (env.rangeOrder 1 req.RequiredInstruments)
              (reconcilePass toFloat env (lastUpdates db.updates)
                (env.rangeOrder 0 req.RequiredInstruments) (emptyStorage db)).cs).err with
          | some e => simp [h2] at herr
          | none =>
            simp only [h2] at herr ⊢
            exact ⟨trivial, trivial, herr, trivial⟩

/-- Assigning a descriptor and a working set under one key keeps the two key
sets equal. -/
theorem sameKeys_setKey {F : Type} (c c1 : CandlesStorage F) (id : String)
    (v : StorageInstrument) (w : List HistoricCandle) (h : SameKeys c)
    (hi : c1.instruments = setKey c.instruments id v)
    (hc : c1.candles = setKey c.candles id w) : SameKeys c1 := by
  intro x
  rw [hi, hc]
  by_cases hx : x = id
  · simp [setKey, hx]
  · simp only [setKey, hx, if_false]
    exact h x

/-- Whatever its outcome, `UpdateCandlesHistory` either leaves both maps as they
were, or assigns both under the key of an instrument that had a descriptor. -/
theorem UpdateCandlesHistory_maps {F : Type} (toFloat : Quotation → F) (now : Time)
    (mds : MarketDataService) (f : Faults) (c : CandlesStorage F) (id : String) :
    ((UpdateCandlesHistory toFloat now mds f c id).cs.instruments = c.instruments ∧
      (UpdateCandlesHistory toFloat now mds f c id).cs.candles = c.candles) ∨
    ∃ v w, (c.instruments id).isSome ∧
      (UpdateCandlesHistory toFloat now mds f c id).cs.instruments
        = setKey c.instruments id v ∧
      (UpdateCandlesHistory toFloat now mds f c id).cs.candles = setKey c.candles id w := by
  unfold UpdateCandlesHistory
  cases hi : c.instruments id with
  | none => exact Or.inl ⟨rfl, rfl⟩
  | some inst =>
    simp only
    cases hm : mds ⟨id, inst.CandleInterval, inst.LastUpdate, now, false, ""⟩ with
    | error e => exact Or.inl ⟨rfl, rfl⟩
    | ok newCandles =>
      refine Or.inr ⟨{ inst with LastUpdate := now }, (c.candles id).getD [] ++ newCandles,
        rfl, ?_, ?_⟩
      · simp only
        rw [(storeCandlesInDB_footprint toFloat f _ _ _ _).1]
      · simp only
        rw [(storeCandlesInDB_footprint toFloat f _ _ _ _).2.1]

/-- Whatever its outcome, `LoadCandlesHistory` either leaves both maps as they
were, or assigns both under the key of its instrument. -/
theorem LoadCandlesHistory_maps {F : Type} (toFloat : Quotation → F) (now : Time)
    (mds : MarketDataService) (f : Faults) (c : CandlesStorage F) (id : String)
    (interval : Int) (inc : Option Quotation) (from_ : Time) :
    ((LoadCandlesHistory toFloat now mds f c id interval inc from_).cs.instruments
        = c.instruments ∧
      (LoadCandlesHistory toFloat now mds f c id interval inc from_).cs.candles = c.candles) ∨
    ∃ v w,
      (LoadCandlesHistory toFloat now mds f c id interval inc from_).cs.instruments
        = setKey c.instruments id v ∧
      (LoadCandlesHistory toFloat now mds f c id interval inc from_).cs.candles
        = setKey c.candles id w := by
  unfold LoadCandlesHistory
  simp only
  cases hm : mds ⟨id, interval, from_, now, false, ""⟩ with
  | error e => exact Or.inl ⟨rfl, rfl⟩
  | ok newCandles =>
    refine Or.inr ⟨{ StorageInstrument.zero with
        CandleInterval := interval, PriceStep := inc, LastUpdate := now }, newCandles, ?_, ?_⟩
    · simp only
      rw [(storeCandlesInDB_footprint toFloat f _ _ _ _).1]
    · simp only
      rw [(storeCandlesInDB_footprint toFloat f _ _ _ _).2.1]

/-- Whatever its outcome, `UpdateCandlesHistory` keeps the two key sets equal. -/
theorem UpdateCandlesHistory_sameKeys {F : Type} (toFloat : Quotation → F) (now : Time)
    (mds : MarketDataService) (f : Faults) (c : CandlesStorage F) (id : String)
    (h : SameKeys c) : SameKeys (UpdateCandlesHistory toFloat now mds f c id).cs := by
  rcases UpdateCandlesHistory_maps toFloat now mds f c id with ⟨hi, hc⟩ | ⟨v, w, _, hi, hc⟩
  · intro x
    rw [hi, hc]
    exact h x
  · exact sameKeys_setKey c _ id v w h hi hc

/-- Whatever its outcome, `LoadCandlesHistory` keeps the two key sets equal. -/
theorem LoadCandlesHistory_sameKeys {F : Type} (toFloat : Quotation → F) (now : Time)
    (mds : MarketDataService) (f : Faults) (c : CandlesStorage F) (id : String)
    (interval : Int) (inc : Option Quotation) (from_ : Time)
    (h : SameKeys c) :
    SameKeys (LoadCandlesHistory toFloat now mds f c id interval inc from_).cs := by
  rcases LoadCandlesHistory_maps toFloat now mds f c id interval inc from_ with
    ⟨hi, hc⟩ | ⟨v, w, hi, hc⟩
  · intro x
    rw [hi, hc]
    exact h x
  · exact sameKeys_setKey c _ id v w h hi hc

/-- A run of the body of the per-instrument pass that returns no error enters the
descriptor of its instrument, and no other. -/
theorem reconcileOne_keys {F : Type} (toFloat : Quotation → F) (now : Time)
    (mds : MarketDataService) (f : Faults) (DBUpdates : String → Option StorageInstrument)
    (entry : String × StorageInstrument) (cs : CandlesStorage F)
    (herr : (reconcileOne toFloat now mds f DBUpdates entry cs).err = none) (id : String) :
    ((reconcileOne toFloat now mds f DBUpdates entry cs).cs.instruments id).isSome
      ↔ ((cs.instruments id).isSome ∨ id = entry.1) := by
  by_cases hid : id = entry.1
  · subst hid
    have hsome : ((reconcileOne toFloat now mds f DBUpdates entry cs).cs.instruments
        entry.1).isSome := by
      cases hu : DBUpdates entry.1 with
      | none =>
        rw [((reconcileOne_new toFloat now mds f DBUpdates entry cs hu).2 herr).1]
        rfl
      | some upd =>
        by_cases hafter : upd.FirstUpdate < entry.2.FirstUpdate
        · rw [(reconcileOne_adopt toFloat now mds f DBUpdates entry cs upd hu hafter).2.2.2]
          rfl
        · rw [((reconcileOne_gap toFloat now mds f DBUpdates entry cs upd hu
            (not_lt.mp hafter)).2 herr).1]
          rfl
    simp [hsome]
  · rw [((reconcileOne_footprint toFloat now mds f DBUpdates entry cs).1 id hid).1]
    simp [hid]

/-- After a per-instrument pass without error on a storage without descriptors,
the instruments with a descriptor are the entries of the pass, and the working
sets are as before. -/
theorem reconcilePass_keys {F : Type} (toFloat : Quotation → F) (env : Env)
    (DBUpdates : String → Option StorageInstrument)
    (order : List (String × StorageInstrument)) (cs : CandlesStorage F)
    (h0 : ∀ id, cs.instruments id = none)
    (herr : (reconcilePass toFloat env DBUpdates order cs).err = none) :
    (∀ id, ((reconcilePass toFloat env DBUpdates order cs).cs.instruments id).isSome
      ↔ id ∈ order.map Prod.fst) ∧
    (reconcilePass toFloat env DBUpdates order cs).cs.candles = cs.candles := by
  constructor
  · have h := rangeLoop_invariant
      (fun (entry : String × StorageInstrument) cs' =>
        reconcileOne toFloat env.now env.mds (env.faults entry.1) DBUpdates entry cs')
      (fun rest cs' => ∀ id, ((cs'.instruments id).isSome ∨ id ∈ rest.map Prod.fst)
        ↔ id ∈ order.map Prod.fst)
      (fun x rest cs' hJ he id => by
        rw [reconcileOne_keys toFloat env.now env.mds (env.faults x.1) DBUpdates x cs' he id,
          ← hJ id]
        simp only [List.map_cons, List.mem_cons]
        tauto)
      order cs (fun id => by simp [h0 id]) herr
    intro id
    have := h id
    simpa using this
  · exact rangeLoop_preserves
      (fun (entry : String × StorageInstrument) cs' =>
        reconcileOne toFloat env.now env.mds (env.faults entry.1) DBUpdates entry cs')
      (fun cs' => cs'.candles = cs.candles) order cs
      (fun x _ cs' hq =>
        (reconcileOne_footprint toFloat env.now env.mds (env.faults x.1) DBUpdates x
          cs').2.1.trans hq)
      rfl

/-- The update pass, wherever it stops, keeps the set of instruments with a
descriptor, and gives a working set only to instruments that have a descriptor
or had a working set. -/
theorem updatePass_keys {F : Type} (toFloat : Quotation → F) (env : Env)
    (order : List (String × StorageInstrument)) (cs : CandlesStorage F) :
    (∀ id, ((updatePass toFloat env order cs).cs.instruments id).isSome
      ↔ (cs.instruments id).isSome) ∧
    (∀ id, ((updatePass toFloat env order cs).cs.candles id).isSome →
      (cs.instruments id).isSome ∨ (cs.candles id).isSome) := by
  exact rangeLoop_preserves
    (fun (entry : String × StorageInstrument) cs' =>
      UpdateCandlesHistory toFloat (env.updateNow entry.1) env.updateMds
        (env.updateFaults entry.1) cs' entry.1)
    (fun cs' => (∀ id, (cs'.instruments id).isSome ↔ (cs.instruments id).isSome) ∧
      (∀ id, (cs'.candles id).isSome → (cs.instruments id).isSome ∨ (cs.candles id).isSome))
    order cs
    (fun x _ cs' hq => by
      rcases UpdateCandlesHistory_maps toFloat (env.updateNow x.1) env.updateMds
        (env.updateFaults x.1) cs' x.1 with ⟨hi, hc⟩ | ⟨v, w, hk, hi, hc⟩
      · rw [hi, hc]
        exact hq
      · rw [hi, hc]
        constructor
        · intro id
          by_cases hx : id = x.1
          · subst hx
            simp only [setKey, if_true, Option.isSome_some, true_iff]
            exact (hq.1 _).mp hk
          · simp only [setKey, hx, if_false]
            exact hq.1 id
        · intro id
          by_cases hx : id = x.1
          · subst hx
            intro _
            exact Or.inl ((hq.1 _).mp hk)
          · simp only [setKey, hx, if_false]
            exact hq.2 id)
    ⟨fun _ => Iff.rfl, fun _ h => Or.inr h⟩

/-- After a load pass without error, the instruments with a working set are the
entries of the pass and the instruments that had one before. -/
theorem loadPass_keys {F : Type} [DecidableEq F] [Zero F]
    (fromFloat : F → Option Quotation → Quotation) (env : Env) (from_ to_ : Time)
    (order : List (String × StorageInstrument)) (cs : CandlesStorage F)
    (herr : (loadPass fromFloat env from_ to_ order cs).err = none) (id : String) :
    ((loadPass fromFloat env from_ to_ order cs).cs.candles id).isSome
      ↔ ((cs.candles id).isSome ∨ id ∈ order.map Prod.fst) := by
  have h := rangeLoop_invariant
    (fun (entry : String × StorageInstrument) (cs : CandlesStorage F) =>
      match loadCandlesFromDB fromFloat (env.loadErr entry.1) cs entry.1 entry.2.PriceStep
          from_ to_ with
      | .error err => ({ err := some (.db err), cs := cs, log := [] } : Step F)
      | .ok tmp => { err := none, cs := { cs with candles := setKey cs.candles entry.1 tmp },
                     log := [] })
    (fun rest cs' => ((cs'.candles id).isSome ∨ id ∈ rest.map Prod.fst)
      ↔ ((cs.candles id).isSome ∨ id ∈ order.map Prod.fst))
    (fun x rest cs' hJ he => by
      dsimp only at hJ he ⊢
      rw [← hJ]
      revert he
      cases loadCandlesFromDB fromFloat (env.loadErr x.1) cs' x.1 x.2.PriceStep from_ to_ with
      | error e => intro he; simp at he
      | ok tmp =>
        intro _
        simp only [List.map_cons, List.mem_cons]
        by_cases hx : id = x.1
        · simp [setKey, hx]
        · simp [setKey, hx])
    order cs Iff.rfl herr
  have h2 := h
  simp only [List.map_nil, List.not_mem_nil, or_false] at h2
  exact h2

/-- After a successful `NewCandlesStorage`, the instruments with a descriptor and
the instruments with a working set are both the required instruments. -/
theorem NewCandlesStorage_keys {F : Type} [DecidableEq F] [Zero F]
    (toFloat : Quotation → F) (fromFloat : F → Option Quotation → Quotation) (env : Env)
    (db : DB F) (req : NewCandlesStorageRequest) (hwf : WellFormed env db req)
    (herr : (NewCandlesStorage toFloat fromFloat env db req).err = none) (id : String) :
    (((NewCandlesStorage toFloat fromFloat env db req).cs.instruments id).isSome
      ↔ id ∈ req.RequiredInstruments.map Prod.fst) ∧
    (((NewCandlesStorage toFloat fromFloat env db req).cs.candles id).isSome
      ↔ id ∈ req.RequiredInstruments.map Prod.fst) := by
  obtain ⟨h1, _, h3, hcs⟩ := NewCandlesStorage_success_load toFloat fromFloat env db req herr
  have hperm : ∀ k, id ∈ (env.rangeOrder k req.RequiredInstruments).map Prod.fst
      ↔ id ∈ req.RequiredInstruments.map Prod.fst :=
    fun k => ((hwf.2.1 k).map Prod.fst).mem_iff
  have hrec := reconcilePass_keys toFloat env (lastUpdates db.updates)
    (env.rangeOrder 0 req.RequiredInstruments) (emptyStorage db) (fun _ => rfl) h1
  have hrecI : ∀ x, ((afterReconcile toFloat env db req).cs.instruments x).isSome
      ↔ x ∈ (env.rangeOrder 0 req.RequiredInstruments).map Prod.fst := hrec.1
  have hrecC : ∀ x, ((afterReconcile toFloat env db req).cs.candles x).isSome = false := by
    intro x
    have : (afterReconcile toFloat env db req).cs.candles = (emptyStorage db).candles := hrec.2
    rw [this]
    rfl
  have hupd : (((afterUpdate toFloat env db req).cs.instruments id).isSome
        ↔ id ∈ (env.rangeOrder 0 req.RequiredInstruments).map Prod.fst) ∧
      (((afterUpdate toFloat env db req).cs.candles id).isSome →
        id ∈ (env.rangeOrder 0 req.RequiredInstruments).map Prod.fst) := by
    unfold afterUpdate
    cases hu : req.Update with
    | false =>
      simp only [Bool.false_eq_true, if_false]
      exact ⟨hrecI id, fun h => by simp [hrecC id] at h⟩
    | true =>
      simp only [if_true]
      have hk := updatePass_keys toFloat env (env.rangeOrder 1 req.RequiredInstruments)
        (afterReconcile toFloat env db req).cs
      refine ⟨(hk.1 id).trans (hrecI id), fun h => ?_⟩
      rcases hk.2 id h with h | h
      · exact (hrecI id).mp h
      · simp [hrecC id] at h
  rw [hcs]
  constructor
  · rw [(loadPass_footprint fromFloat env req.From req.To _ _).2.1]
    exact hupd.1.trans (hperm 0)
  · rw [loadPass_keys fromFloat env req.From req.To _ _ h3 id]
    constructor
    · rintro (h | h)
      · exact (hperm 0).mp (hupd.2 h)
      · exact (hperm 2).mp h
    · intro h
      exact Or.inr ((hperm 2).mpr h)

/-- In every storage reached from a successful `NewCandlesStorage` by calls of
`LoadCandlesHistory` and `UpdateCandlesHistory`, whatever their outcome, the
instruments with a descriptor are the instruments with a working set. -/
theorem reachableAny_sameKeys {F : Type} [DecidableEq F] [Zero F]
    (toFloat : Quotation → F) (fromFloat : F → Option Quotation → Quotation)
    (c : CandlesStorage F) (h : ReachableAny toFloat fromFloat c) : SameKeys c := by
  induction h with
  | new env db req hwf herr =>
    intro id
    have hk := NewCandlesStorage_keys toFloat fromFloat env db req hwf herr id
    exact hk.1.trans hk.2.symm
  | load c now mds f id interval inc from_ _ ih =>
    exact LoadCandlesHistory_sameKeys toFloat now mds f c id interval inc from_ ih
  | update c now mds f id _ ih =>
    exact UpdateCandlesHistory_sameKeys toFloat now mds f c id ih

/-- `Candles` reports an instrument as unknown exactly when it has no working
set. -/
theorem Candles_unknown_iff {F : Type} (c : CandlesStorage F) (id : String)
    (from_ to_ : Time) :
    Candles c id from_ to_ = .error (.instrumentNotFound id) ↔ c.candles id = none := by
  unfold Candles
  cases hc : c.candles id with
  | none => simp
  | some ws =>
    simp only
    split
    · simp
    · split
      · split <;> simp
      · split <;> simp

/-- `UpdateCandlesHistory` reports an instrument as unknown exactly when it has
no descriptor; it then makes no call and leaves the storage as it was. -/
theorem UpdateCandlesHistory_unknown_iff {F : Type} (toFloat : Quotation → F) (now : Time)
    (mds : MarketDataService) (f : Faults) (c : CandlesStorage F) (id : String) :
    ((UpdateCandlesHistory toFloat now mds f c id).err = some (.notInStorage (c.ticker id))
      ↔ c.instruments id = none) ∧
    ((∃ t, (UpdateCandlesHistory toFloat now mds f c id).err = some (.notInStorage t))
      ↔ c.instruments id = none) := by
  unfold UpdateCandlesHistory
  cases hi : c.instruments id with
  | none => simp
  | some inst =>
    simp only
    cases hm : mds ⟨id, inst.CandleInterval, inst.LastUpdate, now, false, ""⟩ with
    | error e => simp
    | ok newCandles =>
      simp only
      cases (storeCandlesInDB toFloat f _ id now newCandles).1 <;> simp

/-- C23: in every storage reached from a successful `NewCandlesStorage` by
calls of `LoadCandlesHistory` and `UpdateCandlesHistory`, successful or failed,
an instrument has a descriptor exactly when it has a working set; hence
`Candles` reports an instrument as unknown exactly when `UpdateCandlesHistory`
does, whatever the range asked and whatever the clock, the market data service
and the database do. -/
theorem C23_known_instrument_invariant {F : Type} [DecidableEq F] [Zero F]
    (toFloat : Quotation → F) (fromFloat : F → Option Quotation → Quotation)
    (c : CandlesStorage F) (h : ReachableAny toFloat fromFloat c) :
    SameKeys c ∧
    (∀ id, c.instruments id = none ↔ c.candles id = none) ∧
    ∀ (id : String) (from_ to_ now : Time) (mds : MarketDataService) (f : Faults),
      (Candles c id from_ to_ = .error (.instrumentNotFound id)
        ↔ (UpdateCandlesHistory toFloat now mds f c id).err
            = some (.notInStorage (c.ticker id))) ∧
      (Candles c id from_ to_ = .error (.instrumentNotFound id)
        ↔ ∃ t, (UpdateCandlesHistory toFloat now mds f c id).err
            = some (.notInStorage t)) := by
  have hs := reachableAny_sameKeys toFloat fromFloat c h
  have hnone : ∀ id, c.instruments id = none ↔ c.candles id = none := by
    intro id
    have := hs id
    cases hi : c.instruments id <;> cases hc : c.candles id <;> simp [hi, hc] at this ⊢
  refine ⟨hs, hnone, ?_⟩
  intro id from_ to_ now mds f
  have hu := UpdateCandlesHistory_unknown_iff toFloat now mds f c id
  have hcd := Candles_unknown_iff c id from_ to_
  exact ⟨hcd.trans ((hnone id).symm.trans hu.1.symm),
    hcd.trans ((hnone id).symm.trans hu.2.symm)⟩

/-- C23 on the storage built for `"X"`, to which `"Y"` was added and on which an
update then failed: `"X"` and `"Y"` have both a descriptor and a working set,
`"Z"` has neither and both methods report it as unknown. -/
theorem C23_known_instrument_invariant_witness :
    ((afterFailedUpdate.instruments "X").isSome ∧ (afterFailedUpdate.candles "X").isSome ∧
      (afterFailedUpdate.instruments "Y").isSome ∧ (afterFailedUpdate.candles "Y").isSome ∧
      afterFailedUpdate.instruments "Z" = none ∧ afterFailedUpdate.candles "Z" = none ∧
      Candles afterFailedUpdate "Z" (sec 0) (sec 300) = .error (.instrumentNotFound "Z") ∧
      (UpdateCandlesHistory unitsOnly (sec 300) (answering []) Faults.healthy
        afterFailedUpdate "Z").err = some (.notInStorage "not found")) ∧
    (SameKeys afterFailedUpdate ∧
    (∀ id, afterFailedUpdate.instruments id = none ↔ afterFailedUpdate.candles id = none) ∧
    ∀ (id : String) (from_ to_ now : Time) (mds : MarketDataService) (f : Faults),
      (Candles afterFailedUpdate id from_ to_ = .error (.instrumentNotFound id)
        ↔ (UpdateCandlesHistory unitsOnly now mds f afterFailedUpdate id).err
            = some (.notInStorage (afterFailedUpdate.ticker id))) ∧
      (Candles afterFailedUpdate id from_ to_ = .error (.instrumentNotFound id)
        ↔ ∃ t, (UpdateCandlesHistory unitsOnly now mds f afterFailedUpdate id).err
            = some (.notInStorage t))) :=
  ⟨by decide,
   C23_known_instrument_invariant unitsOnly unitsBack afterFailedUpdate
    (ReachableAny.update _ (sec 200) unavailable Faults.healthy "X"
      (ReachableAny.load _ (sec 150) (answering [candleAt (sec 120)]) Faults.healthy "Y" 1 none
        (sec 110)
        (ReachableAny.new quietEnv emptyDB requestX
          ⟨by decide, fun _ => List.Perm.refl _, by unfold UpdatesUnique; decide,
            by unfold KeysUnique; decide⟩
          (by decide))))⟩

/-! ## `SignalServiceClient.GetSignals`: claims -/

/-- What `GetSignals` sends, for every request: the fields other than `From` and
`To` as they are in the request, and neither `From` nor `To`. -/
theorem outgoing_drops_time_filter (request : GetSignalsRequest) :
    SignalServiceClient.outgoing request =
      { SignalId := request.SignalID, StrategyId := request.StrategyID,
        StrategyType := request.StrategyType, InstrumentUid := request.InstrumentUID,
        From := none, To := none, Direction := request.Direction, Active := request.Active,
        Paging := request.Paging } := by
  simp [SignalServiceClient.outgoing]

/-- C24 (evaluation at the input where the code leaves the claim): for the
request `signalsBetween`, whose `From` is 100 s and `To` is 200 s, both non-zero
times, the message `GetSignals` sends has neither `From` nor `To`; the other
fields are those of the request. -/
theorem C24_GetSignals_drops_time_filter :
    signalsBetween.From.IsZero = false ∧ signalsBetween.To.IsZero = false ∧
    (SignalServiceClient.outgoing signalsBetween).From = none ∧
    (SignalServiceClient.outgoing signalsBetween).To = none ∧
    SignalServiceClient.outgoing signalsBetween =
      { SignalId := none, StrategyId := some "s1", StrategyType := none, InstrumentUid := none,
        From := none, To := none, Direction := none, Active := some 1,
        Paging := some { Limit := 10, PageNumber := 0 } } := by
  decide

end Bot
